import Mathlib

/-!
# A verification model of the UPSC Study Desk reconciliation core

This file gives a shallow embedding, in Lean 4, of the scan / match /
reconcile / live-resolve / session-guard core of the UPSC Study Desk
application (`js/file-system.js`, `js/state.js`, `js/invariants.js`,
`js/components/study-mode.js`), together with theorems settling the
behavioural claims made about it.

Modelling conventions:
* JS strings are Lean `String`s.  `toLowerCase`, `trim`, `split` and the
  other string loops are modelled by kernel-computable functions over
  `String.data` (a Lean `String` is exactly its character list); they are
  ASCII-accurate, which covers every input appearing in the claims and the
  concrete examples.
* `Utils.generateId()` (a timestamp/random string, unique in practice) is
  modelled by a `nextId : Nat` counter in the database state; generated ids
  are `Nat`s while the pre-seeded paper ids stay `String`s, as in the source.
* `new Date().toISOString()` is modelled by a monotone `clock : Nat`.
* IndexedDB object stores are modelled as `List`s of rows; `put` replaces
  the row with the same key or appends, `delete` filters the key out.
  The `AppState` read-through caches are not modelled separately: during a
  sync pass every cache is either invalidated on write or kept coherent by
  JS in-place object aliasing, so reads always observe the store contents.
* `async`/`await` control flow is modelled with `Except` (a thrown and
  uncaught exception aborts the computation), and, for the overlapping
  open-item sessions of StudyMode, with an explicit small-step machine whose
  steps are the code segments between `await` suspension points.
-/

set_option linter.unusedVariables false

namespace StudyDesk

/-! ## String helpers (`js/utils.js`, `js/file-system.js`) -/

/-- Split a character list at every occurrence of `sep`; the accumulator
holds the current segment reversed.  Mirrors `String.split` of JS with a
single-character separator (`"".split(c)` gives `[""]`, a trailing separator
gives a trailing empty segment). -/
def splitOnChar (sep : Char) : List Char → List Char → List (List Char)
  | cur, [] => [cur.reverse]
  | cur, c :: cs =>
    if c == sep then cur.reverse :: splitOnChar sep [] cs
    else splitOnChar sep (c :: cur) cs

def splitString (sep : Char) (s : String) : List (List Char) :=
  splitOnChar sep [] s.data

def trimChars (l : List Char) : List Char :=
  ((l.dropWhile Char.isWhitespace).reverse.dropWhile Char.isWhitespace).reverse

/-- JS `s.trim()`. -/
def jsTrim (s : String) : String := ⟨trimChars s.data⟩

/-- JS `s.toLowerCase()` (ASCII-accurate). -/
def jsToLower (s : String) : String := ⟨s.data.map Char.toLower⟩

/-- Join segments with a separator character (the inverse of
`splitOnChar`); models `Array#join('.')` semantics used implicitly by the
extension-stripping regex replacement. -/
def joinSep (sep : Char) : List (List Char) → List Char
  | [] => []
  | [x] => x
  | x :: xs => x ++ sep :: joinSep sep xs

/-- `FileSystem.normalizeName`: `name.toLowerCase().replace(/[\s\-_]/g, '')`. -/
def normalizeName (s : String) : String :=
  String.mk ((jsToLower s).data.filter (fun c => !(c.isWhitespace || c == '-' || c == '_')))

/-- The segment of `s` after its last `'.'` (`filename.split('.').pop()`);
the whole string when there is no dot. -/
def lastDotSegment (s : String) : String :=
  String.mk ((splitString '.' s).getLastD s.data)

/-- `filename.replace(/\.[^/.]+$/, '')`: drop a final `.ext` whose `ext` is a
nonempty run of characters other than `'.'` and `'/'`. -/
def stripExtension (s : String) : String :=
  let parts := splitString '.' s
  match parts with
  | [] => s
  | [_] => s
  | _ =>
    let ext := parts.getLastD []
    if !ext.isEmpty && !(ext.contains '/') then
      String.mk (joinSep '.' parts.dropLast)
    else s

/-- `replace(/[_-]/g, ' ')`. -/
def sepsToSpaces (s : String) : String :=
  String.mk (s.toList.map (fun c => if c == '_' || c == '-' then ' ' else c))

/-- Helper for `replace(/\s+/g, ' ')`: collapse each run of whitespace into a
single space.  `prevWs` records whether the previous character belonged to a
whitespace run already replaced. -/
def collapseWsAux : Bool → List Char → List Char
  | _, [] => []
  | prevWs, c :: cs =>
    if c.isWhitespace then
      (if prevWs then [] else [' ']) ++ collapseWsAux true cs
    else c :: collapseWsAux false cs

/-- `replace(/\s+/g, ' ')`. -/
def collapseWs (s : String) : String :=
  String.mk (collapseWsAux false s.toList)

/-- `FileSystem.getTitleFromFilename`: strip the extension, turn `_`/`-` into
spaces, collapse whitespace and trim. -/
def getTitleFromFilename (filename : String) : String :=
  jsTrim (collapseWs (sepsToSpaces (stripExtension filename)))

/-! ## File classification and ordering (`FileSystem.classifyFile`, the
`localeCompare(..., { numeric: true })` sort) -/

inductive MediaType where
  | video
  | pdf
deriving DecidableEq, Repr

def supportedVideo : List String := [".mp4", ".mkv", ".webm"]

def supportedPdf : List String := [".pdf"]

/-- `FileSystem.classifyFile`. -/
def classifyFile (filename : String) : Option MediaType :=
  let ext := "." ++ jsToLower (lastDotSegment filename)
  if supportedVideo.contains ext then some .video
  else if supportedPdf.contains ext then some .pdf
  else none

/-- Tokens of the numeric-aware filename comparison. -/
inductive NatToken where
  | num (v : Nat) (raw : List Char)
  | chr (c : Char)
deriving DecidableEq, Repr

/-- Tokenizer state: the numeric value and (reversed) raw characters of the
digit run currently being read, if any. -/
def natTokensAux : Option (Nat × List Char) → List Char → List NatToken
  | none, [] => []
  | some (v, raw), [] => [NatToken.num v raw.reverse]
  | none, c :: cs =>
    if c.isDigit then natTokensAux (some (c.toNat - '0'.toNat, [c])) cs
    else NatToken.chr c :: natTokensAux none cs
  | some (v, raw), c :: cs =>
    if c.isDigit then natTokensAux (some (v * 10 + (c.toNat - '0'.toNat), c :: raw)) cs
    else NatToken.num v raw.reverse :: NatToken.chr c :: natTokensAux none cs

/-- Tokenize a string into digit runs (compared numerically) and single
characters. -/
def natTokens (l : List Char) : List NatToken :=
  natTokensAux none l

def cmpChar (a b : Char) : Ordering :=
  match compare a.toLower b.toLower with
  | .eq => compare a b
  | o => o

def cmpToken : NatToken → NatToken → Ordering
  | .num v1 r1, .num v2 r2 =>
    match compare v1 v2 with
    | .eq => compare r1.length r2.length
    | o => o
  | .num _ _, .chr _ => .lt
  | .chr _, .num _ _ => .gt
  | .chr a, .chr b => cmpChar a b

def cmpTokens : List NatToken → List NatToken → Ordering
  | [], [] => .eq
  | [], _ :: _ => .lt
  | _ :: _, [] => .gt
  | a :: as, b :: bs =>
    match cmpToken a b with
    | .eq => cmpTokens as bs
    | o => o

/-- Models `a.localeCompare(b, undefined, { numeric: true })`: digit runs
compare by numeric value, other characters case-insensitively first.  (The
exact locale tie-breaking of ICU is irrelevant to every claim; what matters
is that the scanner and the live resolver use the *same* deterministic
total comparison, which holds here by using this single definition.) -/
def fileNameCompare (a b : String) : Ordering :=
  cmpTokens (natTokens a.toList) (natTokens b.toList)

/-- Stable insertion of `x` into a list: `x` goes before the first element it
is `le` to, so equal keys keep their original relative order. -/
def insertLe {α : Type} (le : α → α → Bool) (x : α) : List α → List α
  | [] => [x]
  | y :: ys => if le x y then x :: y :: ys else y :: insertLe le x ys

/-- Stable insertion sort.  JS `Array#sort` is stable (ES2019), and all stable
sorts agree for a total preorder comparator, so this models the source's sort
faithfully. -/
def isort {α : Type} (le : α → α → Bool) : List α → List α
  | [] => []
  | x :: xs => insertLe le x (isort le xs)

/-! ## Scan tree and scanner (`FileSystem.scanMasterFolder` etc.) -/

/-- A classified file observed in a course folder (name plus media kind;
the capability handle is carried implicitly by the name in this model). -/
structure FileEntry where
  name : String
  type : MediaType
deriving DecidableEq, Repr

abbrev CourseFiles := List FileEntry

abbrev ProviderTree := List (String × CourseFiles)

abbrev PaperTree := List (String × ProviderTree)

abbrev ScanTree := List (String × PaperTree)

/-- A File System Access API handle.  A `brokenDir` is a directory whose
enumeration fails (permission revoked, I/O error): its `kind` is still
`directory`, but iterating it throws. -/
inductive Handle where
  | file (name : String)
  | dir (name : String) (entries : List Handle)
  | brokenDir (name : String) (err : String)

def handleName : Handle → String
  | .file n => n
  | .dir n _ => n
  | .brokenDir n _ => n

/-- `handle.kind === 'directory'`. -/
def isDirectory : Handle → Bool
  | .file _ => false
  | .dir _ _ => true
  | .brokenDir _ _ => true

/-- `for await (const [name, handle] of h)`: enumerate a directory handle.
Fails (throws) on a broken directory; a file handle is not iterable. -/
def listDir : Handle → Except String (List Handle)
  | .dir _ es => .ok es
  | .brokenDir n e => .error e
  | .file n => .error ("not a directory: " ++ n)

def classifyEntry : Handle → Option FileEntry
  | .file n => (classifyFile n).map (fun t => ⟨n, t⟩)
  | _ => none

def fileEntryLe (a b : FileEntry) : Bool :=
  fileNameCompare a.name b.name != .gt

/-- `FileSystem.scanCourseFolder`: list the course directory, keep classified
files, sort by name (numeric-aware). -/
def scanCourseFolder (h : Handle) : Except String CourseFiles := do
  let es ← listDir h
  return isort fileEntryLe (es.filterMap classifyEntry)

/-- The course-children loop of `FileSystem.scanProviderFolder`: one course
subtree per directory child, in iteration order.  Note there is no try/catch
anywhere in the scanner: a failure scanning one child propagates. -/
def scanCoursesOf : List Handle -> Except String ProviderTree
  | [] => .ok []
  | c :: cs =>
    if isDirectory c then
      match scanCourseFolder c with
      | .error e => .error e
      | .ok lects =>
        match scanCoursesOf cs with
        | .error e => .error e
        | .ok rest => .ok ((handleName c, lects) :: rest)
    else scanCoursesOf cs

/-- `FileSystem.scanProviderFolder`. -/
def scanProviderFolder (h : Handle) : Except String ProviderTree := do
  let es <- listDir h
  scanCoursesOf es

/-- The provider-children loop of `FileSystem.scanPaperFolder`. -/
def scanProvidersOf : List Handle -> Except String PaperTree
  | [] => .ok []
  | c :: cs =>
    if isDirectory c then
      match scanProviderFolder c with
      | .error e => .error e
      | .ok t =>
        match scanProvidersOf cs with
        | .error e => .error e
        | .ok rest => .ok ((handleName c, t) :: rest)
    else scanProvidersOf cs

/-- `FileSystem.scanPaperFolder`. -/
def scanPaperFolder (h : Handle) : Except String PaperTree := do
  let es <- listDir h
  scanProvidersOf es

/-- The top-level loop of `FileSystem.scanMasterFolder`. -/
def scanPapersOf : List Handle -> Except String ScanTree
  | [] => .ok []
  | c :: cs =>
    if isDirectory c then
      match scanPaperFolder c with
      | .error e => .error e
      | .ok t =>
        match scanPapersOf cs with
        | .error e => .error e
        | .ok rest => .ok ((handleName c, t) :: rest)
    else scanPapersOf cs

/-- `FileSystem.scanMasterFolder`. -/
def scanMasterFolder (root : Handle) : Except String ScanTree := do
  let es <- listDir root
  scanPapersOf es

/-! ## Papers and the name matcher (`DB.seed`, `FileSystem.matchPaperFolder`) -/

structure Paper where
  id : String
  name : String
  fullName : String
  orderIndex : Nat
deriving DecidableEq, Repr

/-- The fixed pre-seeded paper set (`DB.seed`; icons omitted, they play no
role in matching or reconciliation). -/
def seededPapers : List Paper :=
  [ ⟨"gs1", "GS1", "General Studies 1", 0⟩,
    ⟨"gs2", "GS2", "General Studies 2", 1⟩,
    ⟨"gs3", "GS3", "General Studies 3", 2⟩,
    ⟨"gs4", "GS4", "General Studies 4 (Ethics)", 3⟩,
    ⟨"csat", "CSAT", "Civil Services Aptitude Test", 4⟩,
    ⟨"optional", "Optional", "Optional Subject", 5⟩,
    ⟨"extra", "Extra", "Additional Resources", 6⟩ ]

def paperPatternRoots : List String := ["gs", "csat", "optional", "extra"]

def beginsWith : List Char → List Char → Bool
  | [], _ => true
  | _ :: _, [] => false
  | a :: as, b :: bs => a == b && beginsWith as bs

/-- `normalized.match(/^(gs|csat|optional|extra)(\d*)$/)` as a full-match
test. -/
def matchesPaperPattern (normalized : String) : Bool :=
  paperPatternRoots.any (fun root =>
    beginsWith root.data normalized.data &&
      (normalized.data.drop root.data.length).all Char.isDigit)

/-- `FileSystem.matchPaperFolder`: first paper (in list order) matching by
normalized id, then name, then full name, then the `gs|csat|optional|extra`
digit pattern (whose full match equals `normalized`, so that branch repeats
the id comparison, exactly as in the source). -/
def matchPaperFolder (folderName : String) (papers : List Paper) : Option String :=
  let normalized := normalizeName folderName
  papers.findSome? (fun paper =>
    if normalizeName paper.id == normalized then some paper.id
    else if normalizeName paper.name == normalized then some paper.id
    else if normalizeName paper.fullName == normalized then some paper.id
    else if matchesPaperPattern normalized && (normalizeName paper.id == normalized) then
      some paper.id
    else none)

/-! ## Database rows and state (`js/db.js`, `js/state.js`) -/

structure Provider where
  id : Nat
  name : String
  paperId : String
  orderIndex : Nat
  createdAt : Nat
deriving DecidableEq, Repr

structure Course where
  id : Nat
  name : String
  providerId : Nat
  orderIndex : Nat
  /-- Set by `FileSystem.ensureCourse` during sync; `AppState.addCourse`
  itself does not set it. -/
  folderPath : Option String
  createdAt : Nat
deriving DecidableEq, Repr

structure Lecture where
  id : Nat
  title : String
  courseId : Nat
  type : MediaType
  fileName : String
  orderIndex : Nat
  completed : Bool
  lastPosition : Nat
  lastOpenedAt : Option Nat
  createdAt : Nat
deriving DecidableEq, Repr

/-- The persistent store plus the id/timestamp sources (see the modelling
conventions at the top of this file). -/
structure DBState where
  papers : List Paper
  providers : List Provider
  courses : List Course
  lectures : List Lecture
  nextId : Nat
  clock : Nat
deriving DecidableEq, Repr

/-- `DB.put('providers', p)`: replace the row with the same key, else append. -/
def putProvider (db : DBState) (p : Provider) : DBState :=
  if db.providers.any (fun q => q.id == p.id) then
    { db with providers := db.providers.map (fun q => if q.id == p.id then p else q) }
  else
    { db with providers := db.providers ++ [p] }

def putCourse (db : DBState) (c : Course) : DBState :=
  if db.courses.any (fun q => q.id == c.id) then
    { db with courses := db.courses.map (fun q => if q.id == c.id then c else q) }
  else
    { db with courses := db.courses ++ [c] }

def putLecture (db : DBState) (l : Lecture) : DBState :=
  if db.lectures.any (fun q => q.id == l.id) then
    { db with lectures := db.lectures.map (fun q => if q.id == l.id then l else q) }
  else
    { db with lectures := db.lectures ++ [l] }

/-- `DB.delete('providers', id)` (deleting a missing key is a no-op, as in
IndexedDB). -/
def deleteProviderId (db : DBState) (i : Nat) : DBState :=
  { db with providers := db.providers.filter (fun q => q.id != i) }

def deleteCourseId (db : DBState) (i : Nat) : DBState :=
  { db with courses := db.courses.filter (fun q => q.id != i) }

def deleteLectureId (db : DBState) (i : Nat) : DBState :=
  { db with lectures := db.lectures.filter (fun q => q.id != i) }

def leOrder {α : Type} (f : α → Nat) (a b : α) : Bool :=
  decide (f a ≤ f b)

/-- `AppState.getProviders`: rows of one paper, sorted by `orderIndex`. -/
def providersFor (db : DBState) (paperId : String) : List Provider :=
  isort (leOrder Provider.orderIndex) (db.providers.filter (fun p => p.paperId == paperId))

/-- `AppState.getCourses`. -/
def coursesFor (db : DBState) (providerId : Nat) : List Course :=
  isort (leOrder Course.orderIndex) (db.courses.filter (fun c => c.providerId == providerId))

/-- `AppState.getLectures`. -/
def lecturesFor (db : DBState) (courseId : Nat) : List Lecture :=
  isort (leOrder Lecture.orderIndex) (db.lectures.filter (fun l => l.courseId == courseId))

/-! ## Invariants (`js/invariants.js`) -/

inductive EntityKind where
  | provider
  | course
  | lecture
deriving DecidableEq, Repr

/-- An invariant violation thrown by `Invariants.check`.  The id checks of the
source always pass in this model (generated ids are `Nat`s), and the
`['video','pdf'].includes(lecture.type)` check always passes because
`MediaType` has exactly those two values. -/
inductive IntegrityError where
  | emptyName (k : EntityKind)
  | badParent (k : EntityKind)
deriving DecidableEq, Repr

/-- `Invariants.validateProvider` / `Invariants.check('provider', ...)`:
nonempty trimmed name, then owning paper id in the valid set. -/
def checkProviderInv (p : Provider) (validPaperIds : List String) :
    Except IntegrityError Unit :=
  if jsTrim p.name == "" then .error (.emptyName .provider)
  else if !(validPaperIds.contains p.paperId) then .error (.badParent .provider)
  else .ok ()

/-- `Invariants.check('course', ...)`. -/
def checkCourseInv (c : Course) (validProviderIds : List Nat) :
    Except IntegrityError Unit :=
  if jsTrim c.name == "" then .error (.emptyName .course)
  else if !(validProviderIds.contains c.providerId) then .error (.badParent .course)
  else .ok ()

/-- `Invariants.check('lecture', ...)`: nonempty trimmed title, then owning
course id, then media kind (always one of the two recognized values here). -/
def checkLectureInv (l : Lecture) (validCourseIds : List Nat) :
    Except IntegrityError Unit :=
  if jsTrim l.title == "" then .error (.emptyName .lecture)
  else if !(validCourseIds.contains l.courseId) then .error (.badParent .lecture)
  else .ok ()

/-! ## AppState create operations (`js/state.js`) -/

/-- `AppState.addProvider`: validate against all paper ids, assign the next
rank among the paper's providers, persist. -/
def addProvider (db : DBState) (paperId name : String) :
    Except IntegrityError (Provider × DBState) := do
  let validPaperIds := db.papers.map (fun p => p.id)
  let existing := providersFor db paperId
  let provider : Provider :=
    { id := db.nextId, name := jsTrim name, paperId := paperId,
      orderIndex := existing.length, createdAt := db.clock }
  checkProviderInv provider validPaperIds
  return (provider, { putProvider db provider with nextId := db.nextId + 1, clock := db.clock + 1 })

/-- `AppState.addCourse`: validate against *all* provider ids. -/
def addCourse (db : DBState) (providerId : Nat) (name : String) :
    Except IntegrityError (Course × DBState) := do
  let validProviderIds := db.providers.map (fun p => p.id)
  let existing := coursesFor db providerId
  let course : Course :=
    { id := db.nextId, name := jsTrim name, providerId := providerId,
      orderIndex := existing.length, folderPath := none, createdAt := db.clock }
  checkCourseInv course validProviderIds
  return (course, { putCourse db course with nextId := db.nextId + 1, clock := db.clock + 1 })

/-- `AppState.addLecture` as called from sync (an explicit `orderIndex` is
always supplied there): completed `false`, position `0`. -/
def addLecture (db : DBState) (courseId : Nat) (title : String) (ty : MediaType)
    (fileName : String) (orderIndex : Nat) :
    Except IntegrityError (Lecture × DBState) := do
  let validCourseIds := db.courses.map (fun c => c.id)
  let lecture : Lecture :=
    { id := db.nextId, title := title, courseId := courseId, type := ty,
      fileName := fileName, orderIndex := orderIndex, completed := false,
      lastPosition := 0, lastOpenedAt := none, createdAt := db.clock }
  checkLectureInv lecture validCourseIds
  return (lecture, { putLecture db lecture with nextId := db.nextId + 1, clock := db.clock + 1 })

/-! ## Find-or-create (`FileSystem.ensureProvider/ensureCourse/ensureLecture`) -/

/-- The `existing.find(p => p.name.toLowerCase() === name.toLowerCase())`
lookup of `ensureProvider`. -/
def lookupProvider (db : DBState) (paperId pn : String) : Option Provider :=
  (providersFor db paperId).find? (fun p => jsToLower p.name == jsToLower pn)

/-- `FileSystem.ensureProvider`. -/
def ensureProvider (db : DBState) (paperId pn : String) :
    Except IntegrityError (Provider × DBState) :=
  match lookupProvider db paperId pn with
  | some p => .ok (p, db)
  | none => addProvider db paperId pn

def lookupCourse (db : DBState) (providerId : Nat) (cn : String) : Option Course :=
  (coursesFor db providerId).find? (fun c => jsToLower c.name == jsToLower cn)

/-- `FileSystem.ensureCourse`: find-or-create by case-insensitive name, then
*always* overwrite `folderPath` with the freshly scanned path and persist
(the path built by sync is never the empty string, so the source's
`if (folderPath)` guard is always taken). -/
def ensureCourse (db : DBState) (providerId : Nat) (cn folderPath : String) :
    Except IntegrityError (Course × DBState) :=
  match lookupCourse db providerId cn with
  | some c =>
    let c' := { c with folderPath := some folderPath }
    .ok (c', putCourse db c')
  | none => do
    let (c, db1) ← addCourse db providerId cn
    let c' := { c with folderPath := some folderPath }
    return (c', putCourse db1 c')

def lookupLecture (db : DBState) (courseId : Nat) (fileName : String) : Option Lecture :=
  (lecturesFor db courseId).find? (fun l => l.fileName == fileName)

/-- `FileSystem.ensureLecture`: find by exact filename; create with the
derived title at the scan position, or update only the rank when it changed.
Returns `(created, updated, lecture, db)`. -/
def ensureLecture (db : DBState) (courseId : Nat) (f : FileEntry) (orderIndex : Nat) :
    Except IntegrityError (Bool × Bool × Lecture × DBState) :=
  match lookupLecture db courseId f.name with
  | none => do
    let (l, db1) ← addLecture db courseId (getTitleFromFilename f.name) f.type f.name orderIndex
    return (true, false, l, db1)
  | some l =>
    if l.orderIndex != orderIndex then
      let l' := { l with orderIndex := orderIndex }
      .ok (false, true, l', putLecture db l')
    else
      .ok (false, false, l, db)

/-! ## The reconciliation pass (`FileSystem.syncToDatabase`) -/

/-- The running state of one pass: the evolving store, the three `valid*Ids`
sets (membership is all that matters, so plain lists), the `added`/`updated`
counters and the informational skip log (`console.log('Skipping unknown
paper folder: ...')`). -/
structure SyncSt where
  db : DBState
  validProviderIds : List Nat
  validCourseIds : List Nat
  validLectureIds : List Nat
  added : Nat
  updated : Nat
  skips : List String
deriving DecidableEq, Repr

def initSyncSt (db : DBState) : SyncSt :=
  { db := db, validProviderIds := [], validCourseIds := [],
    validLectureIds := [], added := 0, updated := 0, skips := [] }

/-- The inner `for (let i = 0; ...)` lecture loop of `syncToDatabase`. -/
def processLectures (courseId : Nat) : List FileEntry → Nat → SyncSt →
    Except IntegrityError SyncSt
  | [], _, st => .ok st
  | f :: fs, i, st => do
    let (created, wasUpdated, l, db1) ← ensureLecture st.db courseId f i
    let st1 : SyncSt :=
      { st with
          db := db1,
          validLectureIds := st.validLectureIds ++ [l.id],
          added := st.added + (if created then 1 else 0),
          updated := st.updated + (if wasUpdated then 1 else 0) }
    processLectures courseId fs (i + 1) st1

/-- The course loop of `syncToDatabase`, building the folder path from the
raw on-disk folder names. -/
def processCourses (paperFolder providerName : String) (providerId : Nat) :
    ProviderTree → SyncSt → Except IntegrityError SyncSt
  | [], st => .ok st
  | (cn, lects) :: rest, st => do
    let folderPath := paperFolder ++ "/" ++ providerName ++ "/" ++ cn
    let (c, db1) ← ensureCourse st.db providerId cn folderPath
    let st1 : SyncSt := { st with db := db1, validCourseIds := st.validCourseIds ++ [c.id] }
    let st2 ← processLectures c.id lects 0 st1
    processCourses paperFolder providerName providerId rest st2

/-- The provider loop of `syncToDatabase`. -/
def processProviders (paperFolder paperId : String) :
    PaperTree → SyncSt → Except IntegrityError SyncSt
  | [], st => .ok st
  | (pn, cts) :: rest, st => do
    let (p, db1) ← ensureProvider st.db paperId pn
    let st1 : SyncSt :=
      { st with db := db1, validProviderIds := st.validProviderIds ++ [p.id] }
    let st2 ← processCourses paperFolder pn p.id cts st1
    processProviders paperFolder paperId rest st2

/-- The top-level paper-folder loop of `syncToDatabase`: an unmatched folder
is recorded as an informational skip and contributes nothing else. -/
def processPapers (papers : List Paper) : ScanTree → SyncSt →
    Except IntegrityError SyncSt
  | [], st => .ok st
  | (fn, pt) :: rest, st =>
    match matchPaperFolder fn papers with
    | none => processPapers papers rest { st with skips := st.skips ++ [fn] }
    | some pid => do
      let st1 ← processProviders fn pid pt st
      processPapers papers rest st1

/-- The `isScannedPaper` test of the provider garbage-collection loop:
`paperIds.includes(p.paperId) && Object.keys(structure).some(name =>
matchPaperFolder(name, papers) === p.paperId)`. -/
def isScannedPaper (t : ScanTree) (papers : List Paper) (pid : String) : Bool :=
  (papers.map (fun p => p.id)).contains pid &&
    t.any (fun e => matchPaperFolder e.1 papers == some pid)

/-- The deletion condition of the provider GC loop:
`isScannedPaper && !validProviderIds.has(p.id)`. -/
def provDead (t : ScanTree) (papers : List Paper) (vp : List Nat) (p : Provider) : Bool :=
  isScannedPaper t papers p.paperId && !(vp.contains p.id)

/-- Provider GC: iterate the snapshot of all providers, deleting those of a
scanned/matched paper that are not in `validProviderIds`. -/
def gcProviders (t : ScanTree) (papers : List Paper) (vp : List Nat) :
    List Provider → DBState → Nat → DBState × Nat
  | [], db, d => (db, d)
  | p :: ps, db, d =>
    if provDead t papers vp p then
      gcProviders t papers vp ps (deleteProviderId db p.id) (d + 1)
    else
      gcProviders t papers vp ps db d

/-- First course GC loop (`validProviderIds.has(c.providerId) &&
!validCourseIds.has(c.id)`). -/
def courseDeadOne (vp vc : List Nat) (c : Course) : Bool :=
  vp.contains c.providerId && !(vc.contains c.id)

def gcCoursesPassOne (vp vc : List Nat) :
    List Course → DBState → Nat → DBState × Nat
  | [], db, d => (db, d)
  | c :: cs, db, d =>
    if courseDeadOne vp vc c then
      gcCoursesPassOne vp vc cs (deleteCourseId db c.id) (d + 1)
    else
      gcCoursesPassOne vp vc cs db d

/-- Second course GC loop (`!validCourseIds.has(c.id)`) — the source reuses
the *same* `allCourses` snapshot that the first loop iterated, so a course
deleted by the first loop is visited (and counted) again; the extra
`DB.delete` is a no-op. -/
def courseDeadTwo (vc : List Nat) (c : Course) : Bool :=
  !(vc.contains c.id)

def gcCoursesPassTwo (vc : List Nat) :
    List Course → DBState → Nat → DBState × Nat
  | [], db, d => (db, d)
  | c :: cs, db, d =>
    if courseDeadTwo vc c then
      gcCoursesPassTwo vc cs (deleteCourseId db c.id) (d + 1)
    else
      gcCoursesPassTwo vc cs db d

/-- Lecture GC loop (`!validLectureIds.has(l.id)`), over a snapshot fetched
after the course deletions. -/
def lectDead (vl : List Nat) (l : Lecture) : Bool :=
  !(vl.contains l.id)

def gcLectures (vl : List Nat) : List Lecture → DBState → Nat → DBState × Nat
  | [], db, d => (db, d)
  | l :: ls, db, d =>
    if lectDead vl l then
      gcLectures vl ls (deleteLectureId db l.id) (d + 1)
    else
      gcLectures vl ls db d

/-- The whole garbage-collection phase of `syncToDatabase`, in source order:
providers, then the two course loops over one shared snapshot, then
lectures. -/
def runGC (t : ScanTree) (papers : List Paper) (st : SyncSt) : DBState × Nat :=
  let r1 := gcProviders t papers st.validProviderIds st.db.providers st.db 0
  let allCourses := r1.1.courses
  let r2 := gcCoursesPassOne st.validProviderIds st.validCourseIds allCourses r1.1 r1.2
  let r3 := gcCoursesPassTwo st.validCourseIds allCourses r2.1 r2.2
  let allLectures := r3.1.lectures
  gcLectures st.validLectureIds allLectures r3.1 r3.2

structure Counts where
  added : Nat
  updated : Nat
  deleted : Nat
deriving DecidableEq, Repr

/-- `FileSystem.syncToDatabase` from the point where the scanned `structure`
is in hand: the create/update phase over the tree followed by garbage
collection.  A thrown invariant violation propagates (there is no per-row
try/catch in the source) and aborts the pass. -/
def syncStructure (t : ScanTree) (db : DBState) :
    Except IntegrityError (DBState × Counts) := do
  let st ← processPapers db.papers t (initSyncSt db)
  let r := runGC t db.papers st
  return (r.1, ⟨st.added, st.updated, r.2⟩)

inductive SyncError where
  | scanFailure (msg : String)
  | integrity (e : IntegrityError)
deriving DecidableEq, Repr

/-- `FileSystem.syncToDatabase` end to end: no configured master folder
returns zero counts; otherwise scan the tree and reconcile it. -/
def syncToDatabase (root : Option Handle) (db : DBState) :
    Except SyncError (DBState × Counts) :=
  match root with
  | none => .ok (db, ⟨0, 0, 0⟩)
  | some r =>
    match scanMasterFolder r with
    | .error e => .error (.scanFailure e)
    | .ok t =>
      match syncStructure t db with
      | .error e => .error (.integrity e)
      | .ok res => .ok res

/-! ## The live resolver (`StudyMode.refreshFileFromDisk`) -/

/-- `path.split('/').filter(p => p.trim())` from
`FileSystem.getOrCreateFolder`. -/
def splitFolderPath (path : String) : List String :=
  ((splitString '/' path).map String.mk).filter (fun part => jsTrim part != "")

/-- `FileSystem.getOrCreateFolder(path)` followed by the `for await` listing
in `refreshFileFromDisk`: walk the segments with `create: true`, so a missing
segment yields a fresh empty directory (hence an empty listing), while a file
or a broken directory in the way throws (the caller catches it). -/
def resolveFolder : Handle → List String → Except String (List Handle)
  | h, [] => listDir h
  | h, seg :: rest => do
    let es ← listDir h
    match es.find? (fun c => handleName c == seg) with
    | some c =>
      if isDirectory c then resolveFolder c rest
      else .error ("TypeMismatchError: " ++ seg)
    | none => .ok []

/-- `StudyMode.refreshFileFromDisk`, acting on the store: re-list the course
folder of the opened lecture, classify and sort exactly as the scanner does,
pick the file at the lecture's stored rank, and self-heal the filename/title
on a rename.  Every failure inside is caught by the source's try/catch and
leaves `currentFile` null.  Returns the updated store and the resolved file
descriptor. -/
def refreshFileFromDisk (root : Handle) (db : DBState) (lecture : Lecture) :
    DBState × Option FileEntry :=
  match db.courses.find? (fun c => c.id == lecture.courseId) with
  | none => (db, none)
  | some course =>
    match course.folderPath with
    | none => (db, none)
    | some path =>
      match resolveFolder root (splitFolderPath path) with
      | .error _ => (db, none)
      | .ok entries =>
        let files := isort fileEntryLe (entries.filterMap classifyEntry)
        match files.get? lecture.orderIndex with
        | none => (db, none)
        | some sel =>
          if lecture.fileName != sel.name then
            let l' := { lecture with
                          fileName := sel.name,
                          title := getTitleFromFilename sel.name }
            (putLecture db l', some sel)
          else
            (db, some sel)

/-! ## The session-guarded open-item workflow (`StudyMode.enter`)

`StudyMode.enter` is an async workflow; we model it as a small-step machine
whose steps are the code segments between `await` suspension points, with
two concurrent sessions (the overlapping-open scenario of the spec).  The
shared mutable fields (`activeSessionId`, `currentLecture`, `currentFile`,
the store, the rendered surface) live in `Sys`; the per-session data
(program counter, captured token) in `SessionSt`. -/

/-- Program counters: the resume points of `StudyMode.enter` and of the
`refreshFileFromDisk` / `renderVideoPlayer` calls it awaits. -/
inductive SPc where
  /-- About to run `enter(lid)`: `++activeSessionId`, capture the token,
  start `savePosition()` for the previous lecture. -/
  | entryPoint (lid : Nat)
  /-- Resumed after `savePosition`: run `cleanup()`, start `getLecture`. -/
  | savedPos (lid : Nat)
  /-- Resumed with the lecture: race check, set `currentLecture`,
  stamp `lastOpenedAt`, start the `DB.put`. -/
  | gotLecture (lid : Nat)
  /-- Resumed after the put: `refreshFileFromDisk` begins (`currentFile =
  null`, read `this.currentLecture.courseId`, start `getCourse`). -/
  | putOpened
  /-- Resumed with the course: read `folderPath`, start the folder listing. -/
  | gotCourse (cid : Nat)
  /-- Resumed with the listing: positional match against the *current*
  `this.currentLecture`, possible rename self-heal `DB.put`.  There is no
  token check anywhere in `refreshFileFromDisk`. -/
  | gotListing (path : String)
  /-- Resumed back in `enter` after the refresh: race check, then
  `render(thisSessionId)` (header) and the start of the video file read. -/
  | postRefresh
  /-- Resumed after `currentFile.handle.getFile()`: race check, then the
  video surface is attached. -/
  | readFile
  | finished
deriving DecidableEq, Repr

structure SessionSt where
  pc : SPc
  token : Nat
deriving DecidableEq, Repr

inductive RenderOut where
  | header (title : String)
  | notFound (title : String)
  | video (title fileName : String)
deriving DecidableEq, Repr

inductive Who where
  | A
  | B
deriving DecidableEq, Repr

structure Sys where
  /-- `StudyMode.activeSessionId`. -/
  counter : Nat
  db : DBState
  /-- `StudyMode.currentLecture` (a shared mutable object reference). -/
  currentLecture : Option Lecture
  /-- `StudyMode.currentFile`. -/
  currentFile : Option FileEntry
  /-- What the content area currently shows. -/
  rendered : Option RenderOut
  /-- The (static) master-folder tree backing `refreshFileFromDisk`. -/
  root : Handle
  sessA : SessionSt
  sessB : SessionSt

def getSess (s : Sys) : Who → SessionSt
  | .A => s.sessA
  | .B => s.sessB

def setSess (s : Sys) : Who → SessionSt → Sys
  | .A, ss => { s with sessA := ss }
  | .B, ss => { s with sessB := ss }

/-- One step of the machine: run session `w`'s segment at its current resume
point.  Each branch is commented with the `StudyMode` source it embeds. -/
def step (s : Sys) (w : Who) : Sys :=
  let ss := getSess s w
  match ss.pc with
  | .finished => s
  | .entryPoint lid =>
    -- `const thisSessionId = ++this.activeSessionId;` then
    -- `if (this.currentLecture) await this.savePosition();`
    -- (savePosition persists the previous lecture before suspending).
    let c' := s.counter + 1
    let s1 := { s with counter := c' }
    let s2 :=
      match s1.currentLecture with
      | some l => { s1 with db := putLecture s1.db l }
      | none => s1
    setSess s2 w { pc := .savedPos lid, token := c' }
  | .savedPos lid =>
    -- `this.cleanup();` (drops currentLecture/currentFile/player) then
    -- `const lecture = await AppState.getLecture(lectureId);`
    let s1 := { s with currentLecture := none, currentFile := none }
    setSess s1 w { ss with pc := .gotLecture lid }
  | .gotLecture lid =>
    -- `if (this.activeSessionId !== thisSessionId) return;` then
    -- `this.currentLecture = lecture; ... lastOpenedAt = ...;
    --  await DB.put('lectures', this.currentLecture);`
    if ss.token != s.counter then setSess s w { ss with pc := .finished }
    else
      match s.db.lectures.find? (fun l => l.id == lid) with
      | none => setSess s w { ss with pc := .finished }
      | some l =>
        let l' := { l with lastOpenedAt := some s.db.clock }
        let s1 := { s with
                      currentLecture := some l',
                      db := { putLecture s.db l' with clock := s.db.clock + 1 } }
        setSess s1 w { ss with pc := .putOpened }
  | .putOpened =>
    -- `refreshFileFromDisk` begins: `this.currentFile = null;` then
    -- `const course = await AppState.getCourse(this.currentLecture.courseId);`
    -- (a null currentLecture throws here; the try/catch swallows it).
    let s1 := { s with currentFile := none }
    match s1.currentLecture with
    | none => setSess s1 w { ss with pc := .postRefresh }
    | some l => setSess s1 w { ss with pc := .gotCourse l.courseId }
  | .gotCourse cid =>
    -- `if (!course.folderPath) return;` then the folder listing awaits.
    match s.db.courses.find? (fun c => c.id == cid) with
    | none => setSess s w { ss with pc := .postRefresh }
    | some c =>
      match c.folderPath with
      | none => setSess s w { ss with pc := .postRefresh }
      | some p => setSess s w { ss with pc := .gotListing p }
  | .gotListing path =>
    -- The positional match and rename self-heal of `refreshFileFromDisk`,
    -- reading the *current* `this.currentLecture` — with no token check.
    match resolveFolder s.root (splitFolderPath path) with
    | .error _ => setSess s w { ss with pc := .postRefresh }
    | .ok entries =>
      let files := isort fileEntryLe (entries.filterMap classifyEntry)
      match s.currentLecture with
      | none => setSess s w { ss with pc := .postRefresh }
      | some l =>
        match files.get? l.orderIndex with
        | none => setSess s w { ss with pc := .postRefresh }
        | some sel =>
          let s1 := { s with currentFile := some sel }
          if l.fileName != sel.name then
            let l' := { l with
                          fileName := sel.name,
                          title := getTitleFromFilename sel.name }
            setSess { s1 with currentLecture := some l', db := putLecture s1.db l' }
              w { ss with pc := .postRefresh }
          else
            setSess s1 w { ss with pc := .postRefresh }
  | .postRefresh =>
    -- `if (this.activeSessionId !== thisSessionId) return;` then
    -- `await this.render(thisSessionId)`: the header renders and, for a
    -- video lecture with a resolved file, the byte read starts.
    if ss.token != s.counter then setSess s w { ss with pc := .finished }
    else
      match s.currentLecture with
      | none => setSess s w { ss with pc := .finished }
      | some l =>
        match s.currentFile with
        | none =>
          setSess { s with rendered := some (.notFound l.title) }
            w { ss with pc := .finished }
        | some _ =>
          setSess { s with rendered := some (.header l.title) }
            w { ss with pc := .readFile }
  | .readFile =>
    -- `renderVideoPlayer`: after `await this.currentFile.handle.getFile()`,
    -- `if (sessionId && this.activeSessionId !== sessionId) return;`
    if ss.token != s.counter then setSess s w { ss with pc := .finished }
    else
      match s.currentLecture, s.currentFile with
      | some l, some f =>
        setSess { s with rendered := some (.video l.title f.name) }
          w { ss with pc := .finished }
      | _, _ => setSess s w { ss with pc := .finished }

def run (s : Sys) : List Who → Sys
  | [] => s
  | w :: ws => run (step s w) ws

/-! ## Well-formed stores

`Utils.generateId()` produces unique ids; in the model this is the invariant
that every generated id is below `nextId` and ids are pairwise distinct
(within each collection). -/

def DBWF (db : DBState) : Prop :=
  (db.providers.map (fun p => p.id)).Nodup ∧
  (db.courses.map (fun c => c.id)).Nodup ∧
  (db.lectures.map (fun l => l.id)).Nodup ∧
  (∀ p ∈ db.providers, p.id < db.nextId) ∧
  (∀ c ∈ db.courses, c.id < db.nextId) ∧
  (∀ l ∈ db.lectures, l.id < db.nextId)

instance (db : DBState) : Decidable (DBWF db) := by
  unfold DBWF
  infer_instance

/-! ## How the create/update phase evolves the store

During the create/update phase of a pass, providers are only appended,
papers are never touched, and a lecture row is only ever (a) appended with a
fresh id or (b) replaced by a copy that differs at most in `orderIndex`.
This is the backbone of the frame-property claims. -/

/-- Every lecture row of `db'` either descends from a row of `db` with the
same id, unchanged except possibly for its rank, or is a fresh row created
after `db` (id at or above `db.nextId`). -/
def LectEvolves (db db' : DBState) : Prop :=
  ∀ l' ∈ db'.lectures,
    (∃ l ∈ db.lectures, l'.id = l.id ∧ l' = { l with orderIndex := l'.orderIndex }) ∨
    db.nextId ≤ l'.id

/-- The store-evolution facts of the create/update phase, relative to a base
state.  (The extension facts are stated under well-formedness of the base:
without unique ids a `put` of a freshly generated id could overwrite an
existing row, which `Utils.generateId` precludes.) -/
structure Phase1Facts (db db' : DBState) : Prop where
  papers_eq : db'.papers = db.papers
  next_mono : db.nextId ≤ db'.nextId
  providers_ext : DBWF db → ∃ new, db'.providers = db.providers ++ new
  wf : DBWF db → DBWF db'
  lect : DBWF db → LectEvolves db db'

/-! ### Concrete witnesses for C2–C4

A store holding data for two papers (`gs1`, `gs2`) and a disk tree on which
only the `gs1` folder is present: the pass keeps the `gs2` Provider (its
paper folder is absent) but deletes the `gs2` Course and Item. -/

def gcDemoDB : DBState :=
  { papers := seededPapers,
    providers := [⟨0, "P1", "gs1", 0, 0⟩, ⟨1, "Q", "gs2", 0, 0⟩],
    courses := [⟨2, "Co1", 0, 0, some "GS1/P1/Co1", 0⟩, ⟨3, "CoQ", 1, 0, some "GS2/Q/CoQ", 0⟩],
    lectures := [⟨4, "a", 2, .video, "a.mp4", 0, true, 42, none, 0⟩,
                 ⟨5, "q", 3, .pdf, "q.pdf", 0, false, 0, none, 0⟩],
    nextId := 6, clock := 9 }

def gcDemoTree : ScanTree := [("GS1", [("P1", [("Co1", [⟨"a.mp4", .video⟩])])])]

def gcDemoPhase1 : SyncSt :=
  (processPapers gcDemoDB.papers gcDemoTree (initSyncSt gcDemoDB)).toOption.getD
    (initSyncSt gcDemoDB)

def gcDemoRun : DBState × Counts :=
  (syncStructure gcDemoTree gcDemoDB).toOption.getD (gcDemoDB, ⟨0, 0, 0⟩)

def miscPT : PaperTree := [("X", [("Y", [⟨"a.mp4", MediaType.video⟩])])]

/-! ## Claim C5: scanner error propagation

A mirror predicate for "every directory listing the scanner walks succeeds":
the root listing, each top-level (paper) directory, each provider directory
and each course directory.  Files inside course directories are classified
without further listing, and a broken directory *below* the walked depth is
never touched. -/

def listableDir : Handle → Bool
  | .dir _ _ => true
  | _ => false

def providerChildrenOK : List Handle → Bool
  | [] => true
  | c :: cs => (!isDirectory c || listableDir c) && providerChildrenOK cs

def providerLevelOK (h : Handle) : Bool :=
  match h with
  | .dir _ es => providerChildrenOK es
  | _ => false

def paperChildrenOK : List Handle → Bool
  | [] => true
  | c :: cs => (!isDirectory c || providerLevelOK c) && paperChildrenOK cs

def paperLevelOK (h : Handle) : Bool :=
  match h with
  | .dir _ es => paperChildrenOK es
  | _ => false

def rootChildrenOK : List Handle → Bool
  | [] => true
  | c :: cs => (!isDirectory c || paperLevelOK c) && rootChildrenOK cs

def scanAllOK (h : Handle) : Bool :=
  match h with
  | .dir _ es => rootChildrenOK es
  | _ => false

def exceptOK {α : Type} : Except String α → Bool
  | .ok _ => true
  | .error _ => false

def c7root : Handle :=
  .dir "root" [.dir "GS1" [.dir "P1" [.dir "Co1" [.file "a-intro.mp4"]]]]

/-! ## Claims C8 and C9: the session guard -/

/-- The resume points of `StudyMode.enter` that carry an
`activeSessionId !== thisSessionId` race check in the source; the
`refreshFileFromDisk` resume points (`putOpened`, `gotCourse`, `gotListing`)
carry none. -/
def checkedPc : SPc → Bool
  | .gotLecture _ => true
  | .postRefresh => true
  | .readFile => true
  | _ => false

def c9sys : Sys :=
  { counter := 0, db := gcDemoDB, currentLecture := none, currentFile := none,
    rendered := none, root := .dir "r" [],
    sessA := ⟨.entryPoint 4, 0⟩, sessB := ⟨.finished, 0⟩ }

def c8db : DBState :=
  { papers := [],
    providers := [⟨0, "P1", "gs1", 0, 0⟩],
    courses := [⟨1, "CA", 0, 0, some "GS1/P1/CA", 0⟩,
                ⟨2, "CB", 0, 1, some "GS1/P1/CB", 0⟩],
    lectures := [⟨3, "a", 1, .video, "a.mp4", 0, false, 0, none, 0⟩,
                 ⟨4, "b", 2, .video, "b.mp4", 0, false, 0, none, 0⟩],
    nextId := 5, clock := 0 }

def c8root : Handle :=
  .dir "r" [.dir "GS1" [.dir "P1" [.dir "CA" [.file "x.mp4"],
                                   .dir "CB" [.file "b.mp4"]]]]

def c8sys : Sys :=
  { counter := 0, db := c8db, currentLecture := none, currentFile := none,
    rendered := none, root := c8root,
    sessA := ⟨.entryPoint 3, 0⟩, sessB := ⟨.entryPoint 4, 0⟩ }

/-- Session A runs to its folder-listing resume point (five segments), then
session B's open runs start to finish (eight segments). -/
def c8sched : List Who :=
  [.A, .A, .A, .A, .A, .B, .B, .B, .B, .B, .B, .B, .B]

def c8mid : Sys := run c8sys c8sched

def c8stale : Sys := step c8mid Who.A

/-- `true` exactly on a thrown owning-parent integrity violation. -/
def isBadParentError {α : Type} : Except IntegrityError α → Bool
  | .error (.badParent _) => true
  | _ => false

def c6Tree : ScanTree :=
  [("GS1", [("P1", [("Co1", [⟨"_.mp4", .video⟩, ⟨"b.pdf", .pdf⟩])])])]

def c6DB : DBState :=
  { papers := seededPapers, providers := [], courses := [], lectures := [],
    nextId := 0, clock := 0 }

/-! ## Claim C1: idempotence of reconciliation

The original claim is refuted by `sync_idempotence_counterexample`; the
amended theorem `sync_idempotent` proves idempotence under explicit
well-formedness of the store and of the scanned tree.  `SyncWF` states the
conditions under which the find-or-create lookups are deterministic: unique
row ids (as generated), at most one provider per (paper, case-folded name),
at most one course per (provider, case-folded name), at most one lecture
per (course, filename), and no parent reference at or above the id
counter.  `TreeWF` states what a real directory listing always satisfies
plus what the case-insensitive lookups additionally require: folder names
already trimmed, case-insensitively distinct sibling folder names, distinct
file names, and distinct matched papers for distinct top-level folders. -/

def SyncWF (db : DBState) : Prop :=
  DBWF db ∧
  (∀ p ∈ db.providers, ∀ q ∈ db.providers,
    p.paperId = q.paperId → jsToLower p.name = jsToLower q.name → p = q) ∧
  (∀ c ∈ db.courses, ∀ d ∈ db.courses,
    c.providerId = d.providerId → jsToLower c.name = jsToLower d.name → c = d) ∧
  (∀ l ∈ db.lectures, ∀ m ∈ db.lectures,
    l.courseId = m.courseId → l.fileName = m.fileName → l = m) ∧
  (∀ c ∈ db.courses, c.providerId < db.nextId) ∧
  (∀ l ∈ db.lectures, l.courseId < db.nextId)

instance (db : DBState) : Decidable (SyncWF db) := by
  unfold SyncWF
  infer_instance

def LectsWF (fs : List FileEntry) : Prop := (fs.map (fun f => f.name)).Nodup

def CoursesWF (cts : ProviderTree) : Prop :=
  (∀ e ∈ cts, jsTrim e.1 = e.1) ∧
  (cts.map (fun e => jsToLower e.1)).Nodup ∧
  (∀ e ∈ cts, LectsWF e.2)

def ProvidersWF (pt : PaperTree) : Prop :=
  (∀ e ∈ pt, jsTrim e.1 = e.1) ∧
  (pt.map (fun e => jsToLower e.1)).Nodup ∧
  (∀ e ∈ pt, CoursesWF e.2)

def TreeWF (t : ScanTree) (papers : List Paper) : Prop :=
  (t.filterMap (fun e => matchPaperFolder e.1 papers)).Nodup ∧
  (∀ e ∈ t, ProvidersWF e.2)

instance (fs : List FileEntry) : Decidable (LectsWF fs) := by
  unfold LectsWF
  infer_instance

instance (cts : ProviderTree) : Decidable (CoursesWF cts) := by
  unfold CoursesWF
  infer_instance

instance (pt : PaperTree) : Decidable (ProvidersWF pt) := by
  unfold ProvidersWF
  infer_instance

instance (t : ScanTree) (papers : List Paper) : Decidable (TreeWF t papers) := by
  unfold TreeWF
  infer_instance

/-! ### Keys, readiness and coverage predicates for an idempotent state -/

def ProvKey (db : DBState) (pid pn : String) (p : Provider) : Prop :=
  p ∈ db.providers ∧ p.paperId = pid ∧ jsToLower p.name = jsToLower pn

def CourseKey (db : DBState) (prid : Nat) (cn : String) (c : Course) : Prop :=
  c ∈ db.courses ∧ c.providerId = prid ∧ jsToLower c.name = jsToLower cn

def LectKey (db : DBState) (cid : Nat) (fn : String) (l : Lecture) : Prop :=
  l ∈ db.lectures ∧ l.courseId = cid ∧ l.fileName = fn

/-- Every file of the course folder has its lecture row at the right rank,
with a validated id. -/
def LectsSynced (db : DBState) (cid : Nat) (fs : List FileEntry) (i : Nat)
    (vl : List Nat) : Prop :=
  ∀ j f, fs.get? j = some f →
    ∃ l, LectKey db cid f.name l ∧ l.orderIndex = i + j ∧ l.id ∈ vl

def CoursesSynced (db : DBState) (pf pn : String) (prid : Nat)
    (cts : ProviderTree) (vc vl : List Nat) : Prop :=
  ∀ e ∈ cts, ∃ c, CourseKey db prid e.1 c ∧
    c.folderPath = some (pf ++ "/" ++ pn ++ "/" ++ e.1) ∧ c.id ∈ vc ∧
    LectsSynced db c.id e.2 0 vl

def ProvidersSynced (db : DBState) (pf pid : String) (pt : PaperTree)
    (vp vc vl : List Nat) : Prop :=
  ∀ e ∈ pt, ∃ p, ProvKey db pid e.1 p ∧ p.id ∈ vp ∧
    CoursesSynced db pf e.1 p.id e.2 vc vl

def TreeSynced (db : DBState) (papers : List Paper) (t : ScanTree)
    (vp vc vl : List Nat) : Prop :=
  ∀ e ∈ t, ∀ pid, matchPaperFolder e.1 papers = some pid →
    ProvidersSynced db e.1 pid e.2 vp vc vl

/-- Coverage: every validated provider id belongs to a row keyed by some
tree position (and symmetrically for courses and lectures). -/
def PCover (db : DBState) (pid : String) (pt : PaperTree) (x : Nat) : Prop :=
  ∃ e ∈ pt, ∃ p, ProvKey db pid e.1 p ∧ p.id = x

def CCoverIn (db : DBState) (prid : Nat) (cts : ProviderTree) (x : Nat) : Prop :=
  ∃ e ∈ cts, ∃ c, CourseKey db prid e.1 c ∧ c.id = x

def CCover (db : DBState) (pid : String) (pt : PaperTree) (x : Nat) : Prop :=
  ∃ e ∈ pt, ∃ p, ProvKey db pid e.1 p ∧ CCoverIn db p.id e.2 x

def LCoverIn (db : DBState) (cid : Nat) (fs : List FileEntry) (x : Nat) : Prop :=
  ∃ f ∈ fs, ∃ l, LectKey db cid f.name l ∧ l.id = x

def LCoverC (db : DBState) (prid : Nat) (cts : ProviderTree) (x : Nat) : Prop :=
  ∃ e ∈ cts, ∃ c, CourseKey db prid e.1 c ∧ LCoverIn db c.id e.2 x

def LCover (db : DBState) (pid : String) (pt : PaperTree) (x : Nat) : Prop :=
  ∃ e ∈ pt, ∃ p, ProvKey db pid e.1 p ∧ LCoverC db p.id e.2 x

def PCoverT (db : DBState) (papers : List Paper) (t : ScanTree) (x : Nat) : Prop :=
  ∃ e ∈ t, ∃ pid, matchPaperFolder e.1 papers = some pid ∧ PCover db pid e.2 x

def CCoverT (db : DBState) (papers : List Paper) (t : ScanTree) (x : Nat) : Prop :=
  ∃ e ∈ t, ∃ pid, matchPaperFolder e.1 papers = some pid ∧ CCover db pid e.2 x

def LCoverT (db : DBState) (papers : List Paper) (t : ScanTree) (x : Nat) : Prop :=
  ∃ e ∈ t, ∃ pid, matchPaperFolder e.1 papers = some pid ∧ LCover db pid e.2 x

/-! ### A second pass over a synced store is a no-op -/

def CoursesReady (db : DBState) (pf pn : String) (prid : Nat)
    (cts : ProviderTree) : Prop :=
  ∀ e ∈ cts, ∃ c, CourseKey db prid e.1 c ∧
    c.folderPath = some (pf ++ "/" ++ pn ++ "/" ++ e.1) ∧
    ∀ j f, e.2.get? j = some f → ∃ l, LectKey db c.id f.name l ∧ l.orderIndex = 0 + j

def ProvidersReady (db : DBState) (pf pid : String) (pt : PaperTree) : Prop :=
  ∀ e ∈ pt, ∃ p, ProvKey db pid e.1 p ∧ CoursesReady db pf e.1 p.id e.2

def TreeReady (db : DBState) (papers : List Paper) (t : ScanTree) : Prop :=
  ∀ e ∈ t, ∀ pid, matchPaperFolder e.1 papers = some pid →
    ProvidersReady db e.1 pid e.2

def cexTree : ScanTree := [("GS1", [(" Vision", [])])]

def c1cexRun1 : DBState × Counts :=
  (syncStructure cexTree c6DB).toOption.getD (c6DB, ⟨9, 9, 9⟩)

def c1cexRun2 : DBState × Counts :=
  (syncStructure cexTree c1cexRun1.1).toOption.getD (c6DB, ⟨9, 9, 9⟩)

def c1Run : DBState × Counts :=
  (syncStructure gcDemoTree c6DB).toOption.getD (c6DB, ⟨9, 9, 9⟩)

/-! ## Basic lemmas about the store model -/

theorem mem_insertLe {α : Type} (le : α → α → Bool) (x y : α) (l : List α) :
    y ∈ insertLe le x l ↔ y = x ∨ y ∈ l := by
  induction l with
  | nil => simp [insertLe]
  | cons z zs ih =>
    simp only [insertLe]
    split
    · simp only [List.mem_cons]
    · simp only [List.mem_cons, ih]
      tauto

theorem mem_isort {α : Type} (le : α → α → Bool) (x : α) (l : List α) :
    x ∈ isort le l ↔ x ∈ l := by
  induction l with
  | nil => simp [isort]
  | cons z zs ih => simp [isort, mem_insertLe, ih]

theorem isort_nil_iff {α : Type} (le : α → α → Bool) (l : List α) :
    isort le l = [] ↔ l = [] := by
  cases l with
  | nil => simp [isort]
  | cons z zs =>
    simp only [isort]
    constructor
    · intro h
      have : z ∈ insertLe le z (isort le zs) := by
        rw [mem_insertLe]
        exact Or.inl rfl
      rw [h] at this
      simp at this
    · intro h
      exact absurd h (by simp)

theorem length_insertLe {α : Type} (le : α → α → Bool) (x : α) (l : List α) :
    (insertLe le x l).length = l.length + 1 := by
  induction l with
  | nil => simp [insertLe]
  | cons z zs ih =>
    simp only [insertLe]
    split <;> simp [ih]

theorem length_isort {α : Type} (le : α → α → Bool) (l : List α) :
    (isort le l).length = l.length := by
  induction l with
  | nil => simp [isort]
  | cons z zs ih => simp [isort, length_insertLe, ih]

theorem mem_providersFor (db : DBState) (pid : String) (p : Provider) :
    p ∈ providersFor db pid ↔ p ∈ db.providers ∧ p.paperId = pid := by
  simp [providersFor, mem_isort, List.mem_filter]

theorem mem_coursesFor (db : DBState) (prid : Nat) (c : Course) :
    c ∈ coursesFor db prid ↔ c ∈ db.courses ∧ c.providerId = prid := by
  simp [coursesFor, mem_isort, List.mem_filter]

theorem mem_lecturesFor (db : DBState) (cid : Nat) (l : Lecture) :
    l ∈ lecturesFor db cid ↔ l ∈ db.lectures ∧ l.courseId = cid := by
  simp [lecturesFor, mem_isort, List.mem_filter]

/-- `put` of a row whose key is fresh appends. -/
theorem putProvider_fresh (db : DBState) (p : Provider)
    (h : ∀ q ∈ db.providers, q.id ≠ p.id) :
    putProvider db p = { db with providers := db.providers ++ [p] } := by
  have : db.providers.any (fun q => q.id == p.id) = false := by
    simp only [List.any_eq_false]
    intro q hq
    simpa using h q hq
  simp [putProvider, this]

theorem putCourse_fresh (db : DBState) (c : Course)
    (h : ∀ q ∈ db.courses, q.id ≠ c.id) :
    putCourse db c = { db with courses := db.courses ++ [c] } := by
  have : db.courses.any (fun q => q.id == c.id) = false := by
    simp only [List.any_eq_false]
    intro q hq
    simpa using h q hq
  simp [putCourse, this]

theorem putLecture_fresh (db : DBState) (l : Lecture)
    (h : ∀ q ∈ db.lectures, q.id ≠ l.id) :
    putLecture db l = { db with lectures := db.lectures ++ [l] } := by
  have : db.lectures.any (fun q => q.id == l.id) = false := by
    simp only [List.any_eq_false]
    intro q hq
    simpa using h q hq
  simp [putLecture, this]

/-- Mapping a keyed replacement over a list in which every key-match is
already equal to the replacement row is the identity. -/
theorem map_update_id_self {α : Type} (key : α → Nat) (r : α) (l : List α)
    (h : ∀ q ∈ l, key q = key r → q = r) :
    l.map (fun q => if key q = key r then r else q) = l := by
  induction l with
  | nil => rfl
  | cons x xs ih =>
    have hx : (if key x = key r then r else x) = x := by
      by_cases hk : key x = key r
      · simp [hk, h x (by simp) hk]
      · simp [hk]
    simp only [List.map_cons, hx]
    rw [ih (fun q hq hk => h q (by simp [hq]) hk)]

/-- `put` of a row that is already present (same key, same value) is the
identity when keys are unique. -/
theorem putCourse_self (db : DBState) (c : Course)
    (hmem : c ∈ db.courses)
    (hnd : ∀ q ∈ db.courses, q.id = c.id → q = c) :
    putCourse db c = db := by
  have hany : db.courses.any (fun q => q.id == c.id) = true := by
    simp only [List.any_eq_true]
    exact ⟨c, hmem, by simp⟩
  simp only [putCourse, hany, if_true]
  have heq := map_update_id_self Course.id c db.courses hnd
  simp only [beq_iff_eq]
  rw [heq]

theorem putLecture_self (db : DBState) (l : Lecture)
    (hmem : l ∈ db.lectures)
    (hnd : ∀ q ∈ db.lectures, q.id = l.id → q = l) :
    putLecture db l = db := by
  have hany : db.lectures.any (fun q => q.id == l.id) = true := by
    simp only [List.any_eq_true]
    exact ⟨l, hmem, by simp⟩
  simp only [putLecture, hany, if_true]
  have heq := map_update_id_self Lecture.id l db.lectures hnd
  simp only [beq_iff_eq]
  rw [heq]

theorem DBWF.provider_inj {db : DBState} (h : DBWF db) {p q : Provider}
    (hp : p ∈ db.providers) (hq : q ∈ db.providers) (hid : p.id = q.id) : p = q :=
  List.inj_on_of_nodup_map h.1 hp hq hid

theorem DBWF.course_inj {db : DBState} (h : DBWF db) {p q : Course}
    (hp : p ∈ db.courses) (hq : q ∈ db.courses) (hid : p.id = q.id) : p = q :=
  List.inj_on_of_nodup_map h.2.1 hp hq hid

theorem DBWF.lecture_inj {db : DBState} (h : DBWF db) {p q : Lecture}
    (hp : p ∈ db.lectures) (hq : q ∈ db.lectures) (hid : p.id = q.id) : p = q :=
  List.inj_on_of_nodup_map h.2.2.1 hp hq hid

/-! ## Characterizations of the create operations -/

theorem exceptBind_ok {e a b : Type} (x : a) (f : a → Except e b) :
    (Bind.bind (Except.ok x) f) = f x := rfl

theorem exceptBind_err {e a b : Type} (x : e) (f : a → Except e b) :
    (Bind.bind (Except.error x : Except e a) f) = Except.error x := rfl

theorem exceptPure {e a : Type} (x : a) : (Pure.pure x : Except e a) = Except.ok x := rfl

theorem addProvider_spec {db : DBState} {paperId name : String} {p : Provider}
    {db' : DBState} (h : addProvider db paperId name = .ok (p, db')) :
    p = { id := db.nextId, name := jsTrim name, paperId := paperId,
          orderIndex := (providersFor db paperId).length, createdAt := db.clock } ∧
    db' = { putProvider db p with nextId := db.nextId + 1, clock := db.clock + 1 } ∧
    paperId ∈ db.papers.map (fun q => q.id) := by
  unfold addProvider at h
  dsimp only [] at h
  cases hc : checkProviderInv
      { id := db.nextId, name := jsTrim name, paperId := paperId,
        orderIndex := (providersFor db paperId).length, createdAt := db.clock }
      (db.papers.map (fun q => q.id)) with
  | error e =>
    rw [hc] at h
    simp only [exceptBind_err] at h
    exact absurd h (by simp)
  | ok u =>
    rw [hc] at h
    simp only [exceptBind_ok, exceptPure, Except.ok.injEq, Prod.mk.injEq] at h
    obtain ⟨hp, hdb⟩ := h
    refine ⟨hp.symm, ?_, ?_⟩
    · rw [← hp]
      exact hdb.symm
    · unfold checkProviderInv at hc
      split at hc
      · exact absurd hc (by simp)
      · split at hc
        · exact absurd hc (by simp)
        · rename_i h2
          simp only [Bool.not_eq_true, Bool.not_eq_false] at h2
          simpa using h2

theorem addCourse_spec {db : DBState} {providerId : Nat} {name : String} {c : Course}
    {db' : DBState} (h : addCourse db providerId name = .ok (c, db')) :
    c = { id := db.nextId, name := jsTrim name, providerId := providerId,
          orderIndex := (coursesFor db providerId).length, folderPath := none,
          createdAt := db.clock } ∧
    db' = { putCourse db c with nextId := db.nextId + 1, clock := db.clock + 1 } ∧
    providerId ∈ db.providers.map (fun q => q.id) := by
  unfold addCourse at h
  dsimp only [] at h
  cases hc : checkCourseInv
      { id := db.nextId, name := jsTrim name, providerId := providerId,
        orderIndex := (coursesFor db providerId).length, folderPath := none,
        createdAt := db.clock }
      (db.providers.map (fun q => q.id)) with
  | error e =>
    rw [hc] at h
    simp only [exceptBind_err] at h
    exact absurd h (by simp)
  | ok u =>
    rw [hc] at h
    simp only [exceptBind_ok, exceptPure, Except.ok.injEq, Prod.mk.injEq] at h
    obtain ⟨hp, hdb⟩ := h
    refine ⟨hp.symm, ?_, ?_⟩
    · rw [← hp]
      exact hdb.symm
    · unfold checkCourseInv at hc
      split at hc
      · exact absurd hc (by simp)
      · split at hc
        · exact absurd hc (by simp)
        · rename_i h2
          simp only [Bool.not_eq_true, Bool.not_eq_false] at h2
          simpa using h2

theorem addLecture_spec {db : DBState} {courseId : Nat} {title : String}
    {ty : MediaType} {fileName : String} {orderIndex : Nat} {l : Lecture}
    {db' : DBState}
    (h : addLecture db courseId title ty fileName orderIndex = .ok (l, db')) :
    l = { id := db.nextId, title := title, courseId := courseId, type := ty,
          fileName := fileName, orderIndex := orderIndex, completed := false,
          lastPosition := 0, lastOpenedAt := none, createdAt := db.clock } ∧
    db' = { putLecture db l with nextId := db.nextId + 1, clock := db.clock + 1 } ∧
    courseId ∈ db.courses.map (fun q => q.id) := by
  unfold addLecture at h
  dsimp only [] at h
  cases hc : checkLectureInv
      { id := db.nextId, title := title, courseId := courseId, type := ty,
        fileName := fileName, orderIndex := orderIndex, completed := false,
        lastPosition := 0, lastOpenedAt := none, createdAt := db.clock }
      (db.courses.map (fun q => q.id)) with
  | error e =>
    rw [hc] at h
    simp only [exceptBind_err] at h
    exact absurd h (by simp)
  | ok u =>
    rw [hc] at h
    simp only [exceptBind_ok, exceptPure, Except.ok.injEq, Prod.mk.injEq] at h
    obtain ⟨hp, hdb⟩ := h
    refine ⟨hp.symm, ?_, ?_⟩
    · rw [← hp]
      exact hdb.symm
    · unfold checkLectureInv at hc
      split at hc
      · exact absurd hc (by simp)
      · split at hc
        · exact absurd hc (by simp)
        · rename_i h2
          simp only [Bool.not_eq_true, Bool.not_eq_false] at h2
          simpa using h2

/-! ## Characterizations of the find-or-create operations -/

theorem lookupProvider_spec {db : DBState} {pid pn : String} {p : Provider}
    (h : lookupProvider db pid pn = some p) :
    p ∈ db.providers ∧ p.paperId = pid ∧ jsToLower p.name = jsToLower pn := by
  unfold lookupProvider at h
  have hmem := List.mem_of_find?_eq_some h
  have hpred := List.find?_some h
  rw [mem_providersFor] at hmem
  exact ⟨hmem.1, hmem.2, by simpa using hpred⟩

theorem lookupCourse_spec {db : DBState} {prid : Nat} {cn : String} {c : Course}
    (h : lookupCourse db prid cn = some c) :
    c ∈ db.courses ∧ c.providerId = prid ∧ jsToLower c.name = jsToLower cn := by
  unfold lookupCourse at h
  have hmem := List.mem_of_find?_eq_some h
  have hpred := List.find?_some h
  rw [mem_coursesFor] at hmem
  exact ⟨hmem.1, hmem.2, by simpa using hpred⟩

theorem lookupLecture_spec {db : DBState} {cid : Nat} {fn : String} {l : Lecture}
    (h : lookupLecture db cid fn = some l) :
    l ∈ db.lectures ∧ l.courseId = cid ∧ l.fileName = fn := by
  unfold lookupLecture at h
  have hmem := List.mem_of_find?_eq_some h
  have hpred := List.find?_some h
  rw [mem_lecturesFor] at hmem
  exact ⟨hmem.1, hmem.2, by simpa using hpred⟩

theorem ensureProvider_cases {db : DBState} {pid pn : String} {p : Provider}
    {db' : DBState} (h : ensureProvider db pid pn = .ok (p, db')) :
    (lookupProvider db pid pn = some p ∧ db' = db) ∨
    (lookupProvider db pid pn = none ∧ addProvider db pid pn = .ok (p, db')) := by
  unfold ensureProvider at h
  cases hl : lookupProvider db pid pn with
  | some q =>
    rw [hl] at h
    simp only [Except.ok.injEq, Prod.mk.injEq] at h
    exact Or.inl ⟨congrArg some h.1, h.2.symm⟩
  | none =>
    rw [hl] at h
    exact Or.inr ⟨rfl, h⟩

theorem ensureCourse_cases {db : DBState} {prid : Nat} {cn path : String}
    {c' : Course} {db' : DBState}
    (h : ensureCourse db prid cn path = .ok (c', db')) :
    (∃ c, lookupCourse db prid cn = some c ∧ c' = { c with folderPath := some path } ∧
        db' = putCourse db c') ∨
    (lookupCourse db prid cn = none ∧
      ∃ c db1, addCourse db prid cn = .ok (c, db1) ∧
        c' = { c with folderPath := some path } ∧ db' = putCourse db1 c') := by
  unfold ensureCourse at h
  cases hl : lookupCourse db prid cn with
  | some c =>
    rw [hl] at h
    simp only [Except.ok.injEq, Prod.mk.injEq] at h
    exact Or.inl ⟨c, rfl, h.1.symm, by rw [← h.1, h.2]⟩
  | none =>
    rw [hl] at h
    refine Or.inr ⟨rfl, ?_⟩
    cases ha : addCourse db prid cn with
    | error e =>
      rw [ha] at h
      simp only [exceptBind_err] at h
      exact absurd h (by simp)
    | ok r =>
      rw [ha] at h
      obtain ⟨c, db1⟩ := r
      simp only [exceptBind_ok, exceptPure, Except.ok.injEq, Prod.mk.injEq] at h
      exact ⟨c, db1, rfl, h.1.symm, by rw [← h.1, h.2]⟩

theorem ensureLecture_cases {db : DBState} {cid : Nat} {f : FileEntry} {i : Nat}
    {created updated : Bool} {l : Lecture} {db' : DBState}
    (h : ensureLecture db cid f i = .ok (created, updated, l, db')) :
    (lookupLecture db cid f.name = none ∧ created = true ∧ updated = false ∧
      addLecture db cid (getTitleFromFilename f.name) f.type f.name i = .ok (l, db')) ∨
    (∃ l0, lookupLecture db cid f.name = some l0 ∧ l0.orderIndex ≠ i ∧
      created = false ∧ updated = true ∧ l = { l0 with orderIndex := i } ∧
      db' = putLecture db l) ∨
    (lookupLecture db cid f.name = some l ∧ l.orderIndex = i ∧
      created = false ∧ updated = false ∧ db' = db) := by
  unfold ensureLecture at h
  cases hl : lookupLecture db cid f.name with
  | none =>
    rw [hl] at h
    refine Or.inl ⟨rfl, ?_⟩
    cases ha : addLecture db cid (getTitleFromFilename f.name) f.type f.name i with
    | error e =>
      rw [ha] at h
      simp only [exceptBind_err] at h
      exact absurd h (by simp)
    | ok r =>
      rw [ha] at h
      obtain ⟨l1, db1⟩ := r
      simp only [exceptBind_ok, exceptPure, Except.ok.injEq, Prod.mk.injEq] at h
      obtain ⟨hcr, hup, hlv, hdb⟩ := h
      exact ⟨hcr.symm, hup.symm, by rw [← hlv, ← hdb]⟩
  | some l0 =>
    rw [hl] at h
    by_cases hidx : (l0.orderIndex != i) = true
    · simp only [hidx, if_true, Except.ok.injEq, Prod.mk.injEq] at h
      obtain ⟨hcr, hup, hlv, hdb⟩ := h
      refine Or.inr (Or.inl ⟨l0, rfl, by simpa using hidx, hcr.symm, hup.symm, hlv.symm, ?_⟩)
      rw [← hlv, ← hdb]
    · simp only [Bool.not_eq_true] at hidx
      simp only [hidx, Bool.false_eq_true, if_false, Except.ok.injEq, Prod.mk.injEq] at h
      obtain ⟨hcr, hup, hlv, hdb⟩ := h
      refine Or.inr (Or.inr ⟨congrArg some hlv, ?_, hcr.symm, hup.symm, hdb.symm⟩)
      rw [← hlv]
      simpa using hidx

/-! ## Characterizations of the garbage-collection loops -/

theorem gcProviders_frame (t : ScanTree) (papers : List Paper) (vp : List Nat) :
    ∀ (ps : List Provider) (db : DBState) (d : Nat),
      (gcProviders t papers vp ps db d).1.papers = db.papers ∧
      (gcProviders t papers vp ps db d).1.courses = db.courses ∧
      (gcProviders t papers vp ps db d).1.lectures = db.lectures ∧
      (gcProviders t papers vp ps db d).1.nextId = db.nextId ∧
      (gcProviders t papers vp ps db d).1.clock = db.clock
  | [], db, d => by simp [gcProviders]
  | p :: ps, db, d => by
    simp only [gcProviders]
    split
    · simpa [deleteProviderId] using gcProviders_frame t papers vp ps (deleteProviderId db p.id) (d + 1)
    · exact gcProviders_frame t papers vp ps db d

theorem gcProviders_mem (t : ScanTree) (papers : List Paper) (vp : List Nat) :
    ∀ (ps : List Provider) (db : DBState) (d : Nat) (q : Provider),
      (q ∈ (gcProviders t papers vp ps db d).1.providers ↔
        q ∈ db.providers ∧ ¬ ∃ p ∈ ps, provDead t papers vp p = true ∧ p.id = q.id)
  | [], db, d, q => by simp [gcProviders]
  | p :: ps, db, d, q => by
    simp only [gcProviders]
    split
    · rename_i hdead
      rw [gcProviders_mem t papers vp ps (deleteProviderId db p.id) (d + 1) q]
      simp only [deleteProviderId, List.mem_filter, List.mem_cons]
      constructor
      · rintro ⟨⟨hmem, hne⟩, hnot⟩
        refine ⟨hmem, ?_⟩
        rintro ⟨r, hr, hrd, hrid⟩
        rcases hr with rfl | hr
        · simp only [bne_iff_ne, ne_eq] at hne
          exact hne hrid.symm
        · exact hnot ⟨r, hr, hrd, hrid⟩
      · rintro ⟨hmem, hnot⟩
        refine ⟨⟨hmem, ?_⟩, ?_⟩
        · simp only [bne_iff_ne, ne_eq]
          intro hqp
          exact hnot ⟨p, Or.inl rfl, hdead, hqp.symm⟩
        · rintro ⟨r, hr, hrd, hrid⟩
          exact hnot ⟨r, Or.inr hr, hrd, hrid⟩
    · rename_i hdead
      rw [gcProviders_mem t papers vp ps db d q]
      constructor
      · rintro ⟨hmem, hnot⟩
        refine ⟨hmem, ?_⟩
        rintro ⟨r, hr, hrd, hrid⟩
        rw [List.mem_cons] at hr
        rcases hr with rfl | hr
        · exact hdead hrd
        · exact hnot ⟨r, hr, hrd, hrid⟩
      · rintro ⟨hmem, hnot⟩
        refine ⟨hmem, ?_⟩
        rintro ⟨r, hr, hrd, hrid⟩
        exact hnot ⟨r, List.mem_cons_of_mem _ hr, hrd, hrid⟩

/-- If no snapshot entry satisfies the deletion condition, the provider GC
loop does nothing. -/
theorem gcProviders_noop (t : ScanTree) (papers : List Paper) (vp : List Nat) :
    ∀ (ps : List Provider) (db : DBState) (d : Nat),
      (∀ p ∈ ps, provDead t papers vp p = false) →
      gcProviders t papers vp ps db d = (db, d)
  | [], db, d, _ => by simp [gcProviders]
  | p :: ps, db, d, h => by
    simp only [gcProviders]
    rw [if_neg (by simp [h p (by simp)])]
    exact gcProviders_noop t papers vp ps db d (fun r hr => h r (by simp [hr]))

theorem gcCoursesPassOne_frame (vp vc : List Nat) :
    ∀ (cs : List Course) (db : DBState) (d : Nat),
      (gcCoursesPassOne vp vc cs db d).1.papers = db.papers ∧
      (gcCoursesPassOne vp vc cs db d).1.providers = db.providers ∧
      (gcCoursesPassOne vp vc cs db d).1.lectures = db.lectures ∧
      (gcCoursesPassOne vp vc cs db d).1.nextId = db.nextId ∧
      (gcCoursesPassOne vp vc cs db d).1.clock = db.clock
  | [], db, d => by simp [gcCoursesPassOne]
  | c :: cs, db, d => by
    simp only [gcCoursesPassOne]
    split
    · simpa [deleteCourseId] using gcCoursesPassOne_frame vp vc cs (deleteCourseId db c.id) (d + 1)
    · exact gcCoursesPassOne_frame vp vc cs db d

theorem gcCoursesPassOne_mem (vp vc : List Nat) :
    ∀ (cs : List Course) (db : DBState) (d : Nat) (q : Course),
      (q ∈ (gcCoursesPassOne vp vc cs db d).1.courses ↔
        q ∈ db.courses ∧ ¬ ∃ c ∈ cs, courseDeadOne vp vc c = true ∧ c.id = q.id)
  | [], db, d, q => by simp [gcCoursesPassOne]
  | c :: cs, db, d, q => by
    simp only [gcCoursesPassOne]
    split
    · rename_i hdead
      rw [gcCoursesPassOne_mem vp vc cs (deleteCourseId db c.id) (d + 1) q]
      simp only [deleteCourseId, List.mem_filter, List.mem_cons]
      constructor
      · rintro ⟨⟨hmem, hne⟩, hnot⟩
        refine ⟨hmem, ?_⟩
        rintro ⟨r, hr, hrd, hrid⟩
        rcases hr with rfl | hr
        · simp only [bne_iff_ne, ne_eq] at hne
          exact hne hrid.symm
        · exact hnot ⟨r, hr, hrd, hrid⟩
      · rintro ⟨hmem, hnot⟩
        refine ⟨⟨hmem, ?_⟩, ?_⟩
        · simp only [bne_iff_ne, ne_eq]
          intro hqp
          exact hnot ⟨c, Or.inl rfl, hdead, hqp.symm⟩
        · rintro ⟨r, hr, hrd, hrid⟩
          exact hnot ⟨r, Or.inr hr, hrd, hrid⟩
    · rename_i hdead
      rw [gcCoursesPassOne_mem vp vc cs db d q]
      constructor
      · rintro ⟨hmem, hnot⟩
        refine ⟨hmem, ?_⟩
        rintro ⟨r, hr, hrd, hrid⟩
        rw [List.mem_cons] at hr
        rcases hr with rfl | hr
        · exact hdead hrd
        · exact hnot ⟨r, hr, hrd, hrid⟩
      · rintro ⟨hmem, hnot⟩
        refine ⟨hmem, ?_⟩
        rintro ⟨r, hr, hrd, hrid⟩
        exact hnot ⟨r, List.mem_cons_of_mem _ hr, hrd, hrid⟩

theorem gcCoursesPassOne_noop (vp vc : List Nat) :
    ∀ (cs : List Course) (db : DBState) (d : Nat),
      (∀ c ∈ cs, courseDeadOne vp vc c = false) →
      gcCoursesPassOne vp vc cs db d = (db, d)
  | [], db, d, _ => by simp [gcCoursesPassOne]
  | c :: cs, db, d, h => by
    simp only [gcCoursesPassOne]
    rw [if_neg (by simp [h c (by simp)])]
    exact gcCoursesPassOne_noop vp vc cs db d (fun r hr => h r (by simp [hr]))

theorem gcCoursesPassTwo_frame (vc : List Nat) :
    ∀ (cs : List Course) (db : DBState) (d : Nat),
      (gcCoursesPassTwo vc cs db d).1.papers = db.papers ∧
      (gcCoursesPassTwo vc cs db d).1.providers = db.providers ∧
      (gcCoursesPassTwo vc cs db d).1.lectures = db.lectures ∧
      (gcCoursesPassTwo vc cs db d).1.nextId = db.nextId ∧
      (gcCoursesPassTwo vc cs db d).1.clock = db.clock
  | [], db, d => by simp [gcCoursesPassTwo]
  | c :: cs, db, d => by
    simp only [gcCoursesPassTwo]
    split
    · simpa [deleteCourseId] using gcCoursesPassTwo_frame vc cs (deleteCourseId db c.id) (d + 1)
    · exact gcCoursesPassTwo_frame vc cs db d

theorem gcCoursesPassTwo_mem (vc : List Nat) :
    ∀ (cs : List Course) (db : DBState) (d : Nat) (q : Course),
      (q ∈ (gcCoursesPassTwo vc cs db d).1.courses ↔
        q ∈ db.courses ∧ ¬ ∃ c ∈ cs, courseDeadTwo vc c = true ∧ c.id = q.id)
  | [], db, d, q => by simp [gcCoursesPassTwo]
  | c :: cs, db, d, q => by
    simp only [gcCoursesPassTwo]
    split
    · rename_i hdead
      rw [gcCoursesPassTwo_mem vc cs (deleteCourseId db c.id) (d + 1) q]
      simp only [deleteCourseId, List.mem_filter, List.mem_cons]
      constructor
      · rintro ⟨⟨hmem, hne⟩, hnot⟩
        refine ⟨hmem, ?_⟩
        rintro ⟨r, hr, hrd, hrid⟩
        rcases hr with rfl | hr
        · simp only [bne_iff_ne, ne_eq] at hne
          exact hne hrid.symm
        · exact hnot ⟨r, hr, hrd, hrid⟩
      · rintro ⟨hmem, hnot⟩
        refine ⟨⟨hmem, ?_⟩, ?_⟩
        · simp only [bne_iff_ne, ne_eq]
          intro hqp
          exact hnot ⟨c, Or.inl rfl, hdead, hqp.symm⟩
        · rintro ⟨r, hr, hrd, hrid⟩
          exact hnot ⟨r, Or.inr hr, hrd, hrid⟩
    · rename_i hdead
      rw [gcCoursesPassTwo_mem vc cs db d q]
      constructor
      · rintro ⟨hmem, hnot⟩
        refine ⟨hmem, ?_⟩
        rintro ⟨r, hr, hrd, hrid⟩
        rw [List.mem_cons] at hr
        rcases hr with rfl | hr
        · exact hdead hrd
        · exact hnot ⟨r, hr, hrd, hrid⟩
      · rintro ⟨hmem, hnot⟩
        refine ⟨hmem, ?_⟩
        rintro ⟨r, hr, hrd, hrid⟩
        exact hnot ⟨r, List.mem_cons_of_mem _ hr, hrd, hrid⟩

theorem gcCoursesPassTwo_noop (vc : List Nat) :
    ∀ (cs : List Course) (db : DBState) (d : Nat),
      (∀ c ∈ cs, vc.contains c.id = true) →
      gcCoursesPassTwo vc cs db d = (db, d)
  | [], db, d, _ => by simp [gcCoursesPassTwo]
  | c :: cs, db, d, h => by
    have hx : c.id ∈ vc := by simpa using h c (by simp)
    simp only [gcCoursesPassTwo]
    rw [if_neg (by simp [courseDeadTwo, hx])]
    exact gcCoursesPassTwo_noop vc cs db d (fun r hr => h r (by simp [hr]))

theorem gcLectures_frame (vl : List Nat) :
    ∀ (ls : List Lecture) (db : DBState) (d : Nat),
      (gcLectures vl ls db d).1.papers = db.papers ∧
      (gcLectures vl ls db d).1.providers = db.providers ∧
      (gcLectures vl ls db d).1.courses = db.courses ∧
      (gcLectures vl ls db d).1.nextId = db.nextId ∧
      (gcLectures vl ls db d).1.clock = db.clock
  | [], db, d => by simp [gcLectures]
  | l :: ls, db, d => by
    simp only [gcLectures]
    split
    · simpa [deleteLectureId] using gcLectures_frame vl ls (deleteLectureId db l.id) (d + 1)
    · exact gcLectures_frame vl ls db d

theorem gcLectures_mem (vl : List Nat) :
    ∀ (ls : List Lecture) (db : DBState) (d : Nat) (q : Lecture),
      (q ∈ (gcLectures vl ls db d).1.lectures ↔
        q ∈ db.lectures ∧ ¬ ∃ l ∈ ls, lectDead vl l = true ∧ l.id = q.id)
  | [], db, d, q => by simp [gcLectures]
  | l :: ls, db, d, q => by
    simp only [gcLectures]
    split
    · rename_i hdead
      rw [gcLectures_mem vl ls (deleteLectureId db l.id) (d + 1) q]
      simp only [deleteLectureId, List.mem_filter, List.mem_cons]
      constructor
      · rintro ⟨⟨hmem, hne⟩, hnot⟩
        refine ⟨hmem, ?_⟩
        rintro ⟨r, hr, hrd, hrid⟩
        rcases hr with rfl | hr
        · simp only [bne_iff_ne, ne_eq] at hne
          exact hne hrid.symm
        · exact hnot ⟨r, hr, hrd, hrid⟩
      · rintro ⟨hmem, hnot⟩
        refine ⟨⟨hmem, ?_⟩, ?_⟩
        · simp only [bne_iff_ne, ne_eq]
          intro hqp
          exact hnot ⟨l, Or.inl rfl, hdead, hqp.symm⟩
        · rintro ⟨r, hr, hrd, hrid⟩
          exact hnot ⟨r, Or.inr hr, hrd, hrid⟩
    · rename_i hdead
      rw [gcLectures_mem vl ls db d q]
      constructor
      · rintro ⟨hmem, hnot⟩
        refine ⟨hmem, ?_⟩
        rintro ⟨r, hr, hrd, hrid⟩
        rw [List.mem_cons] at hr
        rcases hr with rfl | hr
        · exact hdead hrd
        · exact hnot ⟨r, hr, hrd, hrid⟩
      · rintro ⟨hmem, hnot⟩
        refine ⟨hmem, ?_⟩
        rintro ⟨r, hr, hrd, hrid⟩
        exact hnot ⟨r, List.mem_cons_of_mem _ hr, hrd, hrid⟩

theorem gcLectures_noop (vl : List Nat) :
    ∀ (ls : List Lecture) (db : DBState) (d : Nat),
      (∀ l ∈ ls, vl.contains l.id = true) →
      gcLectures vl ls db d = (db, d)
  | [], db, d, _ => by simp [gcLectures]
  | l :: ls, db, d, h => by
    have hx : l.id ∈ vl := by simpa using h l (by simp)
    simp only [gcLectures]
    rw [if_neg (by simp [lectDead, hx])]
    exact gcLectures_noop vl ls db d (fun r hr => h r (by simp [hr]))

theorem lecture_update_self (l : Lecture) : ({ l with orderIndex := l.orderIndex }) = l := rfl

theorem lectEvolves_refl (db : DBState) : LectEvolves db db := by
  intro l' hl'
  exact Or.inl ⟨l', hl', rfl, rfl⟩

theorem lectEvolves_trans {db db1 db2 : DBState}
    (h1 : LectEvolves db db1) (h2 : LectEvolves db1 db2)
    (hn : db.nextId ≤ db1.nextId) : LectEvolves db db2 := by
  intro l'' hl''
  rcases h2 l'' hl'' with ⟨l', hl', hid, heq⟩ | hfresh
  · rcases h1 l' hl' with ⟨l, hl, hid2, heq2⟩ | hfresh2
    · refine Or.inl ⟨l, hl, hid.trans hid2, ?_⟩
      rw [heq, heq2]
    · exact Or.inr (hid ▸ hfresh2)
  · exact Or.inr (le_trans hn hfresh)

theorem Phase1Facts.refl (db : DBState) : Phase1Facts db db :=
  ⟨rfl, le_refl _, fun _ => ⟨[], by simp⟩, id, fun _ => lectEvolves_refl db⟩

theorem Phase1Facts.trans {db db1 db2 : DBState}
    (h1 : Phase1Facts db db1) (h2 : Phase1Facts db1 db2) : Phase1Facts db db2 := by
  refine ⟨h2.papers_eq.trans h1.papers_eq, le_trans h1.next_mono h2.next_mono, ?_,
    fun hwf => h2.wf (h1.wf hwf), ?_⟩
  · intro hwf
    obtain ⟨n1, e1⟩ := h1.providers_ext hwf
    obtain ⟨n2, e2⟩ := h2.providers_ext (h1.wf hwf)
    exact ⟨n1 ++ n2, by rw [e2, e1, List.append_assoc]⟩
  · intro hwf
    exact lectEvolves_trans (h1.lect hwf) (h2.lect (h1.wf hwf)) h1.next_mono

/-- Appending a fresh-id provider row (and bumping `nextId`) preserves
well-formedness. -/
theorem DBWF_append_provider {db db' : DBState} (hwf : DBWF db) {p : Provider}
    (hid : p.id = db.nextId)
    (hps : db'.providers = db.providers ++ [p]) (hcs : db'.courses = db.courses)
    (hls : db'.lectures = db.lectures) (hn : db'.nextId = db.nextId + 1) :
    DBWF db' := by
  obtain ⟨hnp, hnc, hnl, hbp, hbc, hbl⟩ := hwf
  refine ⟨?_, by rw [hcs]; exact hnc, by rw [hls]; exact hnl, ?_, ?_, ?_⟩
  · rw [hps, List.map_append, List.nodup_append]
    refine ⟨hnp, by simp, ?_⟩
    intro x hx
    simp only [List.map_cons, List.map_nil, List.mem_singleton]
    intro hxp
    rw [List.mem_map] at hx
    obtain ⟨q, hq, hqx⟩ := hx
    have := hbp q hq
    omega
  · intro q hq
    rw [hps, List.mem_append] at hq
    rw [hn]
    rcases hq with hq | hq
    · have := hbp q hq
      omega
    · simp only [List.mem_singleton] at hq
      subst hq
      omega
  · intro q hq
    rw [hcs] at hq
    rw [hn]
    have := hbc q hq
    omega
  · intro q hq
    rw [hls] at hq
    rw [hn]
    have := hbl q hq
    omega

theorem DBWF_append_course {db db' : DBState} (hwf : DBWF db) {c : Course}
    (hid : c.id = db.nextId)
    (hps : db'.providers = db.providers) (hcs : db'.courses = db.courses ++ [c])
    (hls : db'.lectures = db.lectures) (hn : db'.nextId = db.nextId + 1) :
    DBWF db' := by
  obtain ⟨hnp, hnc, hnl, hbp, hbc, hbl⟩ := hwf
  refine ⟨by rw [hps]; exact hnp, ?_, by rw [hls]; exact hnl, ?_, ?_, ?_⟩
  · rw [hcs, List.map_append, List.nodup_append]
    refine ⟨hnc, by simp, ?_⟩
    intro x hx
    simp only [List.map_cons, List.map_nil, List.mem_singleton]
    intro hxp
    rw [List.mem_map] at hx
    obtain ⟨q, hq, hqx⟩ := hx
    have := hbc q hq
    omega
  · intro q hq
    rw [hps] at hq
    rw [hn]
    have := hbp q hq
    omega
  · intro q hq
    rw [hcs, List.mem_append] at hq
    rw [hn]
    rcases hq with hq | hq
    · have := hbc q hq
      omega
    · simp only [List.mem_singleton] at hq
      subst hq
      omega
  · intro q hq
    rw [hls] at hq
    rw [hn]
    have := hbl q hq
    omega

theorem DBWF_append_lecture {db db' : DBState} (hwf : DBWF db) {l : Lecture}
    (hid : l.id = db.nextId)
    (hps : db'.providers = db.providers) (hcs : db'.courses = db.courses)
    (hls : db'.lectures = db.lectures ++ [l]) (hn : db'.nextId = db.nextId + 1) :
    DBWF db' := by
  obtain ⟨hnp, hnc, hnl, hbp, hbc, hbl⟩ := hwf
  refine ⟨by rw [hps]; exact hnp, by rw [hcs]; exact hnc, ?_, ?_, ?_, ?_⟩
  · rw [hls, List.map_append, List.nodup_append]
    refine ⟨hnl, by simp, ?_⟩
    intro x hx
    simp only [List.map_cons, List.map_nil, List.mem_singleton]
    intro hxp
    rw [List.mem_map] at hx
    obtain ⟨q, hq, hqx⟩ := hx
    have := hbl q hq
    omega
  · intro q hq
    rw [hps] at hq
    rw [hn]
    have := hbp q hq
    omega
  · intro q hq
    rw [hcs] at hq
    rw [hn]
    have := hbc q hq
    omega
  · intro q hq
    rw [hls, List.mem_append] at hq
    rw [hn]
    rcases hq with hq | hq
    · have := hbl q hq
      omega
    · simp only [List.mem_singleton] at hq
      subst hq
      omega

/-- Replacing a row by another row with the same id preserves
well-formedness (the id multiset is unchanged). -/
theorem DBWF_replace_course {db db' : DBState} (hwf : DBWF db) {c0 c' : Course}
    (hid : c'.id = c0.id)
    (hps : db'.providers = db.providers)
    (hcs : db'.courses = db.courses.map (fun q => if q.id == c0.id then c' else q))
    (hls : db'.lectures = db.lectures) (hn : db'.nextId = db.nextId)
    (hlt : c0.id < db.nextId) :
    DBWF db' := by
  obtain ⟨hnp, hnc, hnl, hbp, hbc, hbl⟩ := hwf
  have hids : db'.courses.map (fun q => q.id) = db.courses.map (fun q => q.id) := by
    rw [hcs, List.map_map]
    refine List.map_congr_left (fun q hq => ?_)
    simp only [Function.comp]
    by_cases h : q.id = c0.id
    · simp [h, hid]
    · simp [h]
  refine ⟨by rw [hps]; exact hnp, by rw [hids]; exact hnc, by rw [hls]; exact hnl,
    ?_, ?_, ?_⟩
  · intro q hq
    rw [hps] at hq
    rw [hn]
    exact hbp q hq
  · intro q hq
    rw [hcs, List.mem_map] at hq
    obtain ⟨r, hr, hrq⟩ := hq
    rw [hn, ← hrq]
    by_cases h : r.id = c0.id
    · simp only [h, beq_self_eq_true, if_true]
      omega
    · simp only [beq_iff_eq, h, if_false]
      exact hbc r hr
  · intro q hq
    rw [hls] at hq
    rw [hn]
    exact hbl q hq

theorem DBWF_replace_lecture {db db' : DBState} (hwf : DBWF db) {l0 l' : Lecture}
    (hid : l'.id = l0.id)
    (hps : db'.providers = db.providers)
    (hcs : db'.courses = db.courses)
    (hls : db'.lectures = db.lectures.map (fun q => if q.id == l0.id then l' else q))
    (hn : db'.nextId = db.nextId)
    (hlt : l0.id < db.nextId) :
    DBWF db' := by
  obtain ⟨hnp, hnc, hnl, hbp, hbc, hbl⟩ := hwf
  have hids : db'.lectures.map (fun q => q.id) = db.lectures.map (fun q => q.id) := by
    rw [hls, List.map_map]
    refine List.map_congr_left (fun q hq => ?_)
    simp only [Function.comp]
    by_cases h : q.id = l0.id
    · simp [h, hid]
    · simp [h]
  refine ⟨by rw [hps]; exact hnp, by rw [hcs]; exact hnc, by rw [hids]; exact hnl,
    ?_, ?_, ?_⟩
  · intro q hq
    rw [hps] at hq
    rw [hn]
    exact hbp q hq
  · intro q hq
    rw [hcs] at hq
    rw [hn]
    exact hbc q hq
  · intro q hq
    rw [hls, List.mem_map] at hq
    obtain ⟨r, hr, hrq⟩ := hq
    rw [hn, ← hrq]
    by_cases h : r.id = l0.id
    · simp only [h, beq_self_eq_true, if_true]
      omega
    · simp only [beq_iff_eq, h, if_false]
      exact hbl r hr

theorem putProvider_frame (db : DBState) (p : Provider) :
    (putProvider db p).papers = db.papers ∧ (putProvider db p).courses = db.courses ∧
    (putProvider db p).lectures = db.lectures ∧ (putProvider db p).nextId = db.nextId ∧
    (putProvider db p).clock = db.clock := by
  simp only [putProvider]
  split <;> simp

theorem putCourse_frame (db : DBState) (c : Course) :
    (putCourse db c).papers = db.papers ∧ (putCourse db c).providers = db.providers ∧
    (putCourse db c).lectures = db.lectures ∧ (putCourse db c).nextId = db.nextId ∧
    (putCourse db c).clock = db.clock := by
  simp only [putCourse]
  split <;> simp

theorem putLecture_frame (db : DBState) (l : Lecture) :
    (putLecture db l).papers = db.papers ∧ (putLecture db l).providers = db.providers ∧
    (putLecture db l).courses = db.courses ∧ (putLecture db l).nextId = db.nextId ∧
    (putLecture db l).clock = db.clock := by
  simp only [putLecture]
  split <;> simp

theorem putCourse_mem_self (db : DBState) (c : Course) : c ∈ (putCourse db c).courses := by
  simp only [putCourse]
  split
  · rename_i hany
    simp only [List.any_eq_true] at hany
    obtain ⟨q, hq, hqc⟩ := hany
    rw [List.mem_map]
    exact ⟨q, hq, by simp [hqc]⟩
  · simp

theorem addProvider_facts {db : DBState} {pid name : String} {p : Provider}
    {db' : DBState} (h : addProvider db pid name = .ok (p, db')) :
    Phase1Facts db db' ∧ p.id = db.nextId ∧ db'.courses = db.courses ∧
    db'.lectures = db.lectures ∧ db'.nextId = db.nextId + 1 := by
  obtain ⟨hp, hdb, hmem⟩ := addProvider_spec h
  have hpid : p.id = db.nextId := by rw [hp]
  have hframe := putProvider_frame db p
  have hpapers : db'.papers = db.papers := by rw [hdb]; exact hframe.1
  have hcourses : db'.courses = db.courses := by rw [hdb]; exact hframe.2.1
  have hlect : db'.lectures = db.lectures := by rw [hdb]; exact hframe.2.2.1
  have hnext : db'.nextId = db.nextId + 1 := by rw [hdb]
  have hfresh : DBWF db → db'.providers = db.providers ++ [p] := by
    intro hwf
    rw [hdb]
    have : putProvider db p = { db with providers := db.providers ++ [p] } := by
      apply putProvider_fresh
      intro q hq
      have := hwf.2.2.2.1 q hq
      omega
    rw [this]
  refine ⟨⟨hpapers, by omega, fun hwf => ⟨[p], hfresh hwf⟩, ?_, ?_⟩, hpid, hcourses, hlect, hnext⟩
  · intro hwf
    exact DBWF_append_provider hwf hpid (hfresh hwf) hcourses hlect hnext
  · intro hwf
    intro l' hl'
    rw [hlect] at hl'
    exact Or.inl ⟨l', hl', rfl, rfl⟩

theorem addCourse_facts {db : DBState} {prid : Nat} {name : String} {c : Course}
    {db' : DBState} (h : addCourse db prid name = .ok (c, db')) :
    Phase1Facts db db' ∧ c.id = db.nextId ∧ db'.providers = db.providers ∧
    db'.lectures = db.lectures ∧ db'.nextId = db.nextId + 1 := by
  obtain ⟨hc, hdb, hmem⟩ := addCourse_spec h
  have hcid : c.id = db.nextId := by rw [hc]
  have hframe := putCourse_frame db c
  have hpapers : db'.papers = db.papers := by rw [hdb]; exact hframe.1
  have hprov : db'.providers = db.providers := by rw [hdb]; exact hframe.2.1
  have hlect : db'.lectures = db.lectures := by rw [hdb]; exact hframe.2.2.1
  have hnext : db'.nextId = db.nextId + 1 := by rw [hdb]
  have hfresh : DBWF db → db'.courses = db.courses ++ [c] := by
    intro hwf
    rw [hdb]
    have : putCourse db c = { db with courses := db.courses ++ [c] } := by
      apply putCourse_fresh
      intro q hq
      have := hwf.2.2.2.2.1 q hq
      omega
    rw [this]
  refine ⟨⟨hpapers, by omega, fun hwf => ⟨[], by rw [hprov, List.append_nil]⟩, ?_, ?_⟩,
    hcid, hprov, hlect, hnext⟩
  · intro hwf
    exact DBWF_append_course hwf hcid hprov (hfresh hwf) hlect hnext
  · intro hwf
    intro l' hl'
    rw [hlect] at hl'
    exact Or.inl ⟨l', hl', rfl, rfl⟩

theorem addLecture_facts {db : DBState} {cid : Nat} {title : String} {ty : MediaType}
    {fn : String} {i : Nat} {l : Lecture} {db' : DBState}
    (h : addLecture db cid title ty fn i = .ok (l, db')) :
    Phase1Facts db db' ∧ l.id = db.nextId ∧ db'.providers = db.providers ∧
    db'.courses = db.courses ∧ db'.nextId = db.nextId + 1 := by
  obtain ⟨hl, hdb, hmem⟩ := addLecture_spec h
  have hlid : l.id = db.nextId := by rw [hl]
  have hframe := putLecture_frame db l
  have hpapers : db'.papers = db.papers := by rw [hdb]; exact hframe.1
  have hprov : db'.providers = db.providers := by rw [hdb]; exact hframe.2.1
  have hcourses : db'.courses = db.courses := by rw [hdb]; exact hframe.2.2.1
  have hnext : db'.nextId = db.nextId + 1 := by rw [hdb]
  have hfresh : DBWF db → db'.lectures = db.lectures ++ [l] := by
    intro hwf
    rw [hdb]
    have : putLecture db l = { db with lectures := db.lectures ++ [l] } := by
      apply putLecture_fresh
      intro q hq
      have := hwf.2.2.2.2.2 q hq
      omega
    rw [this]
  refine ⟨⟨hpapers, by omega, fun hwf => ⟨[], by rw [hprov, List.append_nil]⟩, ?_, ?_⟩,
    hlid, hprov, hcourses, hnext⟩
  · intro hwf
    exact DBWF_append_lecture hwf hlid hprov hcourses (hfresh hwf) hnext
  · intro hwf
    intro l' hl'
    rw [hfresh hwf, List.mem_append] at hl'
    rcases hl' with hl' | hl'
    · exact Or.inl ⟨l', hl', rfl, rfl⟩
    · simp only [List.mem_singleton] at hl'
      subst hl'
      exact Or.inr (le_of_eq hlid.symm)

theorem ensureProvider_facts {db : DBState} {pid pn : String} {p : Provider}
    {db' : DBState} (h : ensureProvider db pid pn = .ok (p, db')) :
    Phase1Facts db db' := by
  rcases ensureProvider_cases h with ⟨_, rfl⟩ | ⟨_, hadd⟩
  · exact Phase1Facts.refl _
  · exact (addProvider_facts hadd).1

theorem putCourse_replace_facts {db : DBState} {c0 c' : Course}
    (hmem : c0 ∈ db.courses) (hid : c'.id = c0.id) :
    Phase1Facts db (putCourse db c') := by
  have hany : db.courses.any (fun q => q.id == c'.id) = true := by
    simp only [List.any_eq_true]
    exact ⟨c0, hmem, by simp [hid]⟩
  have hcs : (putCourse db c').courses =
      db.courses.map (fun q => if q.id == c'.id then c' else q) := by
    simp only [putCourse, hany, if_true]
  have hframe := putCourse_frame db c'
  refine ⟨hframe.1, le_of_eq hframe.2.2.2.1.symm,
    fun _ => ⟨[], by rw [hframe.2.1, List.append_nil]⟩, ?_, ?_⟩
  · intro hwf
    refine @DBWF_replace_course db (putCourse db c') hwf c' c' rfl hframe.2.1 hcs
      hframe.2.2.1 hframe.2.2.2.1 ?_
    have := hwf.2.2.2.2.1 c0 hmem
    omega
  · intro hwf
    intro l' hl'
    rw [hframe.2.2.1] at hl'
    exact Or.inl ⟨l', hl', rfl, rfl⟩

theorem ensureCourse_facts {db : DBState} {prid : Nat} {cn path : String}
    {c' : Course} {db' : DBState}
    (h : ensureCourse db prid cn path = .ok (c', db')) :
    Phase1Facts db db' := by
  rcases ensureCourse_cases h with ⟨c, hlk, hc', rfl⟩ | ⟨_, c, db1, hadd, hc', rfl⟩
  · have hmem := (lookupCourse_spec hlk).1
    exact putCourse_replace_facts hmem (by rw [hc'])
  · have hfacts := addCourse_facts hadd
    refine hfacts.1.trans ?_
    have hmem : c ∈ db1.courses := by
      obtain ⟨hcspec, hdb1, _⟩ := addCourse_spec hadd
      rw [hdb1]
      exact putCourse_mem_self db c
    exact putCourse_replace_facts hmem (by rw [hc'])

theorem putLecture_replace_facts {db : DBState} {l0 l' : Lecture}
    (hmem : l0 ∈ db.lectures) (hid : l'.id = l0.id)
    (hdesc : l' = { l0 with orderIndex := l'.orderIndex }) :
    Phase1Facts db (putLecture db l') := by
  have hany : db.lectures.any (fun q => q.id == l'.id) = true := by
    simp only [List.any_eq_true]
    exact ⟨l0, hmem, by simp [hid]⟩
  have hls : (putLecture db l').lectures =
      db.lectures.map (fun q => if q.id == l'.id then l' else q) := by
    simp only [putLecture, hany, if_true]
  have hframe := putLecture_frame db l'
  refine ⟨hframe.1, le_of_eq hframe.2.2.2.1.symm,
    fun _ => ⟨[], by rw [hframe.2.1, List.append_nil]⟩, ?_, ?_⟩
  · intro hwf
    refine @DBWF_replace_lecture db (putLecture db l') hwf l' l' rfl hframe.2.1 hframe.2.2.1
      hls hframe.2.2.2.1 ?_
    have := hwf.2.2.2.2.2 l0 hmem
    omega
  · intro hwf
    intro q hq
    rw [hls, List.mem_map] at hq
    obtain ⟨r, hr, hrq⟩ := hq
    by_cases hrid : r.id = l'.id
    · rw [← hrq]
      simp only [hrid, beq_self_eq_true, if_true]
      refine Or.inl ⟨l0, hmem, hid, hdesc⟩
    · rw [← hrq]
      simp only [beq_iff_eq, hrid, if_false]
      exact Or.inl ⟨r, hr, rfl, rfl⟩

theorem ensureLecture_facts {db : DBState} {cid : Nat} {f : FileEntry} {i : Nat}
    {cr up : Bool} {l : Lecture} {db' : DBState}
    (h : ensureLecture db cid f i = .ok (cr, up, l, db')) :
    Phase1Facts db db' := by
  rcases ensureLecture_cases h with ⟨_, _, _, hadd⟩ | ⟨l0, hlk, _, _, _, hl, rfl⟩ | ⟨_, _, _, _, rfl⟩
  · exact (addLecture_facts hadd).1
  · have hmem := (lookupLecture_spec hlk).1
    exact putLecture_replace_facts hmem (by rw [hl]) (by rw [hl])
  · exact Phase1Facts.refl _

/-! ## The phase-level evolution facts -/

theorem processLectures_facts (cid : Nat) :
    ∀ (fs : List FileEntry) (i : Nat) (st st' : SyncSt),
      processLectures cid fs i st = .ok st' →
      Phase1Facts st.db st'.db ∧ st'.skips = st.skips
  | [], i, st, st', h => by
    simp only [processLectures, Except.ok.injEq] at h
    subst h
    exact ⟨Phase1Facts.refl st.db, rfl⟩
  | f :: fs, i, st, st', h => by
    unfold processLectures at h
    cases he : ensureLecture st.db cid f i with
    | error e =>
      rw [he] at h
      simp only [exceptBind_err] at h
      exact absurd h (by simp)
    | ok r =>
      rw [he] at h
      obtain ⟨cr, up, l, db1⟩ := r
      simp only [exceptBind_ok] at h
      have ih := processLectures_facts cid fs (i + 1) _ st' h
      refine ⟨(ensureLecture_facts he).trans (by simpa using ih.1), by simpa using ih.2⟩

theorem processCourses_facts (pf pn : String) (prid : Nat) :
    ∀ (cts : ProviderTree) (st st' : SyncSt),
      processCourses pf pn prid cts st = .ok st' →
      Phase1Facts st.db st'.db ∧ st'.skips = st.skips
  | [], st, st', h => by
    simp only [processCourses, Except.ok.injEq] at h
    subst h
    exact ⟨Phase1Facts.refl st.db, rfl⟩
  | (cn, lects) :: rest, st, st', h => by
    unfold processCourses at h
    dsimp only [] at h
    cases he : ensureCourse st.db prid cn (pf ++ "/" ++ pn ++ "/" ++ cn) with
    | error e =>
      rw [he] at h
      simp only [exceptBind_err] at h
      exact absurd h (by simp)
    | ok r =>
      rw [he] at h
      obtain ⟨c, db1⟩ := r
      simp only [exceptBind_ok] at h
      cases hp : processLectures c.id lects 0
          { st with db := db1, validCourseIds := st.validCourseIds ++ [c.id] } with
      | error e =>
        rw [hp] at h
        simp only [exceptBind_err] at h
        exact absurd h (by simp)
      | ok st2 =>
        rw [hp] at h
        simp only [exceptBind_ok] at h
        have h1 := ensureCourse_facts he
        have h2 := processLectures_facts c.id lects 0 _ st2 hp
        have h3 := processCourses_facts pf pn prid rest st2 st' h
        refine ⟨(h1.trans (by simpa using h2.1)).trans h3.1, ?_⟩
        rw [h3.2]
        simpa using h2.2

theorem processProviders_facts (pf pid : String) :
    ∀ (pt : PaperTree) (st st' : SyncSt),
      processProviders pf pid pt st = .ok st' →
      Phase1Facts st.db st'.db ∧ st'.skips = st.skips
  | [], st, st', h => by
    simp only [processProviders, Except.ok.injEq] at h
    subst h
    exact ⟨Phase1Facts.refl st.db, rfl⟩
  | (pn, cts) :: rest, st, st', h => by
    unfold processProviders at h
    dsimp only [] at h
    cases he : ensureProvider st.db pid pn with
    | error e =>
      rw [he] at h
      simp only [exceptBind_err] at h
      exact absurd h (by simp)
    | ok r =>
      rw [he] at h
      obtain ⟨p, db1⟩ := r
      simp only [exceptBind_ok] at h
      cases hc : processCourses pf pn p.id cts
          { st with db := db1, validProviderIds := st.validProviderIds ++ [p.id] } with
      | error e =>
        rw [hc] at h
        simp only [exceptBind_err] at h
        exact absurd h (by simp)
      | ok st2 =>
        rw [hc] at h
        simp only [exceptBind_ok] at h
        have h1 := ensureProvider_facts he
        have h2 := processCourses_facts pf pn p.id cts _ st2 hc
        have h3 := processProviders_facts pf pid rest st2 st' h
        refine ⟨(h1.trans (by simpa using h2.1)).trans h3.1, ?_⟩
        rw [h3.2]
        simpa using h2.2

theorem processPapers_facts (papers : List Paper) :
    ∀ (t : ScanTree) (st st' : SyncSt),
      processPapers papers t st = .ok st' →
      Phase1Facts st.db st'.db
  | [], st, st', h => by
    simp only [processPapers, Except.ok.injEq] at h
    subst h
    exact Phase1Facts.refl st.db
  | (fn, pt) :: rest, st, st', h => by
    unfold processPapers at h
    cases hm : matchPaperFolder fn papers with
    | none =>
      rw [hm] at h
      have ih := processPapers_facts papers rest _ st' h
      simpa using ih
    | some pid =>
      rw [hm] at h
      dsimp only [] at h
      cases hp : processProviders fn pid pt st with
      | error e =>
        rw [hp] at h
        simp only [exceptBind_err] at h
        exact absurd h (by simp)
      | ok st1 =>
        rw [hp] at h
        simp only [exceptBind_ok] at h
        have h1 := processProviders_facts fn pid pt st st1 hp
        have ih := processPapers_facts papers rest st1 st' h
        exact h1.1.trans ih

/-! ## What the whole GC phase does to each collection -/

theorem runGC_frame (t : ScanTree) (papers : List Paper) (st : SyncSt) :
    (runGC t papers st).1.papers = st.db.papers ∧
    (runGC t papers st).1.nextId = st.db.nextId ∧
    (runGC t papers st).1.clock = st.db.clock ∧
    (runGC t papers st).1.providers =
      (gcProviders t papers st.validProviderIds st.db.providers st.db 0).1.providers := by
  unfold runGC
  have f1 := gcProviders_frame t papers st.validProviderIds st.db.providers st.db 0
  rcases hr1 : gcProviders t papers st.validProviderIds st.db.providers st.db 0 with ⟨db1, d1⟩
  rw [hr1] at f1
  dsimp only [] at f1 ⊢
  have f2 := gcCoursesPassOne_frame st.validProviderIds st.validCourseIds db1.courses db1 d1
  rcases hr2 : gcCoursesPassOne st.validProviderIds st.validCourseIds db1.courses db1 d1 with ⟨db2, d2⟩
  rw [hr2] at f2
  dsimp only [] at f2 ⊢
  have f3 := gcCoursesPassTwo_frame st.validCourseIds db1.courses db2 d2
  rcases hr3 : gcCoursesPassTwo st.validCourseIds db1.courses db2 d2 with ⟨db3, d3⟩
  rw [hr3] at f3
  dsimp only [] at f3 ⊢
  have f4 := gcLectures_frame st.validLectureIds db3.lectures db3 d3
  rcases hr4 : gcLectures st.validLectureIds db3.lectures db3 d3 with ⟨db4, d4⟩
  rw [hr4] at f4
  dsimp only [] at f4 ⊢
  exact ⟨by rw [f4.1, f3.1, f2.1, f1.1], by rw [f4.2.2.2.1, f3.2.2.2.1, f2.2.2.2.1, f1.2.2.2.1],
    by rw [f4.2.2.2.2, f3.2.2.2.2, f2.2.2.2.2, f1.2.2.2.2],
    by rw [f4.2.1, f3.2.1, f2.2.1]⟩

theorem runGC_providers_mem (t : ScanTree) (papers : List Paper) (st : SyncSt)
    (q : Provider) :
    q ∈ (runGC t papers st).1.providers ↔
      q ∈ st.db.providers ∧
        ¬ ∃ p ∈ st.db.providers,
            provDead t papers st.validProviderIds p = true ∧ p.id = q.id := by
  rw [(runGC_frame t papers st).2.2.2]
  exact gcProviders_mem t papers st.validProviderIds st.db.providers st.db 0 q

theorem runGC_courses_mem (t : ScanTree) (papers : List Paper) (st : SyncSt)
    (q : Course) :
    q ∈ (runGC t papers st).1.courses ↔
      q ∈ st.db.courses ∧
        (¬ ∃ c ∈ st.db.courses,
            courseDeadOne st.validProviderIds st.validCourseIds c = true ∧ c.id = q.id) ∧
        (¬ ∃ c ∈ st.db.courses, courseDeadTwo st.validCourseIds c = true ∧ c.id = q.id) := by
  unfold runGC
  have f1 := gcProviders_frame t papers st.validProviderIds st.db.providers st.db 0
  rcases hr1 : gcProviders t papers st.validProviderIds st.db.providers st.db 0 with ⟨db1, d1⟩
  rw [hr1] at f1
  dsimp only [] at f1 ⊢
  have m2 := gcCoursesPassOne_mem st.validProviderIds st.validCourseIds db1.courses db1 d1
  rcases hr2 : gcCoursesPassOne st.validProviderIds st.validCourseIds db1.courses db1 d1 with ⟨db2, d2⟩
  rw [hr2] at m2
  dsimp only [] at m2 ⊢
  have m3 := gcCoursesPassTwo_mem st.validCourseIds db1.courses db2 d2
  rcases hr3 : gcCoursesPassTwo st.validCourseIds db1.courses db2 d2 with ⟨db3, d3⟩
  rw [hr3] at m3
  dsimp only [] at m3 ⊢
  have f4 := gcLectures_frame st.validLectureIds db3.lectures db3 d3
  rcases hr4 : gcLectures st.validLectureIds db3.lectures db3 d3 with ⟨db4, d4⟩
  rw [hr4] at f4
  dsimp only [] at f4 ⊢
  rw [f4.2.2.1]
  rw [m3 q, m2 q, f1.2.1]
  tauto

theorem runGC_lectures_mem (t : ScanTree) (papers : List Paper) (st : SyncSt)
    (q : Lecture) :
    q ∈ (runGC t papers st).1.lectures ↔
      q ∈ st.db.lectures ∧
        ¬ ∃ l ∈ st.db.lectures, lectDead st.validLectureIds l = true ∧ l.id = q.id := by
  unfold runGC
  have f1 := gcProviders_frame t papers st.validProviderIds st.db.providers st.db 0
  rcases hr1 : gcProviders t papers st.validProviderIds st.db.providers st.db 0 with ⟨db1, d1⟩
  rw [hr1] at f1
  dsimp only [] at f1 ⊢
  have f2 := gcCoursesPassOne_frame st.validProviderIds st.validCourseIds db1.courses db1 d1
  rcases hr2 : gcCoursesPassOne st.validProviderIds st.validCourseIds db1.courses db1 d1 with ⟨db2, d2⟩
  rw [hr2] at f2
  dsimp only [] at f2 ⊢
  have f3 := gcCoursesPassTwo_frame st.validCourseIds db1.courses db2 d2
  rcases hr3 : gcCoursesPassTwo st.validCourseIds db1.courses db2 d2 with ⟨db3, d3⟩
  rw [hr3] at f3
  dsimp only [] at f3 ⊢
  have m4 := gcLectures_mem st.validLectureIds db3.lectures db3 d3
  rcases hr4 : gcLectures st.validLectureIds db3.lectures db3 d3 with ⟨db4, d4⟩
  rw [hr4] at m4
  dsimp only [] at m4 ⊢
  rw [m4 q]
  rw [f3.2.2.1, f2.2.2.1, f1.2.2.1]

/-- Unpack a successful `syncStructure` run into its create/update phase and
its GC phase. -/
theorem syncStructure_unfold {t : ScanTree} {db s' : DBState} {c : Counts}
    (h : syncStructure t db = .ok (s', c)) :
    ∃ st1, processPapers db.papers t (initSyncSt db) = .ok st1 ∧
      s' = (runGC t db.papers st1).1 ∧
      c = ⟨st1.added, st1.updated, (runGC t db.papers st1).2⟩ := by
  unfold syncStructure at h
  cases hp : processPapers db.papers t (initSyncSt db) with
  | error e =>
    rw [hp] at h
    simp only [exceptBind_err] at h
    exact absurd h (by simp)
  | ok st1 =>
    rw [hp] at h
    simp only [exceptBind_ok, exceptPure, Except.ok.injEq, Prod.mk.injEq] at h
    exact ⟨st1, rfl, h.1.symm, h.2.symm⟩

/-! ## Claims C2, C3, C4 -/

/-- Claim C2 (confirmed).  A persisted Item that already exists at the start
of a reconciliation pass and survives it is never changed except possibly in
its display rank: reconciliation never sets or clears the completion flag
(nor the title, filename, owning course, viewed position, last-opened stamp
or kind) of an existing Item.  In particular an Item marked complete before
a pass over an unchanged tree is still complete, with the same value, after
the pass. -/
theorem sync_preserves_user_fields {t : ScanTree} {db s' : DBState} {c : Counts}
    (hwf : DBWF db) (h : syncStructure t db = .ok (s', c)) :
    ∀ l ∈ db.lectures, ∀ l' ∈ s'.lectures, l'.id = l.id →
      l'.completed = l.completed ∧ l' = { l with orderIndex := l'.orderIndex } := by
  obtain ⟨st1, hp, hs', hc⟩ := syncStructure_unfold h
  have hfacts := processPapers_facts db.papers t (initSyncSt db) st1 hp
  have hlev : LectEvolves db st1.db := hfacts.lect hwf
  intro l hl l' hl' hid
  have hmem : l' ∈ st1.db.lectures := by
    rw [hs'] at hl'
    exact ((runGC_lectures_mem t db.papers st1 l').mp hl').1
  rcases hlev l' hmem with ⟨l0, hl0, hid0, hdesc⟩ | hfresh
  · have heq : l0 = l := hwf.lecture_inj hl0 hl (hid0.symm.trans hid)
    subst heq
    exact ⟨by rw [hdesc], hdesc⟩
  · exfalso
    have := hwf.2.2.2.2.2 l hl
    omega

/-- Claim C3 (confirmed).  In the GC phase of a pass, a persisted Provider is
deleted exactly when its owning Category (paper) was matched to some
top-level folder observed this pass and its id is not in the pass's
`validProviderIds`; a Provider whose Category folder is entirely absent from
disk is never deleted. -/
theorem provider_gc_rule {t : ScanTree} {db : DBState} {st1 : SyncSt}
    {s' : DBState} {c : Counts}
    (hwf : DBWF db)
    (hp : processPapers db.papers t (initSyncSt db) = .ok st1)
    (h : syncStructure t db = .ok (s', c)) :
    ∀ p ∈ db.providers,
      (p ∈ s'.providers ↔
        ¬(isScannedPaper t db.papers p.paperId = true ∧
            p.id ∉ st1.validProviderIds)) := by
  obtain ⟨st1', hp', hs', hc⟩ := syncStructure_unfold h
  rw [hp] at hp'
  have hst : st1' = st1 := by
    simpa using hp'.symm
  rw [hst] at hs' hc
  have hfacts := processPapers_facts db.papers t (initSyncSt db) st1 hp
  have hwf1 : DBWF st1.db := hfacts.wf hwf
  obtain ⟨new, hext⟩ := hfacts.providers_ext hwf
  intro p hpmem
  have hpmem1 : p ∈ st1.db.providers := by
    rw [hext, List.mem_append]
    exact Or.inl hpmem
  rw [hs', runGC_providers_mem t db.papers st1 p]
  have hpapers : st1.db.papers = db.papers := hfacts.papers_eq
  constructor
  · rintro ⟨hmem, hnot⟩ ⟨hscan, hvp⟩
    refine hnot ⟨p, hpmem1, ?_, rfl⟩
    simp only [provDead, Bool.and_eq_true, Bool.not_eq_true']
    refine ⟨hscan, ?_⟩
    simpa using hvp
  · intro hnot
    refine ⟨hpmem1, ?_⟩
    rintro ⟨r, hr, hrd, hrid⟩
    have hrp : r = p := hwf1.provider_inj hr hpmem1 hrid
    subst hrp
    simp only [provDead, Bool.and_eq_true, Bool.not_eq_true'] at hrd
    exact hnot ⟨hrd.1, by simpa using hrd.2⟩

/-- Claim C4 (confirmed).  The course and lecture GC loops are *not*
restricted to matched categories: a persisted Course or Item (as of the end
of the create/update phase) survives the pass exactly when its id was added
to the corresponding valid set.  When a Category folder is absent from disk
its Providers are kept (claim C3) while every Course and Item beneath them
is deleted, leaving the surviving Providers childless. -/
theorem course_lecture_gc_unrestricted {t : ScanTree} {db : DBState}
    {st1 : SyncSt} {s' : DBState} {c : Counts}
    (hwf : DBWF db)
    (hp : processPapers db.papers t (initSyncSt db) = .ok st1)
    (h : syncStructure t db = .ok (s', c)) :
    (∀ cr ∈ st1.db.courses, (cr ∈ s'.courses ↔ cr.id ∈ st1.validCourseIds)) ∧
    (∀ l ∈ st1.db.lectures, (l ∈ s'.lectures ↔ l.id ∈ st1.validLectureIds)) := by
  obtain ⟨st1', hp', hs', hc⟩ := syncStructure_unfold h
  rw [hp] at hp'
  have hst : st1' = st1 := by
    simpa using hp'.symm
  rw [hst] at hs' hc
  have hfacts := processPapers_facts db.papers t (initSyncSt db) st1 hp
  have hwf1 : DBWF st1.db := hfacts.wf hwf
  constructor
  · intro cr hcr
    rw [hs', runGC_courses_mem t db.papers st1 cr]
    constructor
    · rintro ⟨hmem, hone, htwo⟩
      by_contra hvc
      refine htwo ⟨cr, hcr, ?_, rfl⟩
      simp only [courseDeadTwo, Bool.not_eq_true']
      simpa using hvc
    · intro hvc
      refine ⟨hcr, ?_, ?_⟩
      · rintro ⟨r, hr, hrd, hrid⟩
        have hrp : r = cr := hwf1.course_inj hr hcr hrid
        subst hrp
        simp only [courseDeadOne, Bool.and_eq_true, Bool.not_eq_true'] at hrd
        exact absurd hrd.2 (by simp [hvc])
      · rintro ⟨r, hr, hrd, hrid⟩
        have hrp : r = cr := hwf1.course_inj hr hcr hrid
        subst hrp
        simp only [courseDeadTwo, Bool.not_eq_true'] at hrd
        exact absurd hrd (by simpa using hvc)
  · intro l hl
    rw [hs', runGC_lectures_mem t db.papers st1 l]
    constructor
    · rintro ⟨hmem, hnot⟩
      by_contra hvl
      refine hnot ⟨l, hl, ?_, rfl⟩
      simp only [lectDead, Bool.not_eq_true']
      simpa using hvl
    · intro hvl
      refine ⟨hl, ?_⟩
      rintro ⟨r, hr, hrd, hrid⟩
      have hrp : r = l := hwf1.lecture_inj hr hl hrid
      subst hrp
      simp only [lectDead, Bool.not_eq_true'] at hrd
      exact absurd hrd (by simpa using hvl)

theorem sync_preserves_user_fields_witness :
    (⟨4, "a", 2, .video, "a.mp4", 0, true, 42, none, 0⟩ : Lecture).completed =
        (⟨4, "a", 2, .video, "a.mp4", 0, true, 42, none, 0⟩ : Lecture).completed ∧
    (⟨4, "a", 2, .video, "a.mp4", 0, true, 42, none, 0⟩ : Lecture) =
      { (⟨4, "a", 2, .video, "a.mp4", 0, true, 42, none, 0⟩ : Lecture) with
          orderIndex := (⟨4, "a", 2, .video, "a.mp4", 0, true, 42, none, 0⟩ : Lecture).orderIndex } :=
  @sync_preserves_user_fields gcDemoTree gcDemoDB gcDemoRun.1 gcDemoRun.2
    (by decide) (by rfl)
    ⟨4, "a", 2, .video, "a.mp4", 0, true, 42, none, 0⟩ (by decide)
    ⟨4, "a", 2, .video, "a.mp4", 0, true, 42, none, 0⟩ (by decide) rfl

theorem provider_gc_rule_witness :
    (⟨1, "Q", "gs2", 0, 0⟩ : Provider) ∈ gcDemoRun.1.providers ↔
      ¬(isScannedPaper gcDemoTree gcDemoDB.papers "gs2" = true ∧
          (1 : Nat) ∉ gcDemoPhase1.validProviderIds) :=
  @provider_gc_rule gcDemoTree gcDemoDB gcDemoPhase1 gcDemoRun.1 gcDemoRun.2
    (by decide) (by rfl) (by rfl) ⟨1, "Q", "gs2", 0, 0⟩ (by decide)

theorem course_lecture_gc_unrestricted_witness :
    (⟨3, "CoQ", 1, 0, some "GS2/Q/CoQ", 0⟩ : Course) ∈ gcDemoRun.1.courses ↔
      (3 : Nat) ∈ gcDemoPhase1.validCourseIds :=
  (@course_lecture_gc_unrestricted gcDemoTree gcDemoDB gcDemoPhase1 gcDemoRun.1
      gcDemoRun.2 (by decide) (by rfl) (by rfl)).1
    ⟨3, "CoQ", 1, 0, some "GS2/Q/CoQ", 0⟩ (by decide)

/-! ## The skip log is inert

No processor reads `skips`; only the unmatched-folder branch of the paper
loop appends to it.  Hence runs from states differing only in `skips`
produce the same stores, valid sets and counts. -/

theorem processLectures_skips (cid : Nat) :
    ∀ (fs : List FileEntry) (i : Nat) (db : DBState) (vp vc vl : List Nat)
      (a u : Nat) (ss : List String),
      processLectures cid fs i ⟨db, vp, vc, vl, a, u, ss⟩ =
        (processLectures cid fs i ⟨db, vp, vc, vl, a, u, []⟩).map
          (fun r => { r with skips := ss ++ r.skips })
  | [], i, db, vp, vc, vl, a, u, ss => by
    simp [processLectures, Except.map]
  | f :: fs, i, db, vp, vc, vl, a, u, ss => by
    unfold processLectures
    cases he : ensureLecture db cid f i with
    | error e => simp [he, exceptBind_err, Except.map]
    | ok r =>
      obtain ⟨cr, up, l, db1⟩ := r
      simp only [he, exceptBind_ok]
      exact processLectures_skips cid fs (i + 1) db1 vp vc (vl ++ [l.id])
        (a + (if cr then 1 else 0)) (u + (if up then 1 else 0)) ss

theorem processCourses_skips (pf pn : String) (prid : Nat) :
    ∀ (cts : ProviderTree) (db : DBState) (vp vc vl : List Nat)
      (a u : Nat) (ss : List String),
      processCourses pf pn prid cts ⟨db, vp, vc, vl, a, u, ss⟩ =
        (processCourses pf pn prid cts ⟨db, vp, vc, vl, a, u, []⟩).map
          (fun r => { r with skips := ss ++ r.skips })
  | [], db, vp, vc, vl, a, u, ss => by
    simp [processCourses, Except.map]
  | (cn, lects) :: rest, db, vp, vc, vl, a, u, ss => by
    unfold processCourses
    dsimp only []
    cases he : ensureCourse db prid cn (pf ++ "/" ++ pn ++ "/" ++ cn) with
    | error e => simp [exceptBind_err, Except.map]
    | ok r =>
      obtain ⟨c, db1⟩ := r
      simp only [exceptBind_ok]
      rw [processLectures_skips c.id lects 0 db1 vp (vc ++ [c.id]) vl a u ss]
      cases hl : processLectures c.id lects 0 ⟨db1, vp, vc ++ [c.id], vl, a, u, []⟩ with
      | error e => simp [Except.map, exceptBind_err]
      | ok st2 =>
        simp only [Except.map, exceptBind_ok]
        obtain ⟨db2, vp2, vc2, vl2, a2, u2, ss2⟩ := st2
        exact processCourses_skips pf pn prid rest db2 vp2 vc2 vl2 a2 u2 (ss ++ ss2)
          |>.trans (by
            rw [processCourses_skips pf pn prid rest db2 vp2 vc2 vl2 a2 u2 ss2]
            cases processCourses pf pn prid rest ⟨db2, vp2, vc2, vl2, a2, u2, []⟩ with
            | error e => simp [Except.map]
            | ok r => simp [Except.map, List.append_assoc])

theorem processProviders_skips (pf pid : String) :
    ∀ (pt : PaperTree) (db : DBState) (vp vc vl : List Nat)
      (a u : Nat) (ss : List String),
      processProviders pf pid pt ⟨db, vp, vc, vl, a, u, ss⟩ =
        (processProviders pf pid pt ⟨db, vp, vc, vl, a, u, []⟩).map
          (fun r => { r with skips := ss ++ r.skips })
  | [], db, vp, vc, vl, a, u, ss => by
    simp [processProviders, Except.map]
  | (pn, cts) :: rest, db, vp, vc, vl, a, u, ss => by
    unfold processProviders
    dsimp only []
    cases he : ensureProvider db pid pn with
    | error e => simp [exceptBind_err, Except.map]
    | ok r =>
      obtain ⟨p, db1⟩ := r
      simp only [exceptBind_ok]
      rw [processCourses_skips pf pn p.id cts db1 (vp ++ [p.id]) vc vl a u ss]
      cases hc : processCourses pf pn p.id cts ⟨db1, vp ++ [p.id], vc, vl, a, u, []⟩ with
      | error e => simp [Except.map, exceptBind_err]
      | ok st2 =>
        simp only [Except.map, exceptBind_ok]
        obtain ⟨db2, vp2, vc2, vl2, a2, u2, ss2⟩ := st2
        exact processProviders_skips pf pid rest db2 vp2 vc2 vl2 a2 u2 (ss ++ ss2)
          |>.trans (by
            rw [processProviders_skips pf pid rest db2 vp2 vc2 vl2 a2 u2 ss2]
            cases processProviders pf pid rest ⟨db2, vp2, vc2, vl2, a2, u2, []⟩ with
            | error e => simp [Except.map]
            | ok r => simp [Except.map, List.append_assoc])

theorem processPapers_skips (papers : List Paper) :
    ∀ (t : ScanTree) (db : DBState) (vp vc vl : List Nat)
      (a u : Nat) (ss : List String),
      processPapers papers t ⟨db, vp, vc, vl, a, u, ss⟩ =
        (processPapers papers t ⟨db, vp, vc, vl, a, u, []⟩).map
          (fun r => { r with skips := ss ++ r.skips })
  | [], db, vp, vc, vl, a, u, ss => by
    simp [processPapers, Except.map]
  | (fn, pt) :: rest, db, vp, vc, vl, a, u, ss => by
    unfold processPapers
    cases hm : matchPaperFolder fn papers with
    | none =>
      dsimp only []
      rw [processPapers_skips papers rest db vp vc vl a u (ss ++ [fn])]
      simp only [List.nil_append]
      rw [processPapers_skips papers rest db vp vc vl a u [fn]]
      cases processPapers papers rest ⟨db, vp, vc, vl, a, u, []⟩ with
      | error e => simp [Except.map]
      | ok r => simp [Except.map, List.append_assoc]
    | some pid =>
      dsimp only []
      rw [processProviders_skips fn pid pt db vp vc vl a u ss]
      cases hp : processProviders fn pid pt ⟨db, vp, vc, vl, a, u, []⟩ with
      | error e => simp [Except.map, exceptBind_err]
      | ok st1 =>
        simp only [Except.map, exceptBind_ok]
        obtain ⟨db1, vp1, vc1, vl1, a1, u1, ss1⟩ := st1
        exact processPapers_skips papers rest db1 vp1 vc1 vl1 a1 u1 (ss ++ ss1)
          |>.trans (by
            rw [processPapers_skips papers rest db1 vp1 vc1 vl1 a1 u1 ss1]
            cases processPapers papers rest ⟨db1, vp1, vc1, vl1, a1, u1, []⟩ with
            | error e => simp [Except.map]
            | ok r => simp [Except.map, List.append_assoc])

theorem processPapers_append (papers : List Paper) :
    ∀ (t1 t2 : ScanTree) (st : SyncSt),
      processPapers papers (t1 ++ t2) st =
        (processPapers papers t1 st).bind (processPapers papers t2)
  | [], t2, st => by simp [processPapers, Except.bind]
  | (fn, pt) :: rest, t2, st => by
    rw [List.cons_append]
    unfold processPapers
    cases hm : matchPaperFolder fn papers with
    | none =>
      dsimp only []
      exact processPapers_append papers rest t2 _
    | some pid =>
      dsimp only []
      cases hp : processProviders fn pid pt st with
      | error e => simp [exceptBind_err, Except.bind]
      | ok st1 =>
        simp only [exceptBind_ok]
        exact processPapers_append papers rest t2 st1

/-! ## Claim C10 -/

theorem isScannedPaper_insert {fn : String} {papers : List Paper}
    (hm : matchPaperFolder fn papers = none) (t1 t2 : ScanTree) (pt : PaperTree)
    (pid : String) :
    isScannedPaper (t1 ++ (fn, pt) :: t2) papers pid =
      isScannedPaper (t1 ++ t2) papers pid := by
  simp [isScannedPaper, List.any_append, List.any_cons, hm]

theorem gcProviders_congr {t t' : ScanTree} {papers : List Paper}
    (hiff : ∀ pid, isScannedPaper t papers pid = isScannedPaper t' papers pid)
    (vp : List Nat) :
    ∀ (ps : List Provider) (db : DBState) (d : Nat),
      gcProviders t papers vp ps db d = gcProviders t' papers vp ps db d
  | [], db, d => rfl
  | p :: ps, db, d => by
    unfold gcProviders
    have hdead : provDead t papers vp p = provDead t' papers vp p := by
      simp [provDead, hiff p.paperId]
    rw [hdead]
    split
    · exact gcProviders_congr hiff vp ps (deleteProviderId db p.id) (d + 1)
    · exact gcProviders_congr hiff vp ps db d

theorem runGC_congr_tree {t t' : ScanTree} {papers : List Paper}
    (hiff : ∀ pid, isScannedPaper t papers pid = isScannedPaper t' papers pid)
    (st : SyncSt) : runGC t papers st = runGC t' papers st := by
  unfold runGC
  rw [gcProviders_congr hiff st.validProviderIds st.db.providers st.db 0]

/-- Claim C10 (confirmed).  A top-level folder whose name matches no known
Category is skipped entirely: the pass records an informational skip entry
for it and behaves otherwise exactly as if the folder were not on disk at
all — no Provider/Course/Item writes for it, no deletions caused by it, no
error, identical counts. -/
theorem unmatched_folder_skip {db : DBState} {fn : String} {pt : PaperTree}
    (t1 t2 : ScanTree) (hm : matchPaperFolder fn db.papers = none) :
    syncStructure (t1 ++ (fn, pt) :: t2) db = syncStructure (t1 ++ t2) db ∧
    (∀ st, processPapers db.papers ((fn, pt) :: t2) st =
      processPapers db.papers t2 { st with skips := st.skips ++ [fn] }) := by
  have hhead : ∀ st, processPapers db.papers ((fn, pt) :: t2) st =
      processPapers db.papers t2 { st with skips := st.skips ++ [fn] } := by
    intro st
    conv_lhs => rw [processPapers]
    rw [hm]
  refine ⟨?_, hhead⟩
  unfold syncStructure
  rw [processPapers_append db.papers t1 ((fn, pt) :: t2) (initSyncSt db),
      processPapers_append db.papers t1 t2 (initSyncSt db)]
  cases h1 : processPapers db.papers t1 (initSyncSt db) with
  | error e => simp [Except.bind]
  | ok st =>
    have hbind : ∀ (f : SyncSt → Except IntegrityError SyncSt),
        (Except.ok st).bind f = f st := fun _ => rfl
    rw [hbind, hbind, hhead st]
    obtain ⟨db1, vp1, vc1, vl1, a1, u1, ss1⟩ := st
    show (processPapers db.papers t2 ⟨db1, vp1, vc1, vl1, a1, u1, ss1 ++ [fn]⟩).bind _ =
      (processPapers db.papers t2 ⟨db1, vp1, vc1, vl1, a1, u1, ss1⟩).bind _
    rw [processPapers_skips db.papers t2 db1 vp1 vc1 vl1 a1 u1 (ss1 ++ [fn]),
        processPapers_skips db.papers t2 db1 vp1 vc1 vl1 a1 u1 ss1]
    cases h2 : processPapers db.papers t2 ⟨db1, vp1, vc1, vl1, a1, u1, []⟩ with
    | error e => simp [Except.map, Except.bind]
    | ok r =>
      simp only [Except.map, Except.bind]
      have hiff := isScannedPaper_insert hm t1 t2 pt
      rw [@runGC_congr_tree (t1 ++ (fn, pt) :: t2) (t1 ++ t2) db.papers hiff]
      rfl

theorem unmatched_folder_skip_witness :
    syncStructure ([] ++ ("Miscellaneous", miscPT) :: gcDemoTree) gcDemoDB =
      syncStructure ([] ++ gcDemoTree) gcDemoDB :=
  (@unmatched_folder_skip gcDemoDB "Miscellaneous" miscPT [] gcDemoTree (by decide)).1

theorem scanCourseFolder_ok (h : Handle) :
    exceptOK (scanCourseFolder h) = listableDir h := by
  cases h <;> simp [scanCourseFolder, listDir, listableDir, exceptOK, Except.bind]

theorem scanCoursesOf_ok : ∀ cs : List Handle,
    exceptOK (scanCoursesOf cs) = providerChildrenOK cs
  | [] => by simp [scanCoursesOf, providerChildrenOK, exceptOK]
  | c :: cs => by
    unfold scanCoursesOf providerChildrenOK
    by_cases hd : isDirectory c = true
    · rw [if_pos hd, hd]
      have hcf := scanCourseFolder_ok c
      cases hx : scanCourseFolder c with
      | error e =>
        rw [hx] at hcf
        simp only [exceptOK] at hcf
        simp [← hcf, exceptOK]
      | ok lects =>
        rw [hx] at hcf
        simp only [exceptOK] at hcf
        rw [← hcf]
        have ih := scanCoursesOf_ok cs
        cases hy : scanCoursesOf cs with
        | error e =>
          rw [hy] at ih
          simp only [exceptOK] at ih
          simp [← ih, exceptOK]
        | ok rest =>
          rw [hy] at ih
          simp only [exceptOK] at ih
          simp [← ih, exceptOK]
    · rw [if_neg hd]
      have hd' : isDirectory c = false := by simpa using hd
      rw [hd']
      simpa using scanCoursesOf_ok cs

theorem scanProviderFolder_ok (h : Handle) :
    exceptOK (scanProviderFolder h) = providerLevelOK h := by
  cases h with
  | dir n es =>
    simp only [scanProviderFolder, listDir, providerLevelOK, Except.bind]
    exact scanCoursesOf_ok es
  | file n =>
    simp only [scanProviderFolder, listDir, providerLevelOK, exceptBind_err, exceptOK]
  | brokenDir n e =>
    simp only [scanProviderFolder, listDir, providerLevelOK, exceptBind_err, exceptOK]

theorem scanProvidersOf_ok : ∀ cs : List Handle,
    exceptOK (scanProvidersOf cs) = paperChildrenOK cs
  | [] => by simp [scanProvidersOf, paperChildrenOK, exceptOK]
  | c :: cs => by
    unfold scanProvidersOf paperChildrenOK
    by_cases hd : isDirectory c = true
    · rw [if_pos hd, hd]
      have hcf := scanProviderFolder_ok c
      cases hx : scanProviderFolder c with
      | error e =>
        rw [hx] at hcf
        simp only [exceptOK] at hcf
        simp [← hcf, exceptOK]
      | ok t =>
        rw [hx] at hcf
        simp only [exceptOK] at hcf
        rw [← hcf]
        have ih := scanProvidersOf_ok cs
        cases hy : scanProvidersOf cs with
        | error e =>
          rw [hy] at ih
          simp only [exceptOK] at ih
          simp [← ih, exceptOK]
        | ok rest =>
          rw [hy] at ih
          simp only [exceptOK] at ih
          simp [← ih, exceptOK]
    · rw [if_neg hd]
      have hd' : isDirectory c = false := by simpa using hd
      rw [hd']
      simpa using scanProvidersOf_ok cs

theorem scanPaperFolder_ok (h : Handle) :
    exceptOK (scanPaperFolder h) = paperLevelOK h := by
  cases h with
  | dir n es =>
    simp only [scanPaperFolder, listDir, paperLevelOK, Except.bind]
    exact scanProvidersOf_ok es
  | file n =>
    simp only [scanPaperFolder, listDir, paperLevelOK, exceptBind_err, exceptOK]
  | brokenDir n e =>
    simp only [scanPaperFolder, listDir, paperLevelOK, exceptBind_err, exceptOK]

theorem scanPapersOf_ok : ∀ cs : List Handle,
    exceptOK (scanPapersOf cs) = rootChildrenOK cs
  | [] => by simp [scanPapersOf, rootChildrenOK, exceptOK]
  | c :: cs => by
    unfold scanPapersOf rootChildrenOK
    by_cases hd : isDirectory c = true
    · rw [if_pos hd, hd]
      have hcf := scanPaperFolder_ok c
      cases hx : scanPaperFolder c with
      | error e =>
        rw [hx] at hcf
        simp only [exceptOK] at hcf
        simp [← hcf, exceptOK]
      | ok t =>
        rw [hx] at hcf
        simp only [exceptOK] at hcf
        rw [← hcf]
        have ih := scanPapersOf_ok cs
        cases hy : scanPapersOf cs with
        | error e =>
          rw [hy] at ih
          simp only [exceptOK] at ih
          simp [← ih, exceptOK]
        | ok rest =>
          rw [hy] at ih
          simp only [exceptOK] at ih
          simp [← ih, exceptOK]
    · rw [if_neg hd]
      have hd' : isDirectory c = false := by simpa using hd
      rw [hd']
      simpa using scanPapersOf_ok cs

/-- Claim C5 amended (the original claim is refuted by
`scan_branch_failure_counterexample`).  The scanner has no error isolation
at all: the scan succeeds exactly when the root listing and *every* walked
subdirectory listing (paper, provider and course level) succeed; any single
enumeration failure anywhere in the walked tree aborts the whole scan with
that error, and no partial tree is ever returned. -/
theorem scan_aborts_on_any_branch_failure (root : Handle) :
    exceptOK (scanMasterFolder root) = scanAllOK root := by
  cases root with
  | dir n es =>
    simp only [scanMasterFolder, listDir, scanAllOK, Except.bind]
    exact scanPapersOf_ok es
  | file n =>
    simp only [scanMasterFolder, listDir, scanAllOK, exceptBind_err, exceptOK]
  | brokenDir n e =>
    simp only [scanMasterFolder, listDir, scanAllOK, exceptBind_err, exceptOK]

/-- Counterexample to claim C5 as stated: the root has a readable paper
folder `GS1` and an unreadable sibling `GS2`; the claim predicts a partial
tree `[("GS1", []), ("GS2", [])]`, but the scan aborts with the branch's
error and returns no tree at all (the sibling on its own scans fine). -/
theorem scan_branch_failure_counterexample :
    scanMasterFolder
        (.dir "root" [.dir "GS1" [], .brokenDir "GS2" "NotReadableError"]) =
      .error "NotReadableError" ∧
    scanPaperFolder (.dir "GS1" []) = .ok [] ∧
    scanMasterFolder
        (.dir "root" [.dir "GS1" [], .brokenDir "GS2" "NotReadableError"]) ≠
      .ok [("GS1", []), ("GS2", [])] := by
  refine ⟨rfl, rfl, fun h => ?_⟩
  have h' : (Except.error "NotReadableError" : Except String ScanTree) =
      Except.ok [("GS1", []), ("GS2", [])] := h
  exact Except.noConfusion h' 

/-! ## Claim C7: the live resolver -/

/-- Claim C7: on opening an Item, `refreshFileFromDisk` re-lists the Item's
Course folder (through the Course's stored path), classifies and sorts the
files with the scanner's ordering, and selects the file at index equal to the
Item's stored rank.  An out-of-range rank yields no file and leaves the store
untouched; a name mismatch at that rank updates only the Item's `fileName`
and derived `title` (the record update keeps `id` and `orderIndex`), and a
matching name leaves the store untouched.  No reconciliation pass appears
anywhere in the definition. -/
theorem live_resolver_rank_selection {root : Handle} {db : DBState}
    {l : Lecture} {course : Course} {path : String} {entries : List Handle}
    (hc : db.courses.find? (fun c => c.id == l.courseId) = some course)
    (hp : course.folderPath = some path)
    (hr : resolveFolder root (splitFolderPath path) = .ok entries) :
    ((isort fileEntryLe (entries.filterMap classifyEntry)).get? l.orderIndex = none →
      refreshFileFromDisk root db l = (db, none)) ∧
    (∀ sel,
      (isort fileEntryLe (entries.filterMap classifyEntry)).get? l.orderIndex = some sel →
      (refreshFileFromDisk root db l).2 = some sel ∧
      (l.fileName = sel.name → (refreshFileFromDisk root db l).1 = db) ∧
      (l.fileName ≠ sel.name →
        (refreshFileFromDisk root db l).1 =
          putLecture db { l with fileName := sel.name,
                                 title := getTitleFromFilename sel.name })) := by
  unfold refreshFileFromDisk
  rw [hc]
  dsimp only []
  rw [hp]
  dsimp only []
  rw [hr]
  dsimp only []
  constructor
  · intro hnone
    rw [hnone]
  · intro sel hsel
    rw [hsel]
    dsimp only []
    by_cases heq : l.fileName = sel.name
    · have hb : (l.fileName != sel.name) = false := by simp [bne, heq]
      rw [hb]
      exact ⟨rfl, fun _ => rfl, fun hne => absurd heq hne⟩
    · have hb : (l.fileName != sel.name) = true := by simp [bne_iff_ne, heq]
      rw [hb]
      exact ⟨rfl, fun hcontra => absurd hcontra heq, fun _ => rfl⟩

theorem live_resolver_rank_selection_witness :
    (refreshFileFromDisk c7root gcDemoDB
        ⟨4, "a", 2, .video, "a.mp4", 0, true, 42, none, 0⟩).2 =
      some ⟨"a-intro.mp4", MediaType.video⟩ ∧
    (refreshFileFromDisk c7root gcDemoDB
        ⟨4, "a", 2, .video, "a.mp4", 0, true, 42, none, 0⟩).1 =
      putLecture gcDemoDB
        { (⟨4, "a", 2, .video, "a.mp4", 0, true, 42, none, 0⟩ : Lecture) with
            fileName := "a-intro.mp4", title := getTitleFromFilename "a-intro.mp4" } :=
  have h :=
    (@live_resolver_rank_selection c7root gcDemoDB
        ⟨4, "a", 2, .video, "a.mp4", 0, true, 42, none, 0⟩
        ⟨2, "Co1", 0, 0, some "GS1/P1/Co1", 0⟩ "GS1/P1/Co1"
        [Handle.file "a-intro.mp4"] (by rfl) rfl (by rfl)).2
      ⟨"a-intro.mp4", MediaType.video⟩ (by rfl)
  ⟨h.1, h.2.2 (by decide)⟩

/-- Claim C9 amended (the original is refuted by
`session_token_counterexample`).  An open-item request increments the
counter by exactly one, and the captured token is the *post*-increment value
— the new counter — not the pre-increment value; consequently a fresh
session starts current.  Moreover only the token-checked resume points
(after `getLecture`, after the refresh, after the file read) require the
token to equal the counter to proceed: a stale session finishes there. -/
theorem session_token_semantics (s : Sys) (w : Who) (lid : Nat)
    (h : (getSess s w).pc = .entryPoint lid) :
    ((step s w).counter = s.counter + 1 ∧
     (getSess (step s w) w).token = s.counter + 1 ∧
     (getSess (step s w) w).token = (step s w).counter) ∧
    (∀ (s' : Sys) (w' : Who), checkedPc (getSess s' w').pc = true →
      (getSess s' w').token ≠ s'.counter →
      (getSess (step s' w') w').pc = .finished) := by
  constructor
  · cases w with
    | A =>
      have h' : s.sessA.pc = .entryPoint lid := h
      cases hl : s.currentLecture with
      | none => simp [step, getSess, setSess, h', hl]
      | some l => simp [step, getSess, setSess, h', hl]
    | B =>
      have h' : s.sessB.pc = .entryPoint lid := h
      cases hl : s.currentLecture with
      | none => simp [step, getSess, setSess, h', hl]
      | some l => simp [step, getSess, setSess, h', hl]
  · intro s' w' hck hst
    cases w' with
    | A =>
      simp only [getSess] at hck hst
      have hbne : (s'.sessA.token != s'.counter) = true := by
        simpa [bne_iff_ne] using hst
      cases hpc : s'.sessA.pc <;> rw [hpc] at hck <;>
        simp only [checkedPc] at hck
      all_goals first
      | exact absurd hck (by decide)
      | simp [step, getSess, setSess, hpc, hbne]
    | B =>
      simp only [getSess] at hck hst
      have hbne : (s'.sessB.token != s'.counter) = true := by
        simpa [bne_iff_ne] using hst
      cases hpc : s'.sessB.pc <;> rw [hpc] at hck <;>
        simp only [checkedPc] at hck
      all_goals first
      | exact absurd hck (by decide)
      | simp [step, getSess, setSess, hpc, hbne]

theorem session_token_semantics_witness :
    (step c9sys Who.A).counter = c9sys.counter + 1 ∧
    (getSess (step c9sys Who.A) Who.A).token = c9sys.counter + 1 ∧
    (getSess (step c9sys Who.A) Who.A).token = (step c9sys Who.A).counter :=
  (@session_token_semantics c9sys Who.A 4 rfl).1

/-- Counterexample to claim C9 as stated: with the counter at 0, opening an
item captures token 1 — the post-increment value of
`++this.activeSessionId` — not the pre-increment value 0 the claim
describes.  (Were the token the pre-increment value, every fresh session
would instantly fail its own race checks.) -/
theorem session_token_counterexample :
    c9sys.counter = 0 ∧
    (getSess (step c9sys Who.A) Who.A).token = 1 ∧
    (getSess (step c9sys Who.A) Who.A).token ≠ c9sys.counter := by
  refine ⟨rfl, rfl, ?_⟩
  decide

/-- Claim C8 amended (the original is refuted by
`session_overlap_counterexample`).  At the token-checked resume points a
stale session really is effect-free: the store, the rendered surface,
`currentLecture`, `currentFile` and the counter are all unchanged and the
session merely finishes — and a finished session never acts again.  The
original claim fails because `refreshFileFromDisk`'s resume points carry no
token check, so a stale session's listing step can still mutate the store
(see the counterexample, where stale session A rewrites the filename of the
lecture session B opened). -/
theorem stale_checked_step_no_effect (s : Sys) (w : Who)
    (hck : checkedPc (getSess s w).pc = true)
    (hst : (getSess s w).token ≠ s.counter) :
    (step s w).db = s.db ∧
    (step s w).rendered = s.rendered ∧
    (step s w).currentLecture = s.currentLecture ∧
    (step s w).currentFile = s.currentFile ∧
    (step s w).counter = s.counter ∧
    (getSess (step s w) w).pc = .finished ∧
    (∀ (s' : Sys) (w' : Who), (getSess s' w').pc = .finished → step s' w' = s') := by
  have hfin : ∀ (s' : Sys) (w' : Who), (getSess s' w').pc = .finished → step s' w' = s' := by
    intro s' w' hf
    cases w' with
    | A =>
      have hf' : s'.sessA.pc = .finished := hf
      simp [step, getSess, hf']
    | B =>
      have hf' : s'.sessB.pc = .finished := hf
      simp [step, getSess, hf']
  cases w with
  | A =>
    simp only [getSess] at hck hst
    have hbne : (s.sessA.token != s.counter) = true := by
      simpa [bne_iff_ne] using hst
    cases hpc : s.sessA.pc <;> rw [hpc] at hck <;>
      simp only [checkedPc] at hck
    all_goals first
    | exact absurd hck (by decide)
    | (refine ⟨?_, ?_, ?_, ?_, ?_, ?_, hfin⟩ <;>
       simp [step, getSess, setSess, hpc, hbne])
  | B =>
    simp only [getSess] at hck hst
    have hbne : (s.sessB.token != s.counter) = true := by
      simpa [bne_iff_ne] using hst
    cases hpc : s.sessB.pc <;> rw [hpc] at hck <;>
      simp only [checkedPc] at hck
    all_goals first
    | exact absurd hck (by decide)
    | (refine ⟨?_, ?_, ?_, ?_, ?_, ?_, hfin⟩ <;>
       simp [step, getSess, setSess, hpc, hbne])

/-- Counterexample to claim C8 as stated: lecture 3 is opened by session A,
which suspends at the folder listing inside `refreshFileFromDisk`; lecture 4
is then opened by session B, which completes.  When stale session A resumes
(its token 1 no longer equals the counter 2), its listing step — which has
no token check — positionally matches *B's* current lecture against *A's*
course folder and "self-heals" lecture 4's filename from `b.mp4` to
`x.mp4`: a post-overlap step of the first session mutates the store, and
the surviving state is a merge, not "last request wins". -/
theorem session_overlap_counterexample :
    c8mid.sessA.token = 1 ∧
    c8mid.counter = 2 ∧
    (c8mid.db.lectures.find? (fun l => l.id == 4)).map Lecture.fileName =
      some "b.mp4" ∧
    c8stale.db ≠ c8mid.db ∧
    (c8stale.db.lectures.find? (fun l => l.id == 4)).map Lecture.fileName =
      some "x.mp4" := by
  refine ⟨rfl, rfl, rfl, ?_, rfl⟩
  decide

theorem stale_checked_step_no_effect_witness :
    (step c8stale Who.A).db = c8stale.db ∧
    (step c8stale Who.A).rendered = c8stale.rendered ∧
    (step c8stale Who.A).currentLecture = c8stale.currentLecture ∧
    (step c8stale Who.A).currentFile = c8stale.currentFile ∧
    (step c8stale Who.A).counter = c8stale.counter ∧
    (getSess (step c8stale Who.A) Who.A).pc = SPc.finished :=
  have h := @stale_checked_step_no_effect c8stale Who.A (by decide) (by decide)
  ⟨h.1, h.2.1, h.2.2.1, h.2.2.2.1, h.2.2.2.2.1, h.2.2.2.2.2.1⟩

/-! ## Claim C6: what a failed integrity check can be, and what it does -/

theorem matchPaperFolder_mem {fn : String} {papers : List Paper} {pid : String}
    (h : matchPaperFolder fn papers = some pid) : pid ∈ papers.map (fun p => p.id) := by
  unfold matchPaperFolder at h
  obtain ⟨paper, hmem, hf⟩ := List.exists_of_findSome?_eq_some h
  have hpid : pid = paper.id := by
    split at hf
    · exact (Option.some.inj hf).symm
    · split at hf
      · exact (Option.some.inj hf).symm
      · split at hf
        · exact (Option.some.inj hf).symm
        · split at hf
          · exact (Option.some.inj hf).symm
          · exact Option.noConfusion hf
  rw [hpid, List.mem_map]
  exact ⟨paper, hmem, rfl⟩

/-- With the owning paper in the valid set, `Invariants.check('provider', ...)`
can only fail on the empty-name check. -/
theorem checkProviderInv_err {p : Provider} {vps : List String} {e : IntegrityError}
    (h : checkProviderInv p vps = .error e) (hmem : p.paperId ∈ vps) :
    e = .emptyName .provider := by
  unfold checkProviderInv at h
  split at h
  · injection h with h2
    exact h2.symm
  · split at h
    · rename_i h2
      simp only [Bool.not_eq_true'] at h2
      simp at h2
      exact absurd hmem h2
    · exact Except.noConfusion h

theorem checkCourseInv_err {c : Course} {vps : List Nat} {e : IntegrityError}
    (h : checkCourseInv c vps = .error e) (hmem : c.providerId ∈ vps) :
    e = .emptyName .course := by
  unfold checkCourseInv at h
  split at h
  · injection h with h2
    exact h2.symm
  · split at h
    · rename_i h2
      simp only [Bool.not_eq_true'] at h2
      simp at h2
      exact absurd hmem h2
    · exact Except.noConfusion h

theorem checkLectureInv_err {l : Lecture} {vcs : List Nat} {e : IntegrityError}
    (h : checkLectureInv l vcs = .error e) (hmem : l.courseId ∈ vcs) :
    e = .emptyName .lecture := by
  unfold checkLectureInv at h
  split at h
  · injection h with h2
    exact h2.symm
  · split at h
    · rename_i h2
      simp only [Bool.not_eq_true'] at h2
      simp at h2
      exact absurd hmem h2
    · exact Except.noConfusion h

/-- A failing `addProvider` whose paper exists failed on the name, never on
the parent. -/
theorem addProvider_err {db : DBState} {pid name : String} {e : IntegrityError}
    (h : addProvider db pid name = .error e)
    (hmem : pid ∈ db.papers.map (fun p => p.id)) : e = .emptyName .provider := by
  unfold addProvider at h
  dsimp only [] at h
  cases hc : checkProviderInv
      { id := db.nextId, name := jsTrim name, paperId := pid,
        orderIndex := (providersFor db pid).length, createdAt := db.clock }
      (db.papers.map (fun p => p.id)) with
  | ok u =>
    rw [hc] at h
    simp only [exceptBind_ok, exceptPure] at h
    exact absurd h (by simp)
  | error e2 =>
    rw [hc] at h
    simp only [exceptBind_err] at h
    injection h with h2
    subst h2
    exact checkProviderInv_err hc hmem

theorem addCourse_err {db : DBState} {prid : Nat} {name : String} {e : IntegrityError}
    (h : addCourse db prid name = .error e)
    (hmem : prid ∈ db.providers.map (fun p => p.id)) : e = .emptyName .course := by
  unfold addCourse at h
  dsimp only [] at h
  cases hc : checkCourseInv
      { id := db.nextId, name := jsTrim name, providerId := prid,
        orderIndex := (coursesFor db prid).length, folderPath := none,
        createdAt := db.clock }
      (db.providers.map (fun p => p.id)) with
  | ok u =>
    rw [hc] at h
    simp only [exceptBind_ok, exceptPure] at h
    exact absurd h (by simp)
  | error e2 =>
    rw [hc] at h
    simp only [exceptBind_err] at h
    injection h with h2
    subst h2
    exact checkCourseInv_err hc hmem

theorem addLecture_err {db : DBState} {cid : Nat} {title : String} {ty : MediaType}
    {fn : String} {i : Nat} {e : IntegrityError}
    (h : addLecture db cid title ty fn i = .error e)
    (hmem : cid ∈ db.courses.map (fun c => c.id)) : e = .emptyName .lecture := by
  unfold addLecture at h
  dsimp only [] at h
  cases hc : checkLectureInv
      { id := db.nextId, title := title, courseId := cid, type := ty,
        fileName := fn, orderIndex := i, completed := false,
        lastPosition := 0, lastOpenedAt := none, createdAt := db.clock }
      (db.courses.map (fun c => c.id)) with
  | ok u =>
    rw [hc] at h
    simp only [exceptBind_ok, exceptPure] at h
    exact absurd h (by simp)
  | error e2 =>
    rw [hc] at h
    simp only [exceptBind_err] at h
    injection h with h2
    subst h2
    exact checkLectureInv_err hc hmem

theorem ensureProvider_err {db : DBState} {pid pn : String} {e : IntegrityError}
    (h : ensureProvider db pid pn = .error e)
    (hmem : pid ∈ db.papers.map (fun p => p.id)) : e = .emptyName .provider := by
  unfold ensureProvider at h
  cases hl : lookupProvider db pid pn with
  | some p =>
    rw [hl] at h
    exact Except.noConfusion h
  | none =>
    rw [hl] at h
    exact addProvider_err h hmem

theorem ensureCourse_err {db : DBState} {prid : Nat} {cn path : String}
    {e : IntegrityError} (h : ensureCourse db prid cn path = .error e)
    (hmem : prid ∈ db.providers.map (fun p => p.id)) : e = .emptyName .course := by
  unfold ensureCourse at h
  cases hl : lookupCourse db prid cn with
  | some c =>
    rw [hl] at h
    dsimp only [] at h
    exact Except.noConfusion h
  | none =>
    rw [hl] at h
    cases ha : addCourse db prid cn with
    | error e2 =>
      rw [ha] at h
      simp only [exceptBind_err] at h
      injection h with h2
      exact h2 ▸ addCourse_err ha hmem
    | ok r =>
      rw [ha] at h
      obtain ⟨c, dbm⟩ := r
      simp only [exceptBind_ok, exceptPure] at h
      exact absurd h (by simp)

theorem ensureLecture_err {db : DBState} {cid : Nat} {f : FileEntry} {i : Nat}
    {e : IntegrityError} (h : ensureLecture db cid f i = .error e)
    (hmem : cid ∈ db.courses.map (fun c => c.id)) : e = .emptyName .lecture := by
  unfold ensureLecture at h
  cases hl : lookupLecture db cid f.name with
  | none =>
    rw [hl] at h
    cases ha : addLecture db cid (getTitleFromFilename f.name) f.type f.name i with
    | error e2 =>
      rw [ha] at h
      simp only [exceptBind_err] at h
      injection h with h2
      exact h2 ▸ addLecture_err ha hmem
    | ok r =>
      rw [ha] at h
      obtain ⟨l1, dbm⟩ := r
      simp only [exceptBind_ok, exceptPure] at h
      exact absurd h (by simp)
  | some l0 =>
    rw [hl] at h
    dsimp only [] at h
    split at h <;> exact Except.noConfusion h

theorem putProvider_mem_self (db : DBState) (p : Provider) :
    p ∈ (putProvider db p).providers := by
  simp only [putProvider]
  split
  · rename_i hany
    simp only [List.any_eq_true] at hany
    obtain ⟨q, hq, hqc⟩ := hany
    rw [List.mem_map]
    exact ⟨q, hq, by simp [hqc]⟩
  · simp

theorem ensureProvider_mem {db : DBState} {pid pn : String} {p : Provider}
    {db' : DBState} (h : ensureProvider db pid pn = .ok (p, db')) :
    p ∈ db'.providers := by
  rcases ensureProvider_cases h with ⟨hlk, rfl⟩ | ⟨_, hadd⟩
  · exact (lookupProvider_spec hlk).1
  · obtain ⟨hp, hdb, _⟩ := addProvider_spec hadd
    rw [hdb]
    exact putProvider_mem_self db p

theorem ensureCourse_mem {db : DBState} {prid : Nat} {cn path : String}
    {c' : Course} {db' : DBState} (h : ensureCourse db prid cn path = .ok (c', db')) :
    c' ∈ db'.courses := by
  rcases ensureCourse_cases h with ⟨c0, hlk, hc', rfl⟩ | ⟨_, c0, dbm, hadd, hc', rfl⟩
  · exact putCourse_mem_self db c'
  · exact putCourse_mem_self dbm c'

theorem ensureCourse_provFrame {db : DBState} {prid : Nat} {cn path : String}
    {c' : Course} {db' : DBState} (h : ensureCourse db prid cn path = .ok (c', db')) :
    db'.providers = db.providers := by
  rcases ensureCourse_cases h with ⟨c0, hlk, hc', rfl⟩ | ⟨_, c0, dbm, hadd, hc', rfl⟩
  · exact (putCourse_frame db c').2.1
  · rw [(putCourse_frame dbm c').2.1]
    exact (addCourse_facts hadd).2.2.1

theorem ensureLecture_frame {db : DBState} {cid : Nat} {f : FileEntry} {i : Nat}
    {cr up : Bool} {l : Lecture} {db' : DBState}
    (h : ensureLecture db cid f i = .ok (cr, up, l, db')) :
    db'.providers = db.providers ∧ db'.courses = db.courses := by
  rcases ensureLecture_cases h with ⟨_, _, _, hadd⟩ |
    ⟨l0, _, _, _, _, _, rfl⟩ | ⟨_, _, _, _, rfl⟩
  · have hf := addLecture_facts hadd
    exact ⟨hf.2.2.1, hf.2.2.2.1⟩
  · exact ⟨(putLecture_frame db l).2.1, (putLecture_frame db l).2.2.1⟩
  · exact ⟨rfl, rfl⟩

theorem processLectures_frame (cid : Nat) :
    ∀ (fs : List FileEntry) (i : Nat) (st st' : SyncSt),
      processLectures cid fs i st = .ok st' →
      st'.db.providers = st.db.providers ∧ st'.db.courses = st.db.courses
  | [], i, st, st', h => by
    simp only [processLectures, Except.ok.injEq] at h
    subst h
    exact ⟨rfl, rfl⟩
  | f :: fs, i, st, st', h => by
    unfold processLectures at h
    cases he : ensureLecture st.db cid f i with
    | error e =>
      rw [he] at h
      simp only [exceptBind_err] at h
      exact absurd h (by simp)
    | ok r =>
      rw [he] at h
      obtain ⟨cr, up, l, db1⟩ := r
      simp only [exceptBind_ok] at h
      have hfe := ensureLecture_frame he
      have ih := processLectures_frame cid fs (i + 1) _ st' h
      constructor
      · rw [ih.1]
        exact hfe.1
      · rw [ih.2]
        exact hfe.2

/-- Within one pass the inner lecture loop can only fail on an empty derived
title: its owning course is always already persisted. -/
theorem processLectures_err (cid : Nat) :
    ∀ (fs : List FileEntry) (i : Nat) (st : SyncSt) (e : IntegrityError),
      cid ∈ st.db.courses.map (fun c => c.id) →
      processLectures cid fs i st = .error e →
      e = .emptyName .lecture
  | [], i, st, e, hmem, h => Except.noConfusion h
  | f :: fs, i, st, e, hmem, h => by
    unfold processLectures at h
    cases he : ensureLecture st.db cid f i with
    | error e2 =>
      rw [he] at h
      simp only [exceptBind_err] at h
      injection h with h2
      exact h2 ▸ ensureLecture_err he hmem
    | ok r =>
      rw [he] at h
      obtain ⟨cr, up, l, db1⟩ := r
      simp only [exceptBind_ok] at h
      have hmem1 : cid ∈ db1.courses.map (fun c => c.id) := by
        rw [(ensureLecture_frame he).2]
        exact hmem
      exact processLectures_err cid fs (i + 1) _ e hmem1 h

/-- The course loop can only fail on an empty name or an empty derived
title: its owning provider is always already persisted. -/
theorem processCourses_err (pf pn : String) (prid : Nat) :
    ∀ (cts : ProviderTree) (st : SyncSt) (e : IntegrityError),
      prid ∈ st.db.providers.map (fun p => p.id) →
      processCourses pf pn prid cts st = .error e →
      ∃ k, e = .emptyName k
  | [], st, e, hmem, h => Except.noConfusion h
  | (cn, lects) :: rest, st, e, hmem, h => by
    unfold processCourses at h
    dsimp only [] at h
    cases he : ensureCourse st.db prid cn (pf ++ "/" ++ pn ++ "/" ++ cn) with
    | error e2 =>
      rw [he] at h
      simp only [exceptBind_err] at h
      injection h with h2
      exact ⟨.course, h2 ▸ ensureCourse_err he hmem⟩
    | ok r =>
      rw [he] at h
      obtain ⟨c, db1⟩ := r
      simp only [exceptBind_ok] at h
      cases hp : processLectures c.id lects 0
          { st with db := db1, validCourseIds := st.validCourseIds ++ [c.id] } with
      | error e2 =>
        rw [hp] at h
        simp only [exceptBind_err] at h
        injection h with h2
        have hcm : c.id ∈ db1.courses.map (fun x => x.id) :=
          List.mem_map.mpr ⟨c, ensureCourse_mem he, rfl⟩
        exact ⟨.lecture, h2 ▸ processLectures_err c.id lects 0 _ e2 hcm hp⟩
      | ok st2 =>
        rw [hp] at h
        simp only [exceptBind_ok] at h
        have hmem2 : prid ∈ st2.db.providers.map (fun p => p.id) := by
          rw [(processLectures_frame c.id lects 0 _ st2 hp).1]
          show prid ∈ db1.providers.map (fun p => p.id)
          rw [ensureCourse_provFrame he]
          exact hmem
        exact processCourses_err pf pn prid rest st2 e hmem2 h

/-- The provider loop can only fail on an empty name/title: its owning paper
is in the (seeded, never deleted) paper store whenever the folder matched. -/
theorem processProviders_err (pf pid : String) :
    ∀ (pt : PaperTree) (st : SyncSt) (e : IntegrityError),
      pid ∈ st.db.papers.map (fun p => p.id) →
      processProviders pf pid pt st = .error e →
      ∃ k, e = .emptyName k
  | [], st, e, hmem, h => Except.noConfusion h
  | (pn, cts) :: rest, st, e, hmem, h => by
    unfold processProviders at h
    dsimp only [] at h
    cases he : ensureProvider st.db pid pn with
    | error e2 =>
      rw [he] at h
      simp only [exceptBind_err] at h
      injection h with h2
      exact ⟨.provider, h2 ▸ ensureProvider_err he hmem⟩
    | ok r =>
      rw [he] at h
      obtain ⟨p, db1⟩ := r
      simp only [exceptBind_ok] at h
      cases hc : processCourses pf pn p.id cts
          { st with db := db1, validProviderIds := st.validProviderIds ++ [p.id] } with
      | error e2 =>
        rw [hc] at h
        simp only [exceptBind_err] at h
        injection h with h2
        have hpm : p.id ∈ db1.providers.map (fun x => x.id) :=
          List.mem_map.mpr ⟨p, ensureProvider_mem he, rfl⟩
        obtain ⟨k, hk⟩ := processCourses_err pf pn p.id cts _ e2 hpm hc
        exact ⟨k, h2 ▸ hk⟩
      | ok st2 =>
        rw [hc] at h
        simp only [exceptBind_ok] at h
        have hmem2 : pid ∈ st2.db.papers.map (fun p => p.id) := by
          rw [(processCourses_facts pf pn p.id cts _ st2 hc).1.papers_eq]
          show pid ∈ db1.papers.map (fun p => p.id)
          rw [(ensureProvider_facts he).papers_eq]
          exact hmem
        exact processProviders_err pf pid rest st2 e hmem2 h

theorem processPapers_err (papers : List Paper) :
    ∀ (t : ScanTree) (st : SyncSt) (e : IntegrityError),
      st.db.papers = papers →
      processPapers papers t st = .error e →
      ∃ k, e = .emptyName k
  | [], st, e, hpap, h => Except.noConfusion h
  | (fn, pt) :: rest, st, e, hpap, h => by
    unfold processPapers at h
    cases hm : matchPaperFolder fn papers with
    | none =>
      rw [hm] at h
      exact processPapers_err papers rest { st with skips := st.skips ++ [fn] } e hpap h
    | some pid =>
      rw [hm] at h
      dsimp only [] at h
      cases hp : processProviders fn pid pt st with
      | error e2 =>
        rw [hp] at h
        simp only [exceptBind_err] at h
        injection h with h2
        have hmem : pid ∈ st.db.papers.map (fun p => p.id) := by
          rw [hpap]
          exact matchPaperFolder_mem hm
        obtain ⟨k, hk⟩ := processProviders_err fn pid pt st e2 hmem hp
        exact ⟨k, h2 ▸ hk⟩
      | ok st1 =>
        rw [hp] at h
        simp only [exceptBind_ok] at h
        have hpap1 : st1.db.papers = papers := by
          rw [(processProviders_facts fn pid pt st st1 hp).1.papers_eq, hpap]
        exact processPapers_err papers rest st1 e hpap1 h

/-- Claim C6 amended (the original is refuted by
`integrity_abort_counterexample`).  The parent half of the claim is real but
vacuous, and the isolation half is false.  Proved here: a reconciliation
pass can never fail the owning-parent referential-integrity check, because
every parent is persisted before its children are processed — the only
reachable `Invariants.check` failure is an empty name/derived title.  And
when that check does fail, the thrown error propagates out of
`syncToDatabase` (there is no per-row catch), aborting the whole pass
instead of skipping one row. -/
theorem sync_no_dangling_parent (t : ScanTree) (db : DBState) :
    isBadParentError (syncStructure t db) = false := by
  unfold syncStructure
  cases hp : processPapers db.papers t (initSyncSt db) with
  | error e =>
    rw [exceptBind_err]
    obtain ⟨k', hk⟩ := processPapers_err db.papers t (initSyncSt db) e rfl hp
    rw [hk]
    rfl
  | ok st =>
    rw [exceptBind_ok]
    dsimp only []
    rw [exceptPure]
    rfl

/-- Counterexample to claim C6 as stated: the file `_.mp4` derives an empty
title, so `Invariants.check` throws while creating its lecture — and instead
of skipping that one row and completing the pass with the sibling `b.pdf`,
the whole pass aborts with the error and persists nothing. -/
theorem integrity_abort_counterexample :
    syncStructure c6Tree c6DB = .error (.emptyName .lecture) := rfl

/-! ### Deterministic lookups under `SyncWF` -/

theorem lookupProvider_of_unique {db : DBState} {pid pn : String} {p : Provider}
    (hu : ∀ q ∈ db.providers, ∀ r ∈ db.providers,
      q.paperId = r.paperId → jsToLower q.name = jsToLower r.name → q = r)
    (hp : p ∈ db.providers) (hpid : p.paperId = pid)
    (hn : jsToLower p.name = jsToLower pn) :
    lookupProvider db pid pn = some p := by
  unfold lookupProvider
  cases hf : (providersFor db pid).find? (fun q => jsToLower q.name == jsToLower pn) with
  | none =>
    rw [List.find?_eq_none] at hf
    have := hf p (by rw [mem_providersFor]; exact ⟨hp, hpid⟩)
    exact absurd (by simp [hn]) this
  | some q =>
    have hqm := List.mem_of_find?_eq_some hf
    have hqp := List.find?_some hf
    rw [mem_providersFor] at hqm
    have hqn : jsToLower q.name = jsToLower pn := by simpa using hqp
    have : q = p := hu q hqm.1 p hp (hqm.2.trans hpid.symm) (hqn.trans hn.symm)
    rw [this]

theorem lookupCourse_of_unique {db : DBState} {prid : Nat} {cn : String} {c : Course}
    (hu : ∀ q ∈ db.courses, ∀ r ∈ db.courses,
      q.providerId = r.providerId → jsToLower q.name = jsToLower r.name → q = r)
    (hc : c ∈ db.courses) (hpid : c.providerId = prid)
    (hn : jsToLower c.name = jsToLower cn) :
    lookupCourse db prid cn = some c := by
  unfold lookupCourse
  cases hf : (coursesFor db prid).find? (fun q => jsToLower q.name == jsToLower cn) with
  | none =>
    rw [List.find?_eq_none] at hf
    have := hf c (by rw [mem_coursesFor]; exact ⟨hc, hpid⟩)
    exact absurd (by simp [hn]) this
  | some q =>
    have hqm := List.mem_of_find?_eq_some hf
    have hqp := List.find?_some hf
    rw [mem_coursesFor] at hqm
    have hqn : jsToLower q.name = jsToLower cn := by simpa using hqp
    have : q = c := hu q hqm.1 c hc (hqm.2.trans hpid.symm) (hqn.trans hn.symm)
    rw [this]

theorem lookupLecture_of_unique {db : DBState} {cid : Nat} {fn : String} {l : Lecture}
    (hu : ∀ q ∈ db.lectures, ∀ r ∈ db.lectures,
      q.courseId = r.courseId → q.fileName = r.fileName → q = r)
    (hl : l ∈ db.lectures) (hcid : l.courseId = cid) (hn : l.fileName = fn) :
    lookupLecture db cid fn = some l := by
  unfold lookupLecture
  cases hf : (lecturesFor db cid).find? (fun q => q.fileName == fn) with
  | none =>
    rw [List.find?_eq_none] at hf
    have := hf l (by rw [mem_lecturesFor]; exact ⟨hl, hcid⟩)
    exact absurd (by simp [hn]) this
  | some q =>
    have hqm := List.mem_of_find?_eq_some hf
    have hqp := List.find?_some hf
    rw [mem_lecturesFor] at hqm
    have hqn : q.fileName = fn := by simpa using hqp
    have : q = l := hu q hqm.1 l hl (hqm.2.trans hcid.symm) (hqn.trans hn.symm)
    rw [this]

theorem lookupProvider_none_iff {db : DBState} {pid pn : String}
    (h : lookupProvider db pid pn = none) :
    ∀ q ∈ db.providers, q.paperId = pid → jsToLower q.name ≠ jsToLower pn := by
  unfold lookupProvider at h
  rw [List.find?_eq_none] at h
  intro q hq hpid hn
  have := h q (by rw [mem_providersFor]; exact ⟨hq, hpid⟩)
  exact absurd (by simp [hn]) this

theorem lookupCourse_none_iff {db : DBState} {prid : Nat} {cn : String}
    (h : lookupCourse db prid cn = none) :
    ∀ q ∈ db.courses, q.providerId = prid → jsToLower q.name ≠ jsToLower cn := by
  unfold lookupCourse at h
  rw [List.find?_eq_none] at h
  intro q hq hpid hn
  have := h q (by rw [mem_coursesFor]; exact ⟨hq, hpid⟩)
  exact absurd (by simp [hn]) this

theorem lookupLecture_none_iff {db : DBState} {cid : Nat} {fn : String}
    (h : lookupLecture db cid fn = none) :
    ∀ q ∈ db.lectures, q.courseId = cid → q.fileName ≠ fn := by
  unfold lookupLecture at h
  rw [List.find?_eq_none] at h
  intro q hq hcid hn
  have := h q (by rw [mem_lecturesFor]; exact ⟨hq, hcid⟩)
  exact absurd (by simp [hn]) this

/-! ### Membership through a keyed replacement -/

theorem putCourse_mem_replace {db : DBState} {c' c0 : Course}
    (hwf : DBWF db) (h0 : c0 ∈ db.courses) (hid : c0.id = c'.id) :
    ∀ d, d ∈ (putCourse db c').courses ↔ (d ∈ db.courses ∧ d.id ≠ c'.id) ∨ d = c' := by
  intro d
  have hany : db.courses.any (fun q => q.id == c'.id) = true := by
    simp only [List.any_eq_true]
    exact ⟨c0, h0, by simp [hid]⟩
  simp only [putCourse, hany, if_true, List.mem_map]
  constructor
  · rintro ⟨q, hq, hqe⟩
    by_cases hk : (q.id == c'.id) = true
    · rw [if_pos hk] at hqe
      exact Or.inr hqe.symm
    · rw [if_neg hk] at hqe
      subst hqe
      exact Or.inl ⟨hq, by simpa using hk⟩
  · rintro (⟨hd, hne⟩ | rfl)
    · exact ⟨d, hd, by simp [if_neg, hne]⟩
    · refine ⟨c0, h0, ?_⟩
      simp [hid]

theorem putLecture_mem_replace {db : DBState} {l' l0 : Lecture}
    (hwf : DBWF db) (h0 : l0 ∈ db.lectures) (hid : l0.id = l'.id) :
    ∀ m, m ∈ (putLecture db l').lectures ↔ (m ∈ db.lectures ∧ m.id ≠ l'.id) ∨ m = l' := by
  intro m
  have hany : db.lectures.any (fun q => q.id == l'.id) = true := by
    simp only [List.any_eq_true]
    exact ⟨l0, h0, by simp [hid]⟩
  simp only [putLecture, hany, if_true, List.mem_map]
  constructor
  · rintro ⟨q, hq, hqe⟩
    by_cases hk : (q.id == l'.id) = true
    · rw [if_pos hk] at hqe
      exact Or.inr hqe.symm
    · rw [if_neg hk] at hqe
      subst hqe
      exact Or.inl ⟨hq, by simpa using hk⟩
  · rintro (⟨hd, hne⟩ | rfl)
    · exact ⟨m, hd, by simp [if_neg, hne]⟩
    · refine ⟨l0, h0, ?_⟩
      simp [hid]

theorem course_update_folderPath_self {c : Course} {path : String}
    (h : c.folderPath = some path) : ({ c with folderPath := some path }) = c := by
  rw [← h]

/-! ### The GC phase deletes nothing when everything is validated -/

theorem runGC_noop (t : ScanTree) (papers : List Paper) (st : SyncSt)
    (hp : ∀ p ∈ st.db.providers, provDead t papers st.validProviderIds p = false)
    (hc : ∀ c ∈ st.db.courses, st.validCourseIds.contains c.id = true)
    (hl : ∀ l ∈ st.db.lectures, st.validLectureIds.contains l.id = true) :
    runGC t papers st = (st.db, 0) := by
  have hc1 : ∀ c ∈ st.db.courses,
      courseDeadOne st.validProviderIds st.validCourseIds c = false := by
    intro c hcm
    have hcid : c.id ∈ st.validCourseIds := by simpa using hc c hcm
    simp [courseDeadOne, hcid]
  unfold runGC
  rw [gcProviders_noop t papers st.validProviderIds st.db.providers st.db 0 hp]
  dsimp only []
  rw [gcCoursesPassOne_noop st.validProviderIds st.validCourseIds st.db.courses st.db 0 hc1]
  dsimp only []
  rw [gcCoursesPassTwo_noop st.validCourseIds st.db.courses st.db 0 hc]
  dsimp only []
  exact gcLectures_noop st.validLectureIds st.db.lectures st.db 0 hl

/-! ### The GC phase only ever deletes rows (sublists), so it preserves
well-formedness -/

theorem gcProviders_sublist (t : ScanTree) (papers : List Paper) (vp : List Nat) :
    ∀ (ps : List Provider) (db : DBState) (d : Nat),
      (gcProviders t papers vp ps db d).1.providers.Sublist db.providers
  | [], db, d => by simp [gcProviders]
  | p :: ps, db, d => by
    simp only [gcProviders]
    split
    · exact (gcProviders_sublist t papers vp ps (deleteProviderId db p.id) (d + 1)).trans
        (List.filter_sublist _)
    · exact gcProviders_sublist t papers vp ps db d

theorem gcCoursesPassOne_sublist (vp vc : List Nat) :
    ∀ (cs : List Course) (db : DBState) (d : Nat),
      (gcCoursesPassOne vp vc cs db d).1.courses.Sublist db.courses
  | [], db, d => by simp [gcCoursesPassOne]
  | c :: cs, db, d => by
    simp only [gcCoursesPassOne]
    split
    · exact (gcCoursesPassOne_sublist vp vc cs (deleteCourseId db c.id) (d + 1)).trans
        (List.filter_sublist _)
    · exact gcCoursesPassOne_sublist vp vc cs db d

theorem gcCoursesPassTwo_sublist (vc : List Nat) :
    ∀ (cs : List Course) (db : DBState) (d : Nat),
      (gcCoursesPassTwo vc cs db d).1.courses.Sublist db.courses
  | [], db, d => by simp [gcCoursesPassTwo]
  | c :: cs, db, d => by
    simp only [gcCoursesPassTwo]
    split
    · exact (gcCoursesPassTwo_sublist vc cs (deleteCourseId db c.id) (d + 1)).trans
        (List.filter_sublist _)
    · exact gcCoursesPassTwo_sublist vc cs db d

theorem gcLectures_sublist (vl : List Nat) :
    ∀ (ls : List Lecture) (db : DBState) (d : Nat),
      (gcLectures vl ls db d).1.lectures.Sublist db.lectures
  | [], db, d => by simp [gcLectures]
  | l :: ls, db, d => by
    simp only [gcLectures]
    split
    · exact (gcLectures_sublist vl ls (deleteLectureId db l.id) (d + 1)).trans
        (List.filter_sublist _)
    · exact gcLectures_sublist vl ls db d

theorem runGC_sublists (t : ScanTree) (papers : List Paper) (st : SyncSt) :
    (runGC t papers st).1.providers.Sublist st.db.providers ∧
    (runGC t papers st).1.courses.Sublist st.db.courses ∧
    (runGC t papers st).1.lectures.Sublist st.db.lectures := by
  unfold runGC
  have s1 := gcProviders_sublist t papers st.validProviderIds st.db.providers st.db 0
  have f1 := gcProviders_frame t papers st.validProviderIds st.db.providers st.db 0
  rcases hr1 : gcProviders t papers st.validProviderIds st.db.providers st.db 0 with ⟨db1, d1⟩
  rw [hr1] at s1 f1
  dsimp only [] at s1 f1 ⊢
  have s2 := gcCoursesPassOne_sublist st.validProviderIds st.validCourseIds db1.courses db1 d1
  have f2 := gcCoursesPassOne_frame st.validProviderIds st.validCourseIds db1.courses db1 d1
  rcases hr2 : gcCoursesPassOne st.validProviderIds st.validCourseIds db1.courses db1 d1 with ⟨db2, d2⟩
  rw [hr2] at s2 f2
  dsimp only [] at s2 f2 ⊢
  have s3 := gcCoursesPassTwo_sublist st.validCourseIds db1.courses db2 d2
  have f3 := gcCoursesPassTwo_frame st.validCourseIds db1.courses db2 d2
  rcases hr3 : gcCoursesPassTwo st.validCourseIds db1.courses db2 d2 with ⟨db3, d3⟩
  rw [hr3] at s3 f3
  dsimp only [] at s3 f3 ⊢
  have s4 := gcLectures_sublist st.validLectureIds db3.lectures db3 d3
  have f4 := gcLectures_frame st.validLectureIds db3.lectures db3 d3
  rcases hr4 : gcLectures st.validLectureIds db3.lectures db3 d3 with ⟨db4, d4⟩
  rw [hr4] at s4 f4
  dsimp only [] at s4 f4 ⊢
  refine ⟨?_, ?_, ?_⟩
  · rw [f4.2.1, f3.2.1, f2.2.1]
    exact s1
  · rw [f4.2.2.1]
    have hb : db1.courses.Sublist st.db.courses := by rw [f1.2.1]
    exact (s3.trans s2).trans hb
  · have hb : db3.lectures.Sublist st.db.lectures := by
      rw [f3.2.2.1, f2.2.2.1, f1.2.2.1]
    exact s4.trans hb

/-! ### Find-or-create under well-formedness -/

theorem ensureProvider_sync {db : DBState} {pid pn : String} {p : Provider}
    {db' : DBState} (h : ensureProvider db pid pn = .ok (p, db'))
    (hwf : SyncWF db) (htrim : jsTrim pn = pn)
    (hpid : pid ∈ db.papers.map (fun q => q.id)) :
    SyncWF db' ∧
    p.paperId = pid ∧ jsToLower p.name = jsToLower pn ∧
    (∃ new, db'.providers = db.providers ++ new ∧ ∀ q ∈ new, q = p) ∧
    p ∈ db'.providers ∧
    p.id < db'.nextId ∧
    db'.courses = db.courses ∧ db'.lectures = db.lectures ∧
    db'.papers = db.papers ∧ db.nextId ≤ db'.nextId ∧
    (p ∈ db.providers ∨ db.nextId ≤ p.id) := by
  rcases ensureProvider_cases h with ⟨hlk, rfl⟩ | ⟨hlk, hadd⟩
  · obtain ⟨hmem, hpp, hnm⟩ := lookupProvider_spec hlk
    exact ⟨hwf, hpp, hnm, ⟨[], by simp, by simp⟩, hmem, hwf.1.2.2.2.1 p hmem,
      rfl, rfl, rfl, le_refl _, Or.inl hmem⟩
  · obtain ⟨hp, hdb, _⟩ := addProvider_spec hadd
    have hfacts := addProvider_facts hadd
    have hpidv : p.id = db.nextId := hfacts.2.1
    have hext : db'.providers = db.providers ++ [p] := by
      rw [hdb]
      have hfr : putProvider db p = { db with providers := db.providers ++ [p] } := by
        apply putProvider_fresh
        intro q hq
        have hb := hwf.1.2.2.2.1 q hq
        omega
      rw [hfr]
    have hnone := lookupProvider_none_iff hlk
    have hppid : p.paperId = pid := by rw [hp]
    have hpname : jsToLower p.name = jsToLower pn := by
      rw [hp]
      dsimp only []
      rw [htrim]
    have hcs : db'.courses = db.courses := hfacts.2.2.1
    have hls : db'.lectures = db.lectures := hfacts.2.2.2.1
    have hnx : db'.nextId = db.nextId + 1 := hfacts.2.2.2.2
    refine ⟨?_, hppid, hpname,
      ⟨[p], hext, by intro q hq; rw [List.mem_singleton] at hq; exact hq⟩,
      by rw [hext]; simp, by omega,
      hcs, hls, hfacts.1.papers_eq, hfacts.1.next_mono, Or.inr (le_of_eq hpidv.symm)⟩
    refine ⟨hfacts.1.wf hwf.1, ?_, ?_, ?_, ?_, ?_⟩
    · intro q hq r hr hpp hnn
      rw [hext, List.mem_append, List.mem_singleton] at hq hr
      rcases hq with hq | rfl <;> rcases hr with hr | rfl
      · exact hwf.2.1 q hq r hr hpp hnn
      · exact absurd (hnn.trans hpname) (hnone q hq (hpp.trans hppid))
      · exact absurd (hnn.symm.trans hpname) (hnone r hr (hpp.symm.trans hppid))
      · rfl
    · rw [hcs]
      exact hwf.2.2.1
    · rw [hls]
      exact hwf.2.2.2.1
    · rw [hcs]
      intro c hcm
      have := hwf.2.2.2.2.1 c hcm
      omega
    · rw [hls]
      intro m hm
      have := hwf.2.2.2.2.2 m hm
      omega

theorem ensureCourse_sync {db : DBState} {prid : Nat} {cn path : String}
    {c' : Course} {db' : DBState}
    (h : ensureCourse db prid cn path = .ok (c', db'))
    (hwf : SyncWF db) (htrim : jsTrim cn = cn)
    (hprid : prid ∈ db.providers.map (fun q => q.id))
    (hpbound : prid < db.nextId) :
    SyncWF db' ∧
    c'.providerId = prid ∧ jsToLower c'.name = jsToLower cn ∧
    c'.folderPath = some path ∧ c'.id < db'.nextId ∧
    db'.providers = db.providers ∧ db'.lectures = db.lectures ∧
    db'.papers = db.papers ∧ db.nextId ≤ db'.nextId ∧
    (∀ d, d ∈ db'.courses ↔
      (d ∈ db.courses ∧ ¬(d.providerId = prid ∧ jsToLower d.name = jsToLower cn)) ∨
      d = c') ∧
    ((∃ c0 ∈ db.courses, c0.id = c'.id ∧ c0.providerId = prid ∧
        jsToLower c0.name = jsToLower cn) ∨ db.nextId ≤ c'.id) := by
  rcases ensureCourse_cases h with ⟨c0, hlk, hc', rfl⟩ | ⟨hlk, c0, db1, hadd, hc', rfl⟩
  · obtain ⟨h0mem, h0pid, h0nm⟩ := lookupCourse_spec hlk
    have hkid : c0.id = c'.id := by rw [hc']
    have hcpid : c'.providerId = prid := by rw [hc']; exact h0pid
    have hcnm : jsToLower c'.name = jsToLower cn := by rw [hc']; exact h0nm
    have hfr := putCourse_frame db c'
    have hrepl := putCourse_replace_facts h0mem hkid.symm
    have hchar := putCourse_mem_replace hwf.1 h0mem hkid
    have hchar' : ∀ d, d ∈ (putCourse db c').courses ↔
        (d ∈ db.courses ∧ ¬(d.providerId = prid ∧ jsToLower d.name = jsToLower cn)) ∨
        d = c' := by
      intro d
      rw [hchar d]
      constructor
      · rintro (⟨hd, hne⟩ | rfl)
        · refine Or.inl ⟨hd, ?_⟩
          rintro ⟨hdp, hdn⟩
          have : d = c0 := hwf.2.2.1 d hd c0 h0mem (hdp.trans h0pid.symm) (hdn.trans h0nm.symm)
          exact hne (by rw [this, hkid])
        · exact Or.inr rfl
      · rintro (⟨hd, hkm⟩ | rfl)
        · refine Or.inl ⟨hd, ?_⟩
          intro hdid
          have : d = c0 := hwf.1.course_inj hd h0mem (by rw [hdid, ← hkid])
          exact hkm (by rw [this]; exact ⟨h0pid, h0nm⟩)
        · exact Or.inr rfl
    refine ⟨?_, hcpid, hcnm, by rw [hc'], by rw [hfr.2.2.2.1, ← hkid]; exact hwf.1.2.2.2.2.1 c0 h0mem,
      hfr.2.1, hfr.2.2.1, hfr.1, le_of_eq hfr.2.2.2.1.symm, hchar',
      Or.inl ⟨c0, h0mem, hkid, h0pid, h0nm⟩⟩
    · refine ⟨hrepl.wf hwf.1, ?_, ?_, ?_, ?_, ?_⟩
      · rw [hfr.2.1]
        exact hwf.2.1
      · intro d hd e he hpp hnn
        rw [hchar' d] at hd
        rw [hchar' e] at he
        rcases hd with ⟨hd, hdk⟩ | rfl <;> rcases he with ⟨he, hek⟩ | rfl
        · exact hwf.2.2.1 d hd e he hpp hnn
        · exact absurd ⟨hpp.trans hcpid, hnn.trans hcnm⟩ hdk
        · exact absurd ⟨hpp.symm.trans hcpid, hnn.symm.trans hcnm⟩ hek
        · rfl
      · rw [hfr.2.2.1]
        exact hwf.2.2.2.1
      · intro d hd
        rw [hchar' d] at hd
        rw [hfr.2.2.2.1]
        rcases hd with ⟨hd, _⟩ | rfl
        · exact hwf.2.2.2.2.1 d hd
        · rw [hcpid]
          exact hpbound
      · rw [hfr.2.2.1, hfr.2.2.2.1]
        exact hwf.2.2.2.2.2
  · obtain ⟨hcv, hdb1, _⟩ := addCourse_spec hadd
    have hafacts := addCourse_facts hadd
    have hcidv : c0.id = db.nextId := hafacts.2.1
    have hwf1 : DBWF db1 := hafacts.1.wf hwf.1
    have hd1cs : db1.courses = db.courses ++ [c0] := by
      rw [hdb1]
      have hfr0 : putCourse db c0 = { db with courses := db.courses ++ [c0] } := by
        apply putCourse_fresh
        intro q hq
        have hb := hwf.1.2.2.2.2.1 q hq
        omega
      rw [hfr0]
    have h0mem : c0 ∈ db1.courses := by rw [hd1cs]; simp
    have hkid : c0.id = c'.id := by rw [hc']
    have hcpid : c'.providerId = prid := by rw [hc', hcv]
    have hcnm : jsToLower c'.name = jsToLower cn := by
      rw [hc', hcv]
      dsimp only []
      rw [htrim]
    have hnone := lookupCourse_none_iff hlk
    have hfr := putCourse_frame db1 c'
    have hrepl := putCourse_replace_facts h0mem hkid.symm
    have hchar := putCourse_mem_replace hwf1 h0mem hkid
    have hnx1 : db1.nextId = db.nextId + 1 := hafacts.2.2.2.2
    have hprov1 : db1.providers = db.providers := hafacts.2.2.1
    have hlect1 : db1.lectures = db.lectures := hafacts.2.2.2.1
    have hchar' : ∀ d, d ∈ (putCourse db1 c').courses ↔
        (d ∈ db.courses ∧ ¬(d.providerId = prid ∧ jsToLower d.name = jsToLower cn)) ∨
        d = c' := by
      intro d
      rw [hchar d, hd1cs]
      constructor
      · rintro (⟨hd, hne⟩ | rfl)
        · rw [List.mem_append, List.mem_singleton] at hd
          rcases hd with hd | rfl
          · refine Or.inl ⟨hd, ?_⟩
            rintro ⟨hdp, hdn⟩
            exact hnone d hd hdp hdn
          · exact absurd (by rw [hkid]) hne
        · exact Or.inr rfl
      · rintro (⟨hd, hkm⟩ | rfl)
        · refine Or.inl ⟨by rw [List.mem_append]; exact Or.inl hd, ?_⟩
          intro hdid
          have hb := hwf.1.2.2.2.2.1 d hd
          rw [hdid, ← hkid, hcidv] at hb
          omega
        · exact Or.inr rfl
    refine ⟨?_, hcpid, hcnm, by rw [hc'], by rw [hfr.2.2.2.1, hnx1, ← hkid, hcidv]; omega,
      by rw [hfr.2.1, hprov1],
      by rw [hfr.2.2.1, hlect1], by rw [hfr.1]; exact hafacts.1.papers_eq,
      by rw [hfr.2.2.2.1]; exact hafacts.1.next_mono, hchar',
      Or.inr (by omega)⟩
    · refine ⟨hrepl.wf hwf1, ?_, ?_, ?_, ?_, ?_⟩
      · rw [hfr.2.1, hprov1]
        exact hwf.2.1
      · intro d hd e he hpp hnn
        rw [hchar' d] at hd
        rw [hchar' e] at he
        rcases hd with ⟨hd, hdk⟩ | rfl <;> rcases he with ⟨he, hek⟩ | rfl
        · exact hwf.2.2.1 d hd e he hpp hnn
        · exact absurd ⟨hpp.trans hcpid, hnn.trans hcnm⟩ hdk
        · exact absurd ⟨hpp.symm.trans hcpid, hnn.symm.trans hcnm⟩ hek
        · rfl
      · rw [hfr.2.2.1, hlect1]
        exact hwf.2.2.2.1
      · intro d hd
        rw [hchar' d] at hd
        rw [hfr.2.2.2.1, hnx1]
        rcases hd with ⟨hd, _⟩ | rfl
        · have := hwf.2.2.2.2.1 d hd
          omega
        · rw [hcpid]
          omega
      · rw [hfr.2.2.1, hlect1, hfr.2.2.2.1, hnx1]
        intro m hm
        have := hwf.2.2.2.2.2 m hm
        omega

theorem ensureLecture_sync {db : DBState} {cid : Nat} {f : FileEntry} {i : Nat}
    {cr up : Bool} {l : Lecture} {db' : DBState}
    (h : ensureLecture db cid f i = .ok (cr, up, l, db'))
    (hwf : SyncWF db) (hcid : cid ∈ db.courses.map (fun c => c.id))
    (hcbound : cid < db.nextId) :
    SyncWF db' ∧
    l.courseId = cid ∧ l.fileName = f.name ∧ l.orderIndex = i ∧
    db'.providers = db.providers ∧ db'.courses = db.courses ∧
    db'.papers = db.papers ∧ db.nextId ≤ db'.nextId ∧
    (∀ m, m ∈ db'.lectures ↔
      (m ∈ db.lectures ∧ ¬(m.courseId = cid ∧ m.fileName = f.name)) ∨ m = l) := by
  rcases ensureLecture_cases h with ⟨hlk, _, _, hadd⟩ |
    ⟨l0, hlk, hidx, _, _, hlv, hdb⟩ | ⟨hlk, hidx, _, _, hdb⟩
  · -- created fresh
    obtain ⟨hlit, hdb1, _⟩ := addLecture_spec hadd
    have hafacts := addLecture_facts hadd
    have hlid : l.id = db.nextId := hafacts.2.1
    have hext : db'.lectures = db.lectures ++ [l] := by
      rw [hdb1]
      have hfr0 : putLecture db l = { db with lectures := db.lectures ++ [l] } := by
        apply putLecture_fresh
        intro q hq
        have hb := hwf.1.2.2.2.2.2 q hq
        omega
      rw [hfr0]
    have hnone := lookupLecture_none_iff hlk
    have hlc : l.courseId = cid := by rw [hlit]
    have hlf : l.fileName = f.name := by rw [hlit]
    have hlo : l.orderIndex = i := by rw [hlit]
    have hnx : db'.nextId = db.nextId + 1 := hafacts.2.2.2.2
    have hchar : ∀ m, m ∈ db'.lectures ↔
        (m ∈ db.lectures ∧ ¬(m.courseId = cid ∧ m.fileName = f.name)) ∨ m = l := by
      intro m
      rw [hext, List.mem_append, List.mem_singleton]
      constructor
      · rintro (hm | rfl)
        · refine Or.inl ⟨hm, ?_⟩
          rintro ⟨hmc, hmf⟩
          exact hnone m hm hmc hmf
        · exact Or.inr rfl
      · rintro (⟨hm, _⟩ | rfl)
        · exact Or.inl hm
        · exact Or.inr rfl
    refine ⟨?_, hlc, hlf, hlo, hafacts.2.2.1, hafacts.2.2.2.1,
      hafacts.1.papers_eq, hafacts.1.next_mono, hchar⟩
    refine ⟨hafacts.1.wf hwf.1, ?_, ?_, ?_, ?_, ?_⟩
    · rw [hafacts.2.2.1]
      exact hwf.2.1
    · rw [hafacts.2.2.2.1]
      exact hwf.2.2.1
    · intro q hq r hr hcc hff
      rw [hext, List.mem_append, List.mem_singleton] at hq hr
      rcases hq with hq | rfl <;> rcases hr with hr | rfl
      · exact hwf.2.2.2.1 q hq r hr hcc hff
      · exact absurd (hff.trans hlf) (fun hx => hnone q hq (hcc.trans hlc) hx)
      · exact absurd (hff.symm.trans hlf) (fun hx => hnone r hr (hcc.symm.trans hlc) hx)
      · rfl
    · rw [hafacts.2.2.2.1, hnx]
      intro c hcm
      have := hwf.2.2.2.2.1 c hcm
      omega
    · rw [hnx]
      intro m hm
      rw [hchar m] at hm
      rcases hm with ⟨hm, _⟩ | rfl
      · have := hwf.2.2.2.2.2 m hm
        omega
      · rw [hlc]
        omega
  · -- rank update of an existing row
    obtain ⟨h0mem, h0cid, h0fn⟩ := lookupLecture_spec hlk
    have hkid : l0.id = l.id := by rw [hlv]
    have hlc : l.courseId = cid := by rw [hlv]; exact h0cid
    have hlf : l.fileName = f.name := by rw [hlv]; exact h0fn
    have hlo : l.orderIndex = i := by rw [hlv]
    have hdesc : l = { l0 with orderIndex := l.orderIndex } := by rw [hlv]
    have hrepl := putLecture_replace_facts h0mem hkid.symm hdesc
    have hfr := putLecture_frame db l
    have hchar0 := putLecture_mem_replace hwf.1 h0mem hkid
    have hchar : ∀ m, m ∈ db'.lectures ↔
        (m ∈ db.lectures ∧ ¬(m.courseId = cid ∧ m.fileName = f.name)) ∨ m = l := by
      intro m
      rw [hdb]
      rw [hchar0 m]
      constructor
      · rintro (⟨hm, hne⟩ | rfl)
        · refine Or.inl ⟨hm, ?_⟩
          rintro ⟨hmc, hmf⟩
          have : m = l0 := hwf.2.2.2.1 m hm l0 h0mem (hmc.trans h0cid.symm) (hmf.trans h0fn.symm)
          exact hne (by rw [this, hkid])
        · exact Or.inr rfl
      · rintro (⟨hm, hkm⟩ | rfl)
        · refine Or.inl ⟨hm, ?_⟩
          intro hmid
          have : m = l0 := hwf.1.lecture_inj hm h0mem (by rw [hmid, ← hkid])
          exact hkm (by rw [this]; exact ⟨h0cid, h0fn⟩)
        · exact Or.inr rfl
    have hdb' : db' = putLecture db l := hdb
    refine ⟨?_, hlc, hlf, hlo, by rw [hdb', hfr.2.1], by rw [hdb', hfr.2.2.1],
      by rw [hdb', hfr.1], by rw [hdb', hfr.2.2.2.1], hchar⟩
    refine ⟨by rw [hdb']; exact hrepl.wf hwf.1, ?_, ?_, ?_, ?_, ?_⟩
    · rw [hdb', hfr.2.1]
      exact hwf.2.1
    · rw [hdb', hfr.2.2.1]
      exact hwf.2.2.1
    · intro q hq r hr hcc hff
      rw [hchar q] at hq
      rw [hchar r] at hr
      rcases hq with ⟨hq, hqk⟩ | rfl <;> rcases hr with ⟨hr, hrk⟩ | rfl
      · exact hwf.2.2.2.1 q hq r hr hcc hff
      · exact absurd ⟨hcc.trans hlc, hff.trans hlf⟩ hqk
      · exact absurd ⟨hcc.symm.trans hlc, hff.symm.trans hlf⟩ hrk
      · rfl
    · rw [hdb', hfr.2.2.1, hfr.2.2.2.1]
      exact hwf.2.2.2.2.1
    · intro m hm
      rw [hchar m] at hm
      rw [hdb', hfr.2.2.2.1]
      rcases hm with ⟨hm, _⟩ | rfl
      · exact hwf.2.2.2.2.2 m hm
      · rw [hlc]
        exact hcbound
  · -- found at the right rank: no write at all
    obtain ⟨h0mem, h0cid, h0fn⟩ := lookupLecture_spec hlk
    have hchar : ∀ m, m ∈ db'.lectures ↔
        (m ∈ db.lectures ∧ ¬(m.courseId = cid ∧ m.fileName = f.name)) ∨ m = l := by
      intro m
      rw [hdb]
      constructor
      · intro hm
        by_cases hkm : m.courseId = cid ∧ m.fileName = f.name
        · refine Or.inr (hwf.2.2.2.1 m hm l h0mem
            (hkm.1.trans h0cid.symm) (hkm.2.trans h0fn.symm))
        · exact Or.inl ⟨hm, hkm⟩
      · rintro (⟨hm, _⟩ | rfl)
        · exact hm
        · exact h0mem
    exact ⟨by rw [hdb]; exact hwf, h0cid, h0fn, hidx, by rw [hdb], by rw [hdb],
      by rw [hdb], by rw [hdb], hchar⟩

/-! ### The create/update loops establish the synced characterization -/

theorem processLectures_sync (cid : Nat) :
    ∀ (fs : List FileEntry) (i : Nat) (st st' : SyncSt),
      processLectures cid fs i st = .ok st' →
      SyncWF st.db →
      (fs.map (fun f => f.name)).Nodup →
      cid ∈ st.db.courses.map (fun c => c.id) →
      cid < st.db.nextId →
      SyncWF st'.db ∧
      st'.db.providers = st.db.providers ∧ st'.db.courses = st.db.courses ∧
      st'.db.papers = st.db.papers ∧ st.db.nextId ≤ st'.db.nextId ∧
      st'.validProviderIds = st.validProviderIds ∧
      st'.validCourseIds = st.validCourseIds ∧
      (∃ newL, st'.validLectureIds = st.validLectureIds ++ newL ∧
        ∀ x ∈ newL, LCoverIn st'.db cid fs x) ∧
      LectsSynced st'.db cid fs i st'.validLectureIds ∧
      (∀ m ∈ st.db.lectures,
        ¬(m.courseId = cid ∧ m.fileName ∈ fs.map (fun f => f.name)) →
        m ∈ st'.db.lectures) ∧
      (∀ m ∈ st'.db.lectures, m ∈ st.db.lectures ∨ m.courseId = cid)
  | [], i, st, st', h, hwf, hnd, hcid, hcb => by
    simp only [processLectures, Except.ok.injEq] at h
    subst h
    refine ⟨hwf, rfl, rfl, rfl, le_refl _, rfl, rfl, ⟨[], by simp, by simp⟩, ?_, ?_, ?_⟩
    · intro j f hj
      simp at hj
    · intro m hm _
      exact hm
    · intro m hm
      exact Or.inl hm
  | f :: fs, i, st, st', h, hwf, hnd, hcid, hcb => by
    unfold processLectures at h
    cases he : ensureLecture st.db cid f i with
    | error e =>
      rw [he] at h
      simp only [exceptBind_err] at h
      exact absurd h (by simp)
    | ok r =>
      rw [he] at h
      obtain ⟨cr, up, l, db1⟩ := r
      simp only [exceptBind_ok] at h
      obtain ⟨hwf1, hlc, hlf, hlo, hpv, hcs, hpp, hnx, hchar⟩ :=
        ensureLecture_sync he hwf hcid hcb
      rw [List.map_cons, List.nodup_cons] at hnd
      have ih := processLectures_sync cid fs (i + 1) _ st' h hwf1
        hnd.2 (by show cid ∈ db1.courses.map (fun c => c.id); rw [hcs]; exact hcid)
        (by show cid < db1.nextId; omega)
      obtain ⟨ihwf, ihpv, ihcs, ihpp, ihnx, ihvp, ihvc, ⟨newL, hvl, hcov⟩,
        ihsync, ihinert, ihbound⟩ := ih
      have ihpv' : st'.db.providers = db1.providers := ihpv
      have ihcs' : st'.db.courses = db1.courses := ihcs
      have ihpp' : st'.db.papers = db1.papers := ihpp
      have ihnx' : db1.nextId ≤ st'.db.nextId := ihnx
      have ihvp' : st'.validProviderIds = st.validProviderIds := ihvp
      have ihvc' : st'.validCourseIds = st.validCourseIds := ihvc
      have hvl' : st'.validLectureIds = (st.validLectureIds ++ [l.id]) ++ newL := hvl
      have hlmem1 : l ∈ db1.lectures := by
        rw [hchar l]
        exact Or.inr rfl
      have hlmem : l ∈ st'.db.lectures := by
        refine ihinert l hlmem1 ?_
        rintro ⟨_, hfn⟩
        rw [hlf] at hfn
        exact hnd.1 hfn
      refine ⟨ihwf, by rw [ihpv', hpv], by rw [ihcs', hcs], by rw [ihpp', hpp],
        by omega, ihvp', ihvc', ?_, ?_, ?_, ?_⟩
      · refine ⟨l.id :: newL, ?_, ?_⟩
        · rw [hvl']
          simp
        · intro x hx
          rw [List.mem_cons] at hx
          rcases hx with rfl | hx
          · exact ⟨f, by simp, l, ⟨hlmem, hlc, hlf⟩, rfl⟩
          · obtain ⟨f', hf', l', hk', hx'⟩ := hcov x hx
            exact ⟨f', List.mem_cons_of_mem _ hf', l', hk', hx'⟩
      · intro j f' hj
        cases j with
        | zero =>
          simp only [List.get?] at hj
          injection hj with hj
          subst hj
          refine ⟨l, ⟨hlmem, hlc, hlf⟩, by omega, ?_⟩
          rw [hvl']
          simp
        | succ j =>
          simp only [List.get?] at hj
          obtain ⟨l', hk', ho', hv'⟩ := ihsync j f' hj
          refine ⟨l', hk', by omega, hv'⟩
      · intro m hm hnk
        have hm1 : m ∈ db1.lectures := by
          rw [hchar m]
          refine Or.inl ⟨hm, ?_⟩
          rintro ⟨hmc, hmf⟩
          refine hnk ⟨hmc, ?_⟩
          rw [List.map_cons, hmf]
          exact List.mem_cons_self _ _
        refine ihinert m hm1 ?_
        rintro ⟨hmc, hmf⟩
        exact hnk ⟨hmc, by rw [List.map_cons]; exact List.mem_cons_of_mem _ hmf⟩
      · intro m hm
        rcases ihbound m hm with hm1 | hc
        · have hm1' : m ∈ db1.lectures := hm1
          rw [hchar m] at hm1'
          rcases hm1' with ⟨hm0, _⟩ | rfl
          · exact Or.inl hm0
          · exact Or.inr hlc
        · exact Or.inr hc

theorem processCourses_sync (pf pn : String) (prid : Nat) :
    ∀ (cts : ProviderTree) (st st' : SyncSt),
      processCourses pf pn prid cts st = .ok st' →
      SyncWF st.db →
      CoursesWF cts →
      prid ∈ st.db.providers.map (fun q => q.id) →
      prid < st.db.nextId →
      SyncWF st'.db ∧
      st'.db.providers = st.db.providers ∧ st'.db.papers = st.db.papers ∧
      st.db.nextId ≤ st'.db.nextId ∧
      st'.validProviderIds = st.validProviderIds ∧
      (∃ newC, st'.validCourseIds = st.validCourseIds ++ newC ∧
        ∀ x ∈ newC, CCoverIn st'.db prid cts x) ∧
      (∃ newL, st'.validLectureIds = st.validLectureIds ++ newL ∧
        ∀ x ∈ newL, LCoverC st'.db prid cts x) ∧
      CoursesSynced st'.db pf pn prid cts st'.validCourseIds st'.validLectureIds ∧
      (∀ d ∈ st.db.courses,
        ¬(d.providerId = prid ∧ jsToLower d.name ∈ cts.map (fun e => jsToLower e.1)) →
        d ∈ st'.db.courses) ∧
      (∀ d ∈ st'.db.courses, d ∈ st.db.courses ∨ d.providerId = prid) ∧
      (∀ m ∈ st.db.lectures,
        (∀ d ∈ st.db.courses, m.courseId = d.id →
          ¬(d.providerId = prid ∧ jsToLower d.name ∈ cts.map (fun e => jsToLower e.1))) →
        m ∈ st'.db.lectures) ∧
      (∀ m ∈ st'.db.lectures, m ∈ st.db.lectures ∨
        ∃ c ∈ st'.db.courses, m.courseId = c.id ∧ c.providerId = prid)
  | [], st, st', h, hwf, hcwf, hpm, hpb => by
    simp only [processCourses, Except.ok.injEq] at h
    subst h
    refine ⟨hwf, rfl, rfl, le_refl _, rfl, ⟨[], by simp, by simp⟩,
      ⟨[], by simp, by simp⟩, ?_, ?_, ?_, ?_, ?_⟩
    · intro e he
      simp at he
    · intro d hd _
      exact hd
    · intro d hd
      exact Or.inl hd
    · intro m hm _
      exact hm
    · intro m hm
      exact Or.inl hm
  | (cn, lects) :: rest, st, st', h, hwf, hcwf, hpm, hpb => by
    unfold processCourses at h
    dsimp only [] at h
    cases he : ensureCourse st.db prid cn (pf ++ "/" ++ pn ++ "/" ++ cn) with
    | error e =>
      rw [he] at h
      simp only [exceptBind_err] at h
      exact absurd h (by simp)
    | ok r =>
      rw [he] at h
      obtain ⟨c, db1⟩ := r
      simp only [exceptBind_ok] at h
      have htrim : jsTrim cn = cn := hcwf.1 (cn, lects) (by simp)
      obtain ⟨hwf1, hcpid, hcnm, hcfp, hcidb, hpv1, hls1, hpp1, hnx1, hchar, hfof⟩ :=
        ensureCourse_sync he hwf htrim hpm hpb
      have hcmem1 : c ∈ db1.courses := by
        rw [hchar c]
        exact Or.inr rfl
      cases hp : processLectures c.id lects 0
          { st with db := db1, validCourseIds := st.validCourseIds ++ [c.id] } with
      | error e =>
        rw [hp] at h
        simp only [exceptBind_err] at h
        exact absurd h (by simp)
      | ok st2 =>
        rw [hp] at h
        simp only [exceptBind_ok] at h
        have hlwf : (lects.map (fun f => f.name)).Nodup := hcwf.2.2 (cn, lects) (by simp)
        have hL := processLectures_sync c.id lects 0 _ st2 hp hwf1 hlwf
          (by show c.id ∈ db1.courses.map (fun x => x.id)
              exact List.mem_map.mpr ⟨c, hcmem1, rfl⟩)
          (by show c.id < db1.nextId
              exact hcidb)
        obtain ⟨hwf2, h2pv, h2cs, h2pp, h2nx, h2vp, h2vc, ⟨newL0, h2vl, h2cov⟩,
          h2sync, h2inert, h2bound⟩ := hL
        have h2pv' : st2.db.providers = db1.providers := h2pv
        have h2cs' : st2.db.courses = db1.courses := h2cs
        have h2pp' : st2.db.papers = db1.papers := h2pp
        have h2nx' : db1.nextId ≤ st2.db.nextId := h2nx
        have h2vp' : st2.validProviderIds = st.validProviderIds := h2vp
        have h2vc' : st2.validCourseIds = st.validCourseIds ++ [c.id] := h2vc
        have h2vl' : st2.validLectureIds = st.validLectureIds ++ newL0 := h2vl
        have hrwf : CoursesWF rest :=
          ⟨fun e he2 => hcwf.1 e (List.mem_cons_of_mem _ he2),
           (by have hx := hcwf.2.1
               rw [List.map_cons, List.nodup_cons] at hx
               exact hx.2),
           fun e he2 => hcwf.2.2 e (List.mem_cons_of_mem _ he2)⟩
        have hheadnin : jsToLower cn ∉ rest.map (fun e => jsToLower e.1) := by
          have hx := hcwf.2.1
          rw [List.map_cons, List.nodup_cons] at hx
          exact hx.1
        have ih := processCourses_sync pf pn prid rest st2 st' h hwf2 hrwf
          (by rw [h2pv', hpv1]; exact hpm)
          (by omega)
        obtain ⟨ihwf, ihpv, ihpp, ihnx, ihvp, ⟨newC', ihvc, ihcovC⟩,
          ⟨newL', ihvl, ihcovL⟩, ihsync, ihcinert, ihcbound, ihlinert, ihlbound⟩ := ih
        have hcmem2 : c ∈ st2.db.courses := by
          rw [h2cs']
          exact hcmem1
        have hcmem' : c ∈ st'.db.courses := by
          refine ihcinert c hcmem2 ?_
          rintro ⟨_, hlcn⟩
          rw [hcnm] at hlcn
          exact hheadnin hlcn
        have hlsurv : ∀ m ∈ st2.db.lectures, m.courseId = c.id → m ∈ st'.db.lectures := by
          intro m hm hmc
          refine ihlinert m hm ?_
          intro d hd hmd
          rintro ⟨hdp, hdn⟩
          have hdc : d = c := hwf2.1.course_inj hd hcmem2 (by rw [← hmd]; exact hmc)
          rw [hdc, hcnm] at hdn
          exact hheadnin hdn
        refine ⟨ihwf, by rw [ihpv, h2pv', hpv1], by rw [ihpp, h2pp', hpp1],
          by omega, by rw [ihvp, h2vp'], ?_, ?_, ?_, ?_, ?_, ?_, ?_⟩
        · refine ⟨c.id :: newC', ?_, ?_⟩
          · rw [ihvc, h2vc']
            simp
          · intro x hx
            rw [List.mem_cons] at hx
            rcases hx with rfl | hx
            · exact ⟨(cn, lects), by simp, c, ⟨hcmem', hcpid, hcnm⟩, rfl⟩
            · obtain ⟨e, he2, c2, hk2, hx2⟩ := ihcovC x hx
              exact ⟨e, List.mem_cons_of_mem _ he2, c2, hk2, hx2⟩
        · refine ⟨newL0 ++ newL', ?_, ?_⟩
          · rw [ihvl, h2vl']
            simp
          · intro x hx
            rw [List.mem_append] at hx
            rcases hx with hx | hx
            · obtain ⟨f, hf, l2, ⟨hl2m, hl2c, hl2f⟩, hx2⟩ := h2cov x hx
              exact ⟨(cn, lects), by simp, c, ⟨hcmem', hcpid, hcnm⟩, f, hf, l2,
                ⟨hlsurv l2 hl2m hl2c, hl2c, hl2f⟩, hx2⟩
            · obtain ⟨e, he2, c2, hk2, hins⟩ := ihcovL x hx
              exact ⟨e, List.mem_cons_of_mem _ he2, c2, hk2, hins⟩
        · intro e he2
          rw [List.mem_cons] at he2
          rcases he2 with rfl | he2
          · refine ⟨c, ⟨hcmem', hcpid, hcnm⟩, hcfp, ?_, ?_⟩
            · rw [ihvc, h2vc']
              simp
            · intro j f hj
              obtain ⟨l2, ⟨hl2m, hl2c, hl2f⟩, ho2, hv2⟩ := h2sync j f hj
              refine ⟨l2, ⟨hlsurv l2 hl2m hl2c, hl2c, hl2f⟩, ho2, ?_⟩
              rw [ihvl]
              exact List.mem_append_left _ hv2
          · exact ihsync e he2
        · intro d hd hnk
          have hd1 : d ∈ db1.courses := by
            rw [hchar d]
            refine Or.inl ⟨hd, ?_⟩
            rintro ⟨hdp, hdn⟩
            refine hnk ⟨hdp, ?_⟩
            rw [List.map_cons, hdn]
            exact List.mem_cons_self _ _
          have hd2 : d ∈ st2.db.courses := by
            rw [h2cs']
            exact hd1
          refine ihcinert d hd2 ?_
          rintro ⟨hdp, hdn⟩
          exact hnk ⟨hdp, by rw [List.map_cons]; exact List.mem_cons_of_mem _ hdn⟩
        · intro d hd
          rcases ihcbound d hd with hd2 | hdp
          · have hd1 : d ∈ db1.courses := by
              rw [← h2cs']
              exact hd2
            rw [hchar d] at hd1
            rcases hd1 with ⟨hd0, _⟩ | rfl
            · exact Or.inl hd0
            · exact Or.inr hcpid
          · exact Or.inr hdp
        · intro m hm hscope
          have hm1 : m ∈ db1.lectures := by
            rw [hls1]
            exact hm
          have hmnc : m.courseId ≠ c.id := by
            rcases hfof with ⟨c0, hc0m, hc0id, hc0p, hc0n⟩ | hfresh
            · intro hmc
              refine hscope c0 hc0m (by rw [hmc, hc0id]) ⟨hc0p, ?_⟩
              rw [List.map_cons, hc0n]
              exact List.mem_cons_self _ _
            · intro hmc
              have hb := hwf.2.2.2.2.2 m hm
              omega
          have hm2 : m ∈ st2.db.lectures := by
            refine h2inert m hm1 ?_
            rintro ⟨hmc, _⟩
            exact hmnc hmc
          refine ihlinert m hm2 ?_
          intro d hd hmd
          have hd1 : d ∈ db1.courses := by
            rw [← h2cs']
            exact hd
          rw [hchar d] at hd1
          rcases hd1 with ⟨hd0, _⟩ | rfl
          · intro hkm
            exact hscope d hd0 hmd
              ⟨hkm.1, by rw [List.map_cons]; exact List.mem_cons_of_mem _ hkm.2⟩
          · exact absurd hmd hmnc
        · intro m hm
          rcases ihlbound m hm with hm2 | ⟨c2, hc2, hmc2, hcp2⟩
          · rcases h2bound m hm2 with hm1 | hmc
            · have hm0 : m ∈ db1.lectures := hm1
              rw [hls1] at hm0
              exact Or.inl hm0
            · exact Or.inr ⟨c, hcmem', hmc, hcpid⟩
          · exact Or.inr ⟨c2, hc2, hmc2, hcp2⟩

theorem processProviders_sync (pf pid : String) :
    ∀ (pt : PaperTree) (st st' : SyncSt),
      processProviders pf pid pt st = .ok st' →
      SyncWF st.db →
      ProvidersWF pt →
      pid ∈ st.db.papers.map (fun q => q.id) →
      SyncWF st'.db ∧
      st'.db.papers = st.db.papers ∧ st.db.nextId ≤ st'.db.nextId ∧
      (∃ newp, st'.db.providers = st.db.providers ++ newp ∧
        ∀ q ∈ newp, q.paperId = pid) ∧
      (∃ newP, st'.validProviderIds = st.validProviderIds ++ newP ∧
        ∀ x ∈ newP, PCover st'.db pid pt x) ∧
      (∃ newC, st'.validCourseIds = st.validCourseIds ++ newC ∧
        ∀ x ∈ newC, CCover st'.db pid pt x) ∧
      (∃ newL, st'.validLectureIds = st.validLectureIds ++ newL ∧
        ∀ x ∈ newL, LCover st'.db pid pt x) ∧
      ProvidersSynced st'.db pf pid pt
        st'.validProviderIds st'.validCourseIds st'.validLectureIds ∧
      (∀ d ∈ st.db.courses,
        (∀ q ∈ st.db.providers, d.providerId = q.id →
          ¬(q.paperId = pid ∧ jsToLower q.name ∈ pt.map (fun e => jsToLower e.1))) →
        d ∈ st'.db.courses) ∧
      (∀ d ∈ st'.db.courses, d ∈ st.db.courses ∨
        ∃ q ∈ st'.db.providers, q.paperId = pid ∧ d.providerId = q.id) ∧
      (∀ m ∈ st.db.lectures,
        (∀ d ∈ st.db.courses, m.courseId = d.id →
          ∀ q ∈ st.db.providers, d.providerId = q.id →
            ¬(q.paperId = pid ∧ jsToLower q.name ∈ pt.map (fun e => jsToLower e.1))) →
        m ∈ st'.db.lectures) ∧
      (∀ m ∈ st'.db.lectures, m ∈ st.db.lectures ∨
        ∃ c ∈ st'.db.courses, m.courseId = c.id ∧
          ∃ q ∈ st'.db.providers, q.paperId = pid ∧ c.providerId = q.id)
  | [], st, st', h, hwf, hpwf, hpm => by
    simp only [processProviders, Except.ok.injEq] at h
    subst h
    refine ⟨hwf, rfl, le_refl _, ⟨[], by simp, by simp⟩, ⟨[], by simp, by simp⟩,
      ⟨[], by simp, by simp⟩, ⟨[], by simp, by simp⟩, ?_, ?_, ?_, ?_, ?_⟩
    · intro e he
      simp at he
    · intro d hd _
      exact hd
    · intro d hd
      exact Or.inl hd
    · intro m hm _
      exact hm
    · intro m hm
      exact Or.inl hm
  | (pn, cts) :: rest, st, st', h, hwf, hpwf, hpm => by
    unfold processProviders at h
    dsimp only [] at h
    cases he : ensureProvider st.db pid pn with
    | error e =>
      rw [he] at h
      simp only [exceptBind_err] at h
      exact absurd h (by simp)
    | ok r =>
      rw [he] at h
      obtain ⟨p, db1⟩ := r
      simp only [exceptBind_ok] at h
      have htrim : jsTrim pn = pn := hpwf.1 (pn, cts) (by simp)
      obtain ⟨hwf1, hppid, hpname, ⟨newp0, hext0, hnewpid0⟩, hpmem1, hpidb,
        hcs1, hls1, hpp1, hnx1, hfof⟩ := ensureProvider_sync he hwf htrim hpm
      cases hc : processCourses pf pn p.id cts
          { st with db := db1, validProviderIds := st.validProviderIds ++ [p.id] } with
      | error e =>
        rw [hc] at h
        simp only [exceptBind_err] at h
        exact absurd h (by simp)
      | ok st2 =>
        rw [hc] at h
        simp only [exceptBind_ok] at h
        have hcwf : CoursesWF cts := hpwf.2.2 (pn, cts) (by simp)
        have hC := processCourses_sync pf pn p.id cts _ st2 hc hwf1 hcwf
          (by show p.id ∈ db1.providers.map (fun q => q.id)
              exact List.mem_map.mpr ⟨p, hpmem1, rfl⟩)
          (by show p.id < db1.nextId
              exact hpidb)
        obtain ⟨hwf2, h2pv, h2pp, h2nx, h2vp, ⟨newC0, h2vc, h2covC⟩,
          ⟨newL0, h2vl, h2covL⟩, h2sync, h2cinert, h2cbound, h2linert, h2lbound⟩ := hC
        have h2pv' : st2.db.providers = db1.providers := h2pv
        have h2pp' : st2.db.papers = db1.papers := h2pp
        have h2nx' : db1.nextId ≤ st2.db.nextId := h2nx
        have h2vp' : st2.validProviderIds = st.validProviderIds ++ [p.id] := h2vp
        have h2vc' : st2.validCourseIds = st.validCourseIds ++ newC0 := h2vc
        have h2vl' : st2.validLectureIds = st.validLectureIds ++ newL0 := h2vl
        have hpmem2 : p ∈ st2.db.providers := by
          rw [h2pv']
          exact hpmem1
        have hrwf : ProvidersWF rest :=
          ⟨fun e he2 => hpwf.1 e (List.mem_cons_of_mem _ he2),
           (by have hx := hpwf.2.1
               rw [List.map_cons, List.nodup_cons] at hx
               exact hx.2),
           fun e he2 => hpwf.2.2 e (List.mem_cons_of_mem _ he2)⟩
        have hheadnin : jsToLower pn ∉ rest.map (fun e => jsToLower e.1) := by
          have hx := hpwf.2.1
          rw [List.map_cons, List.nodup_cons] at hx
          exact hx.1
        have ih := processProviders_sync pf pid rest st2 st' h hwf2 hrwf
          (by rw [h2pp', hpp1]; exact hpm)
        obtain ⟨ihwf, ihpp, ihnx, ⟨newp', ihpext, ihnewpid⟩, ⟨newP', ihvp, ihcovP⟩,
          ⟨newC', ihvc, ihcovC⟩, ⟨newL', ihvl, ihcovL⟩, ihsync,
          ihcinert, ihcbound, ihlinert, ihlbound⟩ := ih
        have hpmem' : p ∈ st'.db.providers := by
          rw [ihpext]
          exact List.mem_append_left _ hpmem2
        -- any provider row carrying p's id in st2 is p itself
        have hponly : ∀ q ∈ st2.db.providers, p.id = q.id → q = p := by
          intro q hq hid
          exact hwf2.1.provider_inj hq hpmem2 hid.symm
        -- courses linked to p survive the rest of the provider loop
        have hcsurv : ∀ d ∈ st2.db.courses, d.providerId = p.id → d ∈ st'.db.courses := by
          intro d hd hdp
          refine ihcinert d hd ?_
          intro q hq hdq
          rintro ⟨hqpid, hqn⟩
          have hqp : q = p := hponly q hq (by rw [← hdq, hdp])
          rw [hqp, hpname] at hqn
          exact hheadnin hqn
        -- lectures of p-linked courses survive the rest of the provider loop
        have hlsurv : ∀ m ∈ st2.db.lectures,
            (∃ c ∈ st2.db.courses, m.courseId = c.id ∧ c.providerId = p.id) →
            m ∈ st'.db.lectures := by
          rintro m hm ⟨c2, hc2, hmc2, hc2p⟩
          refine ihlinert m hm ?_
          intro d hd hmd q hq hdq
          rintro ⟨hqpid, hqn⟩
          have hdc : d = c2 := hwf2.1.course_inj hd hc2 (by rw [← hmd]; exact hmc2)
          have hqp : q = p := hponly q hq (by rw [← hdq, hdc, hc2p])
          rw [hqp, hpname] at hqn
          exact hheadnin hqn
        refine ⟨ihwf, by rw [ihpp, h2pp', hpp1], by omega, ?_, ?_, ?_, ?_, ?_,
          ?_, ?_, ?_, ?_⟩
        · refine ⟨newp0 ++ newp', ?_, ?_⟩
          · rw [ihpext, h2pv', hext0]
            simp
          · intro q hq
            rw [List.mem_append] at hq
            rcases hq with hq | hq
            · rw [hnewpid0 q hq]
              exact hppid
            · exact ihnewpid q hq
        · refine ⟨p.id :: newP', ?_, ?_⟩
          · rw [ihvp, h2vp']
            simp
          · intro x hx
            rw [List.mem_cons] at hx
            rcases hx with rfl | hx
            · exact ⟨(pn, cts), by simp, p, ⟨hpmem', hppid, hpname⟩, rfl⟩
            · obtain ⟨e, he2, p2, hk2, hx2⟩ := ihcovP x hx
              exact ⟨e, List.mem_cons_of_mem _ he2, p2, hk2, hx2⟩
        · refine ⟨newC0 ++ newC', ?_, ?_⟩
          · rw [ihvc, h2vc']
            simp
          · intro x hx
            rw [List.mem_append] at hx
            rcases hx with hx | hx
            · obtain ⟨e2, he2, c2, ⟨hc2m, hc2p, hc2n⟩, hx2⟩ := h2covC x hx
              exact ⟨(pn, cts), by simp, p, ⟨hpmem', hppid, hpname⟩, e2, he2, c2,
                ⟨hcsurv c2 hc2m hc2p, hc2p, hc2n⟩, hx2⟩
            · obtain ⟨e, he2, p2, hk2, hin2⟩ := ihcovC x hx
              exact ⟨e, List.mem_cons_of_mem _ he2, p2, hk2, hin2⟩
        · refine ⟨newL0 ++ newL', ?_, ?_⟩
          · rw [ihvl, h2vl']
            simp
          · intro x hx
            rw [List.mem_append] at hx
            rcases hx with hx | hx
            · obtain ⟨e2, he2, c2, ⟨hc2m, hc2p, hc2n⟩, f, hf, l2,
                ⟨hl2m, hl2c, hl2f⟩, hx2⟩ := h2covL x hx
              refine ⟨(pn, cts), by simp, p, ⟨hpmem', hppid, hpname⟩, e2, he2, c2,
                ⟨hcsurv c2 hc2m hc2p, hc2p, hc2n⟩, f, hf, l2,
                ⟨hlsurv l2 hl2m ⟨c2, hc2m, hl2c, hc2p⟩, hl2c, hl2f⟩, hx2⟩
            · obtain ⟨e, he2, p2, hk2, hin2⟩ := ihcovL x hx
              exact ⟨e, List.mem_cons_of_mem _ he2, p2, hk2, hin2⟩
        · intro e he2
          rw [List.mem_cons] at he2
          rcases he2 with rfl | he2
          · refine ⟨p, ⟨hpmem', hppid, hpname⟩, ?_, ?_⟩
            · rw [ihvp, h2vp']
              simp
            · intro e2 he3
              obtain ⟨c2, ⟨hc2m, hc2p, hc2n⟩, hc2f, hc2v, hc2l⟩ := h2sync e2 he3
              refine ⟨c2, ⟨hcsurv c2 hc2m hc2p, hc2p, hc2n⟩, hc2f, ?_, ?_⟩
              · rw [ihvc]
                exact List.mem_append_left _ hc2v
              · intro j f hj
                obtain ⟨l2, ⟨hl2m, hl2c, hl2f⟩, ho2, hv2⟩ := hc2l j f hj
                refine ⟨l2, ⟨hlsurv l2 hl2m ⟨c2, hc2m, hl2c, hc2p⟩, hl2c, hl2f⟩, ho2, ?_⟩
                rw [ihvl]
                exact List.mem_append_left _ hv2
          · exact ihsync e he2
        · -- course inertia
          intro d hd hscope
          have hdnp : d.providerId ≠ p.id := by
            rcases hfof with hpold | hfresh
            · intro hdp
              refine hscope p hpold hdp ⟨hppid, ?_⟩
              rw [List.map_cons, hpname]
              exact List.mem_cons_self _ _
            · intro hdp
              have hb := hwf.2.2.2.2.1 d hd
              omega
          have hd1 : d ∈ st2.db.courses := by
            refine h2cinert d (by show d ∈ db1.courses; rw [hcs1]; exact hd) ?_
            rintro ⟨hdp, _⟩
            exact hdnp hdp
          refine ihcinert d hd1 ?_
          intro q hq hdq
          rintro ⟨hqpid, hqn⟩
          rw [h2pv', hext0, List.mem_append] at hq
          rcases hq with hq | hq
          · exact hscope q hq hdq
              ⟨hqpid, by rw [List.map_cons]; exact List.mem_cons_of_mem _ hqn⟩
          · have hqp : q = p := hnewpid0 q hq
            rw [hqp, hpname] at hqn
            exact hheadnin hqn
        · -- course bound
          intro d hd
          rcases ihcbound d hd with hd2 | ⟨q, hq, hqpid, hdq⟩
          · rcases h2cbound d hd2 with hd1 | hdp
            · have hd0 : d ∈ db1.courses := hd1
              rw [hcs1] at hd0
              exact Or.inl hd0
            · exact Or.inr ⟨p, hpmem', hppid, hdp⟩
          · exact Or.inr ⟨q, hq, hqpid, hdq⟩
        · -- lecture inertia
          intro m hm hscope
          have hm1 : m ∈ st2.db.lectures := by
            refine h2linert m (by show m ∈ db1.lectures; rw [hls1]; exact hm) ?_
            intro d hd hmd
            rintro ⟨hdp, _⟩
            have hd0 : d ∈ db1.courses := hd
            rw [hcs1] at hd0
            rcases hfof with hpold | hfresh
            · exact hscope d hd0 hmd p hpold hdp
                ⟨hppid, by rw [List.map_cons, hpname]; exact List.mem_cons_self _ _⟩
            · have hb := hwf.2.2.2.2.1 d hd0
              omega
          refine ihlinert m hm1 ?_
          intro d hd hmd q hq hdq
          rintro ⟨hqpid, hqn⟩
          rcases h2cbound d hd with hd1 | hdp
          · have hd0 : d ∈ db1.courses := hd1
            rw [hcs1] at hd0
            rw [h2pv', hext0, List.mem_append] at hq
            rcases hq with hq | hq
            · exact hscope d hd0 hmd q hq hdq
                ⟨hqpid, by rw [List.map_cons]; exact List.mem_cons_of_mem _ hqn⟩
            · have hqp : q = p := hnewpid0 q hq
              rw [hqp, hpname] at hqn
              exact hheadnin hqn
          · have hqp : q = p := hponly q hq (by rw [← hdq, hdp])
            rw [hqp, hpname] at hqn
            exact hheadnin hqn
        · -- lecture bound
          intro m hm
          rcases ihlbound m hm with hm2 | ⟨c2, hc2, hmc2, q, hq, hqpid, hcq⟩
          · rcases h2lbound m hm2 with hm1 | ⟨c2, hc2, hmc2, hc2p⟩
            · have hm0 : m ∈ db1.lectures := hm1
              rw [hls1] at hm0
              exact Or.inl hm0
            · exact Or.inr ⟨c2, hcsurv c2 hc2 hc2p, hmc2, p, hpmem', hppid, hc2p⟩
          · exact Or.inr ⟨c2, hc2, hmc2, q, hq, hqpid, hcq⟩

theorem processPapers_sync (papers : List Paper) :
    ∀ (t : ScanTree) (st st' : SyncSt),
      processPapers papers t st = .ok st' →
      SyncWF st.db →
      st.db.papers = papers →
      (t.filterMap (fun e => matchPaperFolder e.1 papers)).Nodup →
      (∀ e ∈ t, ProvidersWF e.2) →
      SyncWF st'.db ∧
      st'.db.papers = st.db.papers ∧ st.db.nextId ≤ st'.db.nextId ∧
      (∃ newp, st'.db.providers = st.db.providers ++ newp) ∧
      (∃ newP, st'.validProviderIds = st.validProviderIds ++ newP ∧
        ∀ x ∈ newP, PCoverT st'.db papers t x) ∧
      (∃ newC, st'.validCourseIds = st.validCourseIds ++ newC ∧
        ∀ x ∈ newC, CCoverT st'.db papers t x) ∧
      (∃ newL, st'.validLectureIds = st.validLectureIds ++ newL ∧
        ∀ x ∈ newL, LCoverT st'.db papers t x) ∧
      TreeSynced st'.db papers t
        st'.validProviderIds st'.validCourseIds st'.validLectureIds ∧
      (∀ d ∈ st.db.courses,
        (∀ q ∈ st.db.providers, d.providerId = q.id →
          ∀ e ∈ t, ∀ pid2, matchPaperFolder e.1 papers = some pid2 →
            q.paperId ≠ pid2) →
        d ∈ st'.db.courses) ∧
      (∀ m ∈ st.db.lectures,
        (∀ d ∈ st.db.courses, m.courseId = d.id →
          ∀ q ∈ st.db.providers, d.providerId = q.id →
            ∀ e ∈ t, ∀ pid2, matchPaperFolder e.1 papers = some pid2 →
              q.paperId ≠ pid2) →
        m ∈ st'.db.lectures)
  | [], st, st', h, hwf, hpap, hnd, htwf => by
    simp only [processPapers, Except.ok.injEq] at h
    subst h
    refine ⟨hwf, rfl, le_refl _, ⟨[], by simp⟩, ⟨[], by simp, by simp⟩,
      ⟨[], by simp, by simp⟩, ⟨[], by simp, by simp⟩, ?_, ?_, ?_⟩
    · intro e he
      simp at he
    · intro d hd _
      exact hd
    · intro m hm _
      exact hm
  | (fn, pt) :: rest, st, st', h, hwf, hpap, hnd, htwf => by
    unfold processPapers at h
    cases hm : matchPaperFolder fn papers with
    | none =>
      rw [hm] at h
      have hnd' : (rest.filterMap (fun e => matchPaperFolder e.1 papers)).Nodup := by
        rw [List.filterMap_cons] at hnd
        dsimp only [] at hnd
        rw [hm] at hnd
        exact hnd
      have ih := processPapers_sync papers rest _ st' h hwf hpap hnd'
        (fun e he => htwf e (List.mem_cons_of_mem _ he))
      obtain ⟨ihwf, ihpp, ihnx, ⟨newp, ihpext⟩, ⟨newP, ihvp, ihcovP⟩,
        ⟨newC, ihvc, ihcovC⟩, ⟨newL, ihvl, ihcovL⟩, ihsync, ihcinert, ihlinert⟩ := ih
      refine ⟨ihwf, ihpp, ihnx, ⟨newp, ihpext⟩, ⟨newP, ihvp, ?_⟩,
        ⟨newC, ihvc, ?_⟩, ⟨newL, ihvl, ?_⟩, ?_, ?_, ?_⟩
      · intro x hx
        obtain ⟨e, he, pid2, hm2, hc⟩ := ihcovP x hx
        exact ⟨e, List.mem_cons_of_mem _ he, pid2, hm2, hc⟩
      · intro x hx
        obtain ⟨e, he, pid2, hm2, hc⟩ := ihcovC x hx
        exact ⟨e, List.mem_cons_of_mem _ he, pid2, hm2, hc⟩
      · intro x hx
        obtain ⟨e, he, pid2, hm2, hc⟩ := ihcovL x hx
        exact ⟨e, List.mem_cons_of_mem _ he, pid2, hm2, hc⟩
      · intro e he pid2 hm2
        rw [List.mem_cons] at he
        rcases he with rfl | he
        · rw [hm] at hm2
          exact Option.noConfusion hm2
        · exact ihsync e he pid2 hm2
      · intro d hd hscope
        refine ihcinert d hd ?_
        intro q hq hdq e he pid2 hm2
        exact hscope q hq hdq e (List.mem_cons_of_mem _ he) pid2 hm2
      · intro m hmm hscope
        refine ihlinert m hmm ?_
        intro d hd hmd q hq hdq e he pid2 hm2
        exact hscope d hd hmd q hq hdq e (List.mem_cons_of_mem _ he) pid2 hm2
    | some pid =>
      rw [hm] at h
      dsimp only [] at h
      cases hp : processProviders fn pid pt st with
      | error e =>
        rw [hp] at h
        simp only [exceptBind_err] at h
        exact absurd h (by simp)
      | ok st1 =>
        rw [hp] at h
        simp only [exceptBind_ok] at h
        have hhwf : ProvidersWF pt := htwf (fn, pt) (by simp)
        have hP := processProviders_sync fn pid pt st st1 hp hwf hhwf
          (by rw [hpap]; exact matchPaperFolder_mem hm)
        obtain ⟨hwf1, h1pp, h1nx, ⟨newp0, h1pext, h1newpid⟩, ⟨newP0, h1vp, h1covP⟩,
          ⟨newC0, h1vc, h1covC⟩, ⟨newL0, h1vl, h1covL⟩, h1sync,
          h1cinert, h1cbound, h1linert, h1lbound⟩ := hP
        have hnd' : (rest.filterMap (fun e => matchPaperFolder e.1 papers)).Nodup := by
          rw [List.filterMap_cons] at hnd
          dsimp only [] at hnd
          rw [hm] at hnd
          exact (List.nodup_cons.mp hnd).2
        have hpidnin : pid ∉ rest.filterMap (fun e => matchPaperFolder e.1 papers) := by
          rw [List.filterMap_cons] at hnd
          dsimp only [] at hnd
          rw [hm] at hnd
          exact (List.nodup_cons.mp hnd).1
        have hpidne : ∀ e3 ∈ rest, ∀ pid3,
            matchPaperFolder e3.1 papers = some pid3 → pid ≠ pid3 := by
          intro e3 he3 pid3 hm3 hcontra
          refine hpidnin ?_
          rw [hcontra]
          exact List.mem_filterMap.mpr ⟨e3, he3, hm3⟩
        have ih := processPapers_sync papers rest st1 st' h hwf1
          (by rw [h1pp]; exact hpap) hnd'
          (fun e he => htwf e (List.mem_cons_of_mem _ he))
        obtain ⟨ihwf, ihpp, ihnx, ⟨newp', ihpext⟩, ⟨newP', ihvp, ihcovP⟩,
          ⟨newC', ihvc, ihcovC⟩, ⟨newL', ihvl, ihcovL⟩, ihsync,
          ihcinert, ihlinert⟩ := ih
        -- survival of pid-linked rows through the rest of the top-level loop
        have hpsurv : ∀ p2 ∈ st1.db.providers, p2 ∈ st'.db.providers := by
          intro p2 hp2
          rw [ihpext]
          exact List.mem_append_left _ hp2
        have hcsurv : ∀ c2 ∈ st1.db.courses, ∀ p2 ∈ st1.db.providers,
            p2.paperId = pid → c2.providerId = p2.id → c2 ∈ st'.db.courses := by
          intro c2 hc2 p2 hp2 hp2pid hc2p
          refine ihcinert c2 hc2 ?_
          intro q hq hdq e3 he3 pid3 hm3
          have hqp : q = p2 := hwf1.1.provider_inj hq hp2 (by rw [← hdq]; exact hc2p)
          rw [hqp, hp2pid]
          exact hpidne e3 he3 pid3 hm3
        have hlsurv : ∀ l2 ∈ st1.db.lectures, ∀ c2 ∈ st1.db.courses,
            ∀ p2 ∈ st1.db.providers, p2.paperId = pid → c2.providerId = p2.id →
            l2.courseId = c2.id → l2 ∈ st'.db.lectures := by
          intro l2 hl2 c2 hc2 p2 hp2 hp2pid hc2p hl2c
          refine ihlinert l2 hl2 ?_
          intro d hd hmd q hq hdq e3 he3 pid3 hm3
          have hdc : d = c2 := hwf1.1.course_inj hd hc2 (by rw [← hmd]; exact hl2c)
          have hqp : q = p2 := hwf1.1.provider_inj hq hp2
            (by rw [← hdq, hdc]; exact hc2p)
          rw [hqp, hp2pid]
          exact hpidne e3 he3 pid3 hm3
        refine ⟨ihwf, by rw [ihpp, h1pp], by omega, ?_, ?_, ?_, ?_, ?_, ?_, ?_⟩
        · refine ⟨newp0 ++ newp', ?_⟩
          rw [ihpext, h1pext]
          simp
        · refine ⟨newP0 ++ newP', ?_, ?_⟩
          · rw [ihvp, h1vp]
            simp
          · intro x hx
            rw [List.mem_append] at hx
            rcases hx with hx | hx
            · obtain ⟨e2, he2, p2, ⟨hp2m, hp2pid, hp2n⟩, hx2⟩ := h1covP x hx
              exact ⟨(fn, pt), by simp, pid, hm, e2, he2, p2,
                ⟨hpsurv p2 hp2m, hp2pid, hp2n⟩, hx2⟩
            · obtain ⟨e, he, pid2, hm2, hc⟩ := ihcovP x hx
              exact ⟨e, List.mem_cons_of_mem _ he, pid2, hm2, hc⟩
        · refine ⟨newC0 ++ newC', ?_, ?_⟩
          · rw [ihvc, h1vc]
            simp
          · intro x hx
            rw [List.mem_append] at hx
            rcases hx with hx | hx
            · obtain ⟨e2, he2, p2, ⟨hp2m, hp2pid, hp2n⟩, e3, he3, c2,
                ⟨hc2m, hc2p, hc2n⟩, hx2⟩ := h1covC x hx
              exact ⟨(fn, pt), by simp, pid, hm, e2, he2, p2,
                ⟨hpsurv p2 hp2m, hp2pid, hp2n⟩, e3, he3, c2,
                ⟨hcsurv c2 hc2m p2 hp2m hp2pid hc2p, hc2p, hc2n⟩, hx2⟩
            · obtain ⟨e, he, pid2, hm2, hc⟩ := ihcovC x hx
              exact ⟨e, List.mem_cons_of_mem _ he, pid2, hm2, hc⟩
        · refine ⟨newL0 ++ newL', ?_, ?_⟩
          · rw [ihvl, h1vl]
            simp
          · intro x hx
            rw [List.mem_append] at hx
            rcases hx with hx | hx
            · obtain ⟨e2, he2, p2, ⟨hp2m, hp2pid, hp2n⟩, e3, he3, c2,
                ⟨hc2m, hc2p, hc2n⟩, f, hf, l2, ⟨hl2m, hl2c, hl2f⟩, hx2⟩ := h1covL x hx
              exact ⟨(fn, pt), by simp, pid, hm, e2, he2, p2,
                ⟨hpsurv p2 hp2m, hp2pid, hp2n⟩, e3, he3, c2,
                ⟨hcsurv c2 hc2m p2 hp2m hp2pid hc2p, hc2p, hc2n⟩, f, hf, l2,
                ⟨hlsurv l2 hl2m c2 hc2m p2 hp2m hp2pid hc2p hl2c, hl2c, hl2f⟩, hx2⟩
            · obtain ⟨e, he, pid2, hm2, hc⟩ := ihcovL x hx
              exact ⟨e, List.mem_cons_of_mem _ he, pid2, hm2, hc⟩
        · intro e he pid2 hm2
          rw [List.mem_cons] at he
          rcases he with rfl | he
          · rw [hm] at hm2
            injection hm2 with hm2
            subst hm2
            intro e2 he2
            obtain ⟨p2, ⟨hp2m, hp2pid, hp2n⟩, hp2v, hcs2⟩ := h1sync e2 he2
            refine ⟨p2, ⟨hpsurv p2 hp2m, hp2pid, hp2n⟩, ?_, ?_⟩
            · rw [ihvp]
              exact List.mem_append_left _ hp2v
            · intro e3 he3
              obtain ⟨c2, ⟨hc2m, hc2p, hc2n⟩, hc2f, hc2v, hc2l⟩ := hcs2 e3 he3
              refine ⟨c2, ⟨hcsurv c2 hc2m p2 hp2m hp2pid hc2p, hc2p, hc2n⟩, hc2f, ?_, ?_⟩
              · rw [ihvc]
                exact List.mem_append_left _ hc2v
              · intro j f hj
                obtain ⟨l2, ⟨hl2m, hl2c, hl2f⟩, ho2, hv2⟩ := hc2l j f hj
                refine ⟨l2, ⟨hlsurv l2 hl2m c2 hc2m p2 hp2m hp2pid hc2p hl2c,
                  hl2c, hl2f⟩, ho2, ?_⟩
                rw [ihvl]
                exact List.mem_append_left _ hv2
          · exact ihsync e he pid2 hm2
        · -- course inertia across the whole folder list
          intro d hd hscope
          have hd1 : d ∈ st1.db.courses := by
            refine h1cinert d hd ?_
            intro q hq hdq
            rintro ⟨hqpid, _⟩
            exact hscope q hq hdq (fn, pt) (by simp) pid hm hqpid
          refine ihcinert d hd1 ?_
          intro q hq hdq e3 he3 pid3 hm3
          rw [h1pext, List.mem_append] at hq
          rcases hq with hq | hq
          · exact hscope q hq hdq e3 (List.mem_cons_of_mem _ he3) pid3 hm3
          · rw [h1newpid q hq]
            exact hpidne e3 he3 pid3 hm3
        · -- lecture inertia across the whole folder list
          intro m hmm hscope
          have hm1 : m ∈ st1.db.lectures := by
            refine h1linert m hmm ?_
            intro d hd hmd q hq hdq
            rintro ⟨hqpid, _⟩
            exact hscope d hd hmd q hq hdq (fn, pt) (by simp) pid hm hqpid
          refine ihlinert m hm1 ?_
          intro d hd hmd q hq hdq e3 he3 pid3 hm3
          rcases h1cbound d hd with hd0 | ⟨q2, hq2, hq2pid, hdq2⟩
          · rw [h1pext, List.mem_append] at hq
            rcases hq with hq | hq
            · exact hscope d hd0 hmd q hq hdq e3 (List.mem_cons_of_mem _ he3) pid3 hm3
            · rw [h1newpid q hq]
              exact hpidne e3 he3 pid3 hm3
          · have hqq2 : q = q2 := hwf1.1.provider_inj hq hq2 (by rw [← hdq]; exact hdq2)
            rw [hqq2, hq2pid]
            exact hpidne e3 he3 pid3 hm3

theorem TreeSynced.ready {db : DBState} {papers : List Paper} {t : ScanTree}
    {vp vc vl : List Nat} (h : TreeSynced db papers t vp vc vl) :
    TreeReady db papers t := by
  intro e he pid hm e2 he2
  obtain ⟨p, hk, _, hcs⟩ := h e he pid hm e2 he2
  refine ⟨p, hk, ?_⟩
  intro e3 he3
  obtain ⟨c, hck, hcf, _, hls⟩ := hcs e3 he3
  refine ⟨c, hck, hcf, ?_⟩
  intro j f hj
  obtain ⟨l, hlk, ho, _⟩ := hls j f hj
  exact ⟨l, hlk, ho⟩

theorem processLectures_noop (cid : Nat) :
    ∀ (fs : List FileEntry) (i : Nat) (st : SyncSt),
      SyncWF st.db →
      (∀ j f, fs.get? j = some f →
        ∃ l, LectKey st.db cid f.name l ∧ l.orderIndex = i + j) →
      ∃ st', processLectures cid fs i st = .ok st' ∧
        st'.db = st.db ∧ st'.validProviderIds = st.validProviderIds ∧
        st'.validCourseIds = st.validCourseIds ∧
        st'.added = st.added ∧ st'.updated = st.updated ∧
        (∀ x ∈ st.validLectureIds, x ∈ st'.validLectureIds) ∧
        (∀ j f, fs.get? j = some f → ∀ l, LectKey st.db cid f.name l →
          l.id ∈ st'.validLectureIds)
  | [], i, st, hwf, hready => by
    refine ⟨st, by simp [processLectures], rfl, rfl, rfl, rfl, rfl, fun x hx => hx, ?_⟩
    intro j f hj
    simp at hj
  | f :: fs, i, st, hwf, hready => by
    obtain ⟨l, ⟨hlm, hlc, hlf⟩, ho⟩ := hready 0 f rfl
    have ho' : l.orderIndex = i := by omega
    have he : ensureLecture st.db cid f i = .ok (false, false, l, st.db) := by
      unfold ensureLecture
      rw [lookupLecture_of_unique hwf.2.2.2.1 hlm hlc hlf]
      dsimp only []
      simp [ho']
    have hready' : ∀ j f', fs.get? j = some f' →
        ∃ l', LectKey st.db cid f'.name l' ∧ l'.orderIndex = (i + 1) + j := by
      intro j f' hj
      obtain ⟨l', hk', ho2⟩ := hready (j + 1) f' hj
      exact ⟨l', hk', by omega⟩
    obtain ⟨st', hrun, hdb, hvp, hvc, hadd, hupd, hmono, hcov⟩ :=
      processLectures_noop cid fs (i + 1)
        { st with validLectureIds := st.validLectureIds ++ [l.id],
                  added := st.added + (if false then 1 else 0),
                  updated := st.updated + (if false then 1 else 0) }
        hwf hready'
    refine ⟨st', ?_, hdb, hvp, hvc, ?_, ?_, ?_, ?_⟩
    · unfold processLectures
      rw [he]
      simp only [exceptBind_ok]
      exact hrun
    · exact hadd
    · exact hupd
    · intro x hx
      exact hmono x (List.mem_append_left _ hx)
    · intro j f' hj
      cases j with
      | zero =>
        simp only [List.get?] at hj
        injection hj with hj
        subst hj
        intro l' hk'
        have hl' : l' = l := hwf.2.2.2.1 l' hk'.1 l hlm (hk'.2.1.trans hlc.symm)
          (hk'.2.2.trans hlf.symm)
        subst hl'
        exact hmono l'.id (by simp)
      | succ j =>
        simp only [List.get?] at hj
        intro l' hk'
        exact hcov j f' hj l' hk'

theorem processCourses_noop (pf pn : String) (prid : Nat) :
    ∀ (cts : ProviderTree) (st : SyncSt),
      SyncWF st.db →
      CoursesReady st.db pf pn prid cts →
      ∃ st', processCourses pf pn prid cts st = .ok st' ∧
        st'.db = st.db ∧ st'.validProviderIds = st.validProviderIds ∧
        st'.added = st.added ∧ st'.updated = st.updated ∧
        (∀ x ∈ st.validCourseIds, x ∈ st'.validCourseIds) ∧
        (∀ x ∈ st.validLectureIds, x ∈ st'.validLectureIds) ∧
        (∀ e ∈ cts, ∀ c, CourseKey st.db prid e.1 c → c.id ∈ st'.validCourseIds) ∧
        (∀ e ∈ cts, ∀ c, CourseKey st.db prid e.1 c →
          ∀ j f, e.2.get? j = some f → ∀ l, LectKey st.db c.id f.name l →
            l.id ∈ st'.validLectureIds)
  | [], st, hwf, hready => by
    refine ⟨st, by simp [processCourses], rfl, rfl, rfl, rfl, fun x hx => hx,
      fun x hx => hx, ?_, ?_⟩
    · intro e he
      simp at he
    · intro e he
      simp at he
  | (cn, lects) :: rest, st, hwf, hready => by
    obtain ⟨c, ⟨hcm, hcp, hcn⟩, hcf, hlread⟩ := hready (cn, lects) (by simp)
    have he : ensureCourse st.db prid cn (pf ++ "/" ++ pn ++ "/" ++ cn) =
        .ok (c, st.db) := by
      unfold ensureCourse
      rw [lookupCourse_of_unique hwf.2.2.1 hcm hcp hcn]
      dsimp only []
      rw [course_update_folderPath_self hcf,
        putCourse_self st.db c hcm (fun q hq hqid => hwf.1.course_inj hq hcm hqid)]
    obtain ⟨st2, hrun2, hdb2, hvp2, hvc2, hadd2, hupd2, hmono2, hcov2⟩ :=
      processLectures_noop c.id lects 0
        { st with validCourseIds := st.validCourseIds ++ [c.id] } hwf hlread
    have hdb2' : st2.db = st.db := hdb2
    have hvc2' : st2.validCourseIds = st.validCourseIds ++ [c.id] := hvc2
    have hready' : CoursesReady st2.db pf pn prid rest := by
      rw [hdb2']
      intro e he2
      exact hready e (List.mem_cons_of_mem _ he2)
    obtain ⟨st', hrun, hdb, hvp, hadd, hupd, hvcmono, hvlmono, hcovC, hcovL⟩ :=
      processCourses_noop pf pn prid rest st2 (by rw [hdb2']; exact hwf) hready'
    have hdbfin : st'.db = st.db := by rw [hdb, hdb2']
    refine ⟨st', ?_, hdbfin, by rw [hvp, hvp2], by rw [hadd, hadd2],
      by rw [hupd, hupd2], ?_, ?_, ?_, ?_⟩
    · unfold processCourses
      dsimp only []
      rw [he]
      simp only [exceptBind_ok, hrun2, exceptBind_ok]
      exact hrun
    · intro x hx
      refine hvcmono x ?_
      rw [hvc2']
      exact List.mem_append_left _ hx
    · intro x hx
      exact hvlmono x (hmono2 x hx)
    · intro e he2 c2 hk2
      rw [List.mem_cons] at he2
      rcases he2 with rfl | he2
      · have hc2 : c2 = c := hwf.2.2.1 c2 hk2.1 c hcm (hk2.2.1.trans hcp.symm)
          (hk2.2.2.trans hcn.symm)
        subst hc2
        refine hvcmono c2.id ?_
        rw [hvc2']
        simp
      · refine hcovC e he2 c2 ?_
        rw [hdb2']
        exact hk2
    · intro e he2 c2 hk2 j f hj l hlk
      rw [List.mem_cons] at he2
      rcases he2 with rfl | he2
      · have hc2 : c2 = c := hwf.2.2.1 c2 hk2.1 c hcm (hk2.2.1.trans hcp.symm)
          (hk2.2.2.trans hcn.symm)
        subst hc2
        exact hvlmono l.id (hcov2 j f hj l hlk)
      · refine hcovL e he2 c2 (by rw [hdb2']; exact hk2) j f hj l ?_
        rw [hdb2']
        exact hlk

theorem processProviders_noop (pf pid : String) :
    ∀ (pt : PaperTree) (st : SyncSt),
      SyncWF st.db →
      ProvidersReady st.db pf pid pt →
      ∃ st', processProviders pf pid pt st = .ok st' ∧
        st'.db = st.db ∧ st'.added = st.added ∧ st'.updated = st.updated ∧
        (∀ x ∈ st.validProviderIds, x ∈ st'.validProviderIds) ∧
        (∀ x ∈ st.validCourseIds, x ∈ st'.validCourseIds) ∧
        (∀ x ∈ st.validLectureIds, x ∈ st'.validLectureIds) ∧
        (∀ e ∈ pt, ∀ p, ProvKey st.db pid e.1 p → p.id ∈ st'.validProviderIds) ∧
        (∀ e ∈ pt, ∀ p, ProvKey st.db pid e.1 p →
          ∀ e2 ∈ e.2, ∀ c, CourseKey st.db p.id e2.1 c →
            c.id ∈ st'.validCourseIds) ∧
        (∀ e ∈ pt, ∀ p, ProvKey st.db pid e.1 p →
          ∀ e2 ∈ e.2, ∀ c, CourseKey st.db p.id e2.1 c →
            ∀ j f, e2.2.get? j = some f → ∀ l, LectKey st.db c.id f.name l →
              l.id ∈ st'.validLectureIds)
  | [], st, hwf, hready => by
    refine ⟨st, by simp [processProviders], rfl, rfl, rfl, fun x hx => hx,
      fun x hx => hx, fun x hx => hx, ?_, ?_, ?_⟩
    · intro e he
      simp at he
    · intro e he
      simp at he
    · intro e he
      simp at he
  | (pn, cts) :: rest, st, hwf, hready => by
    obtain ⟨p, ⟨hpm, hppid, hpn⟩, hcready⟩ := hready (pn, cts) (by simp)
    have he : ensureProvider st.db pid pn = .ok (p, st.db) := by
      unfold ensureProvider
      rw [lookupProvider_of_unique hwf.2.1 hpm hppid hpn]
    obtain ⟨st2, hrun2, hdb2, hvp2, hadd2, hupd2, hvcmono2, hvlmono2, hcovC2, hcovL2⟩ :=
      processCourses_noop pf pn p.id cts
        { st with validProviderIds := st.validProviderIds ++ [p.id] } hwf hcready
    have hdb2' : st2.db = st.db := hdb2
    have hvp2' : st2.validProviderIds = st.validProviderIds ++ [p.id] := hvp2
    have hready' : ProvidersReady st2.db pf pid rest := by
      rw [hdb2']
      intro e he2
      exact hready e (List.mem_cons_of_mem _ he2)
    obtain ⟨st', hrun, hdb, hadd, hupd, hvpmono, hvcmono, hvlmono, hcovP, hcovC, hcovL⟩ :=
      processProviders_noop pf pid rest st2 (by rw [hdb2']; exact hwf) hready'
    refine ⟨st', ?_, by rw [hdb, hdb2'], by rw [hadd, hadd2], by rw [hupd, hupd2],
      ?_, ?_, ?_, ?_, ?_, ?_⟩
    · unfold processProviders
      dsimp only []
      rw [he]
      simp only [exceptBind_ok, hrun2, exceptBind_ok]
      exact hrun
    · intro x hx
      refine hvpmono x ?_
      rw [hvp2']
      exact List.mem_append_left _ hx
    · intro x hx
      exact hvcmono x (hvcmono2 x hx)
    · intro x hx
      exact hvlmono x (hvlmono2 x hx)
    · intro e he2 p2 hk2
      rw [List.mem_cons] at he2
      rcases he2 with rfl | he2
      · have hp2 : p2 = p := hwf.2.1 p2 hk2.1 p hpm (hk2.2.1.trans hppid.symm)
          (hk2.2.2.trans hpn.symm)
        subst hp2
        refine hvpmono p2.id ?_
        rw [hvp2']
        simp
      · refine hcovP e he2 p2 ?_
        rw [hdb2']
        exact hk2
    · intro e he2 p2 hk2 e2 he3 c2 hck2
      rw [List.mem_cons] at he2
      rcases he2 with rfl | he2
      · have hp2 : p2 = p := hwf.2.1 p2 hk2.1 p hpm (hk2.2.1.trans hppid.symm)
          (hk2.2.2.trans hpn.symm)
        subst hp2
        exact hvcmono c2.id (hcovC2 e2 he3 c2 hck2)
      · refine hcovC e he2 p2 (by rw [hdb2']; exact hk2) e2 he3 c2 ?_
        rw [hdb2']
        exact hck2
    · intro e he2 p2 hk2 e2 he3 c2 hck2 j f hj l hlk
      rw [List.mem_cons] at he2
      rcases he2 with rfl | he2
      · have hp2 : p2 = p := hwf.2.1 p2 hk2.1 p hpm (hk2.2.1.trans hppid.symm)
          (hk2.2.2.trans hpn.symm)
        subst hp2
        exact hvlmono l.id (hcovL2 e2 he3 c2 hck2 j f hj l hlk)
      · refine hcovL e he2 p2 (by rw [hdb2']; exact hk2) e2 he3 c2
          (by rw [hdb2']; exact hck2) j f hj l ?_
        rw [hdb2']
        exact hlk

theorem processPapers_noop (papers : List Paper) :
    ∀ (t : ScanTree) (st : SyncSt),
      SyncWF st.db →
      TreeReady st.db papers t →
      ∃ st', processPapers papers t st = .ok st' ∧
        st'.db = st.db ∧ st'.added = st.added ∧ st'.updated = st.updated ∧
        (∀ x ∈ st.validProviderIds, x ∈ st'.validProviderIds) ∧
        (∀ x ∈ st.validCourseIds, x ∈ st'.validCourseIds) ∧
        (∀ x ∈ st.validLectureIds, x ∈ st'.validLectureIds) ∧
        (∀ e ∈ t, ∀ pid, matchPaperFolder e.1 papers = some pid →
          ∀ e2 ∈ e.2, ∀ p, ProvKey st.db pid e2.1 p →
            p.id ∈ st'.validProviderIds) ∧
        (∀ e ∈ t, ∀ pid, matchPaperFolder e.1 papers = some pid →
          ∀ e2 ∈ e.2, ∀ p, ProvKey st.db pid e2.1 p →
            ∀ e3 ∈ e2.2, ∀ c, CourseKey st.db p.id e3.1 c →
              c.id ∈ st'.validCourseIds) ∧
        (∀ e ∈ t, ∀ pid, matchPaperFolder e.1 papers = some pid →
          ∀ e2 ∈ e.2, ∀ p, ProvKey st.db pid e2.1 p →
            ∀ e3 ∈ e2.2, ∀ c, CourseKey st.db p.id e3.1 c →
              ∀ j f, e3.2.get? j = some f → ∀ l, LectKey st.db c.id f.name l →
                l.id ∈ st'.validLectureIds)
  | [], st, hwf, hready => by
    refine ⟨st, by simp [processPapers], rfl, rfl, rfl, fun x hx => hx,
      fun x hx => hx, fun x hx => hx, ?_, ?_, ?_⟩
    · intro e he
      simp at he
    · intro e he
      simp at he
    · intro e he
      simp at he
  | (fn, pt) :: rest, st, hwf, hready => by
    cases hm : matchPaperFolder fn papers with
    | none =>
      have hready' : TreeReady st.db papers rest := by
        intro e he pid2 hm2
        exact hready e (List.mem_cons_of_mem _ he) pid2 hm2
      obtain ⟨st', hrun, hdb, hadd, hupd, hvpmono, hvcmono, hvlmono,
        hcovP, hcovC, hcovL⟩ :=
        processPapers_noop papers rest { st with skips := st.skips ++ [fn] } hwf hready'
      refine ⟨st', ?_, hdb, hadd, hupd, hvpmono, hvcmono, hvlmono, ?_, ?_, ?_⟩
      · unfold processPapers
        rw [hm]
        exact hrun
      · intro e he pid2 hm2
        rw [List.mem_cons] at he
        rcases he with rfl | he
        · rw [hm] at hm2
          exact Option.noConfusion hm2
        · exact hcovP e he pid2 hm2
      · intro e he pid2 hm2
        rw [List.mem_cons] at he
        rcases he with rfl | he
        · rw [hm] at hm2
          exact Option.noConfusion hm2
        · exact hcovC e he pid2 hm2
      · intro e he pid2 hm2
        rw [List.mem_cons] at he
        rcases he with rfl | he
        · rw [hm] at hm2
          exact Option.noConfusion hm2
        · exact hcovL e he pid2 hm2
    | some pid =>
      have hpready : ProvidersReady st.db fn pid pt :=
        hready (fn, pt) (by simp) pid hm
      obtain ⟨st1, hrun1, hdb1, hadd1, hupd1, hvpmono1, hvcmono1, hvlmono1,
        hcovP1, hcovC1, hcovL1⟩ := processProviders_noop fn pid pt st hwf hpready
      have hready' : TreeReady st1.db papers rest := by
        rw [hdb1]
        intro e he pid2 hm2
        exact hready e (List.mem_cons_of_mem _ he) pid2 hm2
      obtain ⟨st', hrun, hdb, hadd, hupd, hvpmono, hvcmono, hvlmono,
        hcovP, hcovC, hcovL⟩ :=
        processPapers_noop papers rest st1 (by rw [hdb1]; exact hwf) hready'
      refine ⟨st', ?_, by rw [hdb, hdb1], by rw [hadd, hadd1], by rw [hupd, hupd1],
        fun x hx => hvpmono x (hvpmono1 x hx), fun x hx => hvcmono x (hvcmono1 x hx),
        fun x hx => hvlmono x (hvlmono1 x hx), ?_, ?_, ?_⟩
      · unfold processPapers
        rw [hm]
        dsimp only []
        rw [hrun1]
        simp only [exceptBind_ok]
        exact hrun
      · intro e he pid2 hm2
        rw [List.mem_cons] at he
        rcases he with rfl | he
        · rw [hm] at hm2
          injection hm2 with hm2
          subst hm2
          intro e2 he2 p hk
          exact hvpmono p.id (hcovP1 e2 he2 p hk)
        · intro e2 he2 p hk
          refine hcovP e he pid2 hm2 e2 he2 p ?_
          rw [hdb1]
          exact hk
      · intro e he pid2 hm2
        rw [List.mem_cons] at he
        rcases he with rfl | he
        · rw [hm] at hm2
          injection hm2 with hm2
          subst hm2
          intro e2 he2 p hk e3 he3 c hck
          exact hvcmono c.id (hcovC1 e2 he2 p hk e3 he3 c hck)
        · intro e2 he2 p hk e3 he3 c hck
          refine hcovC e he pid2 hm2 e2 he2 p (by rw [hdb1]; exact hk) e3 he3 c ?_
          rw [hdb1]
          exact hck
      · intro e he pid2 hm2
        rw [List.mem_cons] at he
        rcases he with rfl | he
        · rw [hm] at hm2
          injection hm2 with hm2
          subst hm2
          intro e2 he2 p hk e3 he3 c hck j f hj l hlk
          exact hvlmono l.id (hcovL1 e2 he2 p hk e3 he3 c hck j f hj l hlk)
        · intro e2 he2 p hk e3 he3 c hck j f hj l hlk
          refine hcovL e he pid2 hm2 e2 he2 p (by rw [hdb1]; exact hk) e3 he3 c
            (by rw [hdb1]; exact hck) j f hj l ?_
          rw [hdb1]
          exact hlk

/-! ### The GC phase preserves well-formedness and validated rows -/

theorem SyncWF_runGC (t : ScanTree) (papers : List Paper) (st : SyncSt)
    (hwf : SyncWF st.db) : SyncWF (runGC t papers st).1 := by
  have hs := runGC_sublists t papers st
  have hf := runGC_frame t papers st
  have hpmem : ∀ p ∈ (runGC t papers st).1.providers, p ∈ st.db.providers :=
    fun p hp => hs.1.subset hp
  have hcmem : ∀ c ∈ (runGC t papers st).1.courses, c ∈ st.db.courses :=
    fun c hc => hs.2.1.subset hc
  have hlmem : ∀ l ∈ (runGC t papers st).1.lectures, l ∈ st.db.lectures :=
    fun l hl => hs.2.2.subset hl
  refine ⟨⟨?_, ?_, ?_, ?_, ?_, ?_⟩, ?_, ?_, ?_, ?_, ?_⟩
  · exact List.Nodup.sublist (hs.1.map _) hwf.1.1
  · exact List.Nodup.sublist (hs.2.1.map _) hwf.1.2.1
  · exact List.Nodup.sublist (hs.2.2.map _) hwf.1.2.2.1
  · intro p hp
    rw [hf.2.1]
    exact hwf.1.2.2.2.1 p (hpmem p hp)
  · intro c hc
    rw [hf.2.1]
    exact hwf.1.2.2.2.2.1 c (hcmem c hc)
  · intro l hl
    rw [hf.2.1]
    exact hwf.1.2.2.2.2.2 l (hlmem l hl)
  · intro p hp q hq
    exact hwf.2.1 p (hpmem p hp) q (hpmem q hq)
  · intro c hc d hd
    exact hwf.2.2.1 c (hcmem c hc) d (hcmem d hd)
  · intro l hl m hm
    exact hwf.2.2.2.1 l (hlmem l hl) m (hlmem m hm)
  · intro c hc
    rw [hf.2.1]
    exact hwf.2.2.2.2.1 c (hcmem c hc)
  · intro l hl
    rw [hf.2.1]
    exact hwf.2.2.2.2.2 l (hlmem l hl)

theorem runGC_keep_provider {t : ScanTree} {papers : List Paper} {st : SyncSt}
    (hwf : DBWF st.db) {p : Provider} (hp : p ∈ st.db.providers)
    (hv : p.id ∈ st.validProviderIds) : p ∈ (runGC t papers st).1.providers := by
  rw [runGC_providers_mem]
  refine ⟨hp, ?_⟩
  rintro ⟨q, hq, hdead, hqid⟩
  have hqp : q = p := hwf.provider_inj hq hp hqid
  subst hqp
  simp [provDead, hv] at hdead

theorem runGC_keep_course {t : ScanTree} {papers : List Paper} {st : SyncSt}
    (hwf : DBWF st.db) {c : Course} (hc : c ∈ st.db.courses)
    (hv : c.id ∈ st.validCourseIds) : c ∈ (runGC t papers st).1.courses := by
  rw [runGC_courses_mem]
  refine ⟨hc, ?_, ?_⟩
  · rintro ⟨d, hd, hdead, hdid⟩
    have hdc : d = c := hwf.course_inj hd hc hdid
    subst hdc
    simp [courseDeadOne, hv] at hdead
  · rintro ⟨d, hd, hdead, hdid⟩
    have hdc : d = c := hwf.course_inj hd hc hdid
    subst hdc
    simp [courseDeadTwo, hv] at hdead

theorem runGC_keep_lecture {t : ScanTree} {papers : List Paper} {st : SyncSt}
    (hwf : DBWF st.db) {l : Lecture} (hl : l ∈ st.db.lectures)
    (hv : l.id ∈ st.validLectureIds) : l ∈ (runGC t papers st).1.lectures := by
  rw [runGC_lectures_mem]
  refine ⟨hl, ?_⟩
  rintro ⟨m, hm, hdead, hmid⟩
  have hml : m = l := hwf.lecture_inj hm hl hmid
  subst hml
  simp [lectDead, hv] at hdead

theorem runGC_surv_provider {t : ScanTree} {papers : List Paper} {st : SyncSt}
    {p : Provider} (hp : p ∈ (runGC t papers st).1.providers) :
    p ∈ st.db.providers ∧
      (isScannedPaper t papers p.paperId = true → p.id ∈ st.validProviderIds) := by
  rw [runGC_providers_mem] at hp
  refine ⟨hp.1, ?_⟩
  intro hscan
  by_contra hnv
  refine hp.2 ⟨p, hp.1, ?_, rfl⟩
  simp [provDead, hscan, hnv]

theorem runGC_surv_course {t : ScanTree} {papers : List Paper} {st : SyncSt}
    {c : Course} (hc : c ∈ (runGC t papers st).1.courses) :
    c ∈ st.db.courses ∧ c.id ∈ st.validCourseIds := by
  rw [runGC_courses_mem] at hc
  refine ⟨hc.1, ?_⟩
  by_contra hnv
  refine hc.2.2 ⟨c, hc.1, ?_, rfl⟩
  simp [courseDeadTwo, hnv]

theorem runGC_surv_lecture {t : ScanTree} {papers : List Paper} {st : SyncSt}
    {l : Lecture} (hl : l ∈ (runGC t papers st).1.lectures) :
    l ∈ st.db.lectures ∧ l.id ∈ st.validLectureIds := by
  rw [runGC_lectures_mem] at hl
  refine ⟨hl.1, ?_⟩
  by_contra hnv
  refine hl.2 ⟨l, hl.1, ?_, rfl⟩
  simp [lectDead, hnv]

theorem TreeSynced_runGC {t : ScanTree} {papers : List Paper} {st : SyncSt}
    (hwf : DBWF st.db)
    (h : TreeSynced st.db papers t st.validProviderIds st.validCourseIds
      st.validLectureIds) :
    TreeSynced (runGC t papers st).1 papers t st.validProviderIds
      st.validCourseIds st.validLectureIds := by
  intro e he pid hm e2 he2
  obtain ⟨p, ⟨hpm, hppid, hpn⟩, hpv, hcs⟩ := h e he pid hm e2 he2
  refine ⟨p, ⟨runGC_keep_provider hwf hpm hpv, hppid, hpn⟩, hpv, ?_⟩
  intro e3 he3
  obtain ⟨c, ⟨hcm, hcp, hcn⟩, hcf, hcv, hls⟩ := hcs e3 he3
  refine ⟨c, ⟨runGC_keep_course hwf hcm hcv, hcp, hcn⟩, hcf, hcv, ?_⟩
  intro j f hj
  obtain ⟨l, ⟨hlm, hlc, hlf⟩, ho, hv⟩ := hls j f hj
  exact ⟨l, ⟨runGC_keep_lecture hwf hlm hv, hlc, hlf⟩, ho, hv⟩

/-- Claim C1 amended (the original is refuted by
`sync_idempotence_counterexample`, where a provider folder name with leading
whitespace is re-created and then garbage-collected on every pass).
Idempotence does hold under explicit well-formedness: `SyncWF db` (unique
ids, unique case-folded sibling names, parent references below the id
counter) and `TreeWF t` (trimmed, case-insensitively distinct sibling folder
names, distinct file names, distinct matched papers).  Then a pass that
succeeds yields a store on which a second pass over the unchanged tree
returns the same store and all-zero counts: nothing created, no rank or
path update counted, nothing deleted. -/
theorem sync_idempotent {t : ScanTree} {db db1 : DBState} {c1 : Counts}
    (hwf : SyncWF db) (htree : TreeWF t db.papers)
    (h1 : syncStructure t db = .ok (db1, c1)) :
    syncStructure t db1 = .ok (db1, ⟨0, 0, 0⟩) := by
  unfold syncStructure at h1
  cases hp : processPapers db.papers t (initSyncSt db) with
  | error e =>
    rw [hp] at h1
    simp only [exceptBind_err] at h1
    exact absurd h1 (by simp)
  | ok stf =>
    rw [hp] at h1
    simp only [exceptBind_ok, exceptPure, Except.ok.injEq, Prod.mk.injEq] at h1
    obtain ⟨hdb1, hc1⟩ := h1
    have hsync := processPapers_sync db.papers t (initSyncSt db) stf hp
      (by show SyncWF db; exact hwf) rfl htree.1 htree.2
    obtain ⟨hwff, hppf, hnxf, ⟨newp, hpext⟩, ⟨newP, hvpf, hcovPf⟩,
      ⟨newC, hvcf, hcovCf⟩, ⟨newL, hvlf, hcovLf⟩, hsyncT, hcinert, hlinert⟩ := hsync
    have hppf' : stf.db.papers = db.papers := hppf
    have hvpf' : stf.validProviderIds = newP := by
      have hx : stf.validProviderIds = [] ++ newP := hvpf
      simpa using hx
    have hvcf' : stf.validCourseIds = newC := by
      have hx : stf.validCourseIds = [] ++ newC := hvcf
      simpa using hx
    have hvlf' : stf.validLectureIds = newL := by
      have hx : stf.validLectureIds = [] ++ newL := hvlf
      simpa using hx
    have hwf1 : SyncWF db1 := by
      rw [← hdb1]
      exact SyncWF_runGC t db.papers stf hwff
    have hpap1 : db1.papers = db.papers := by
      rw [← hdb1, (runGC_frame t db.papers stf).1]
      exact hppf'
    have hT1 : TreeSynced db1 db.papers t stf.validProviderIds
        stf.validCourseIds stf.validLectureIds := by
      rw [← hdb1]
      exact TreeSynced_runGC hwff.1 hsyncT
    have hready1 : TreeReady db1 db.papers t := hT1.ready
    have hsubs := runGC_sublists t db.papers stf
    obtain ⟨st2, hrun2, hdb2, hadd2, hupd2, hvp2mono, hvc2mono, hvl2mono,
      covP2, covC2, covL2⟩ :=
      processPapers_noop db.papers t (initSyncSt db1)
        (by show SyncWF db1; exact hwf1)
        (by show TreeReady db1 db.papers t; exact hready1)
    have hdb2' : st2.db = db1 := hdb2
    have hadd2' : st2.added = 0 := hadd2
    have hupd2' : st2.updated = 0 := hupd2
    have hgc2 : runGC t db.papers st2 = (st2.db, 0) := by
      refine runGC_noop t db.papers st2 ?_ ?_ ?_
      · intro p hpm
        have hpm1 : p ∈ db1.providers := by
          rw [← hdb2']
          exact hpm
        by_cases hscan : isScannedPaper t db.papers p.paperId = true
        · have hpm0 : p ∈ (runGC t db.papers stf).1.providers := by
            rw [hdb1]
            exact hpm1
          obtain ⟨hpmf, hvp⟩ := runGC_surv_provider hpm0
          have hpv1 : p.id ∈ stf.validProviderIds := hvp hscan
          rw [hvpf'] at hpv1
          obtain ⟨e, he, pid, hm2, e2, he2, q, ⟨hqm, hqpid, hqn⟩, hqid⟩ :=
            hcovPf p.id hpv1
          have hqp : q = p := hwff.1.provider_inj hqm hpmf hqid
          subst hqp
          have hval2 : q.id ∈ st2.validProviderIds :=
            covP2 e he pid hm2 e2 he2 q ⟨hpm1, hqpid, hqn⟩
          simp [provDead, hval2]
        · have hs : isScannedPaper t db.papers p.paperId = false := by
            simpa using hscan
          simp [provDead, hs]
      · intro c hcm
        have hcm1 : c ∈ db1.courses := by
          rw [← hdb2']
          exact hcm
        have hcm0 : c ∈ (runGC t db.papers stf).1.courses := by
          rw [hdb1]
          exact hcm1
        obtain ⟨hcmf, hcv1⟩ := runGC_surv_course hcm0
        rw [hvcf'] at hcv1
        obtain ⟨e, he, pid, hm2, e2, he2, q, ⟨hqm, hqpid, hqn⟩, e3, he3, c2,
          ⟨hc2m, hc2p, hc2n⟩, hc2id⟩ := hcovCf c.id hcv1
        have hc2c : c2 = c := hwff.1.course_inj hc2m hcmf hc2id
        subst hc2c
        obtain ⟨p1, ⟨hp1m, hp1pid, hp1n⟩, hp1v, _⟩ := hT1 e he pid hm2 e2 he2
        have hp1mf : p1 ∈ stf.db.providers := hsubs.1.subset (by
          rw [hdb1]
          exact hp1m)
        have hqp1 : q = p1 := hwff.2.1 q hqm p1 hp1mf (hqpid.trans hp1pid.symm)
          (hqn.trans hp1n.symm)
        have hqm1 : q ∈ db1.providers := by
          rw [hqp1]
          exact hp1m
        have hval2 : c2.id ∈ st2.validCourseIds :=
          covC2 e he pid hm2 e2 he2 q ⟨hqm1, hqpid, hqn⟩ e3 he3 c2
            ⟨hcm1, hc2p, hc2n⟩
        simpa using hval2
      · intro m hlm
        have hlm1 : m ∈ db1.lectures := by
          rw [← hdb2']
          exact hlm
        have hlm0 : m ∈ (runGC t db.papers stf).1.lectures := by
          rw [hdb1]
          exact hlm1
        obtain ⟨hlmf, hlv1⟩ := runGC_surv_lecture hlm0
        rw [hvlf'] at hlv1
        obtain ⟨e, he, pid, hm2, e2, he2, q, ⟨hqm, hqpid, hqn⟩, e3, he3, c2,
          ⟨hc2m, hc2p, hc2n⟩, f, hf, l2, ⟨hl2m, hl2c, hl2f⟩, hl2id⟩ :=
          hcovLf m.id hlv1
        have hl2m' : l2 = m := hwff.1.lecture_inj hl2m hlmf hl2id
        subst hl2m'
        obtain ⟨p1, ⟨hp1m, hp1pid, hp1n⟩, _, hcs1⟩ := hT1 e he pid hm2 e2 he2
        have hp1mf : p1 ∈ stf.db.providers := hsubs.1.subset (by
          rw [hdb1]
          exact hp1m)
        have hqp1 : q = p1 := hwff.2.1 q hqm p1 hp1mf (hqpid.trans hp1pid.symm)
          (hqn.trans hp1n.symm)
        have hqm1 : q ∈ db1.providers := by
          rw [hqp1]
          exact hp1m
        obtain ⟨c1r, ⟨hc1m, hc1p, hc1n⟩, _, _, _⟩ := hcs1 e3 he3
        have hc1mf : c1r ∈ stf.db.courses := hsubs.2.1.subset (by
          rw [hdb1]
          exact hc1m)
        have hcc : c2 = c1r := hwff.2.2.1 c2 hc2m c1r hc1mf
          (hc2p.trans (by rw [hqp1]; exact hc1p.symm)) (hc2n.trans hc1n.symm)
        have hc2m1 : c2 ∈ db1.courses := by
          rw [hcc]
          exact hc1m
        obtain ⟨j, hj⟩ := List.mem_iff_get?.mp hf
        have hval2 : l2.id ∈ st2.validLectureIds :=
          covL2 e he pid hm2 e2 he2 q ⟨hqm1, hqpid, hqn⟩ e3 he3 c2
            ⟨hc2m1, hc2p, hc2n⟩ j f hj l2 ⟨hlm1, hl2c, hl2f⟩
        simpa using hval2
    unfold syncStructure
    rw [hpap1, hrun2]
    simp only [exceptBind_ok]
    rw [hgc2]
    dsimp only []
    rw [exceptPure, hdb2', hadd2', hupd2']

/-- Counterexample to claim C1 as stated: a provider folder named
`" Vision"` (leading space).  Every pass stores the provider under the
trimmed name `"Vision"`, so the next pass's case-insensitive lookup of
`" Vision"` misses, creates a fresh duplicate row and then garbage-collects
the previous one: the second pass over the unchanged tree reports
`{created: 0, updated: 0, deleted: 1}`, not all zeros. -/
theorem sync_idempotence_counterexample :
    syncStructure cexTree c6DB = .ok (c1cexRun1.1, c1cexRun1.2) ∧
    syncStructure cexTree c1cexRun1.1 = .ok (c1cexRun2.1, c1cexRun2.2) ∧
    c1cexRun2.2 = ⟨0, 0, 1⟩ ∧ c1cexRun2.2 ≠ ⟨0, 0, 0⟩ :=
  ⟨rfl, rfl, rfl, by decide⟩

theorem sync_idempotent_witness :
    syncStructure gcDemoTree c1Run.1 = .ok (c1Run.1, ⟨0, 0, 0⟩) :=
  @sync_idempotent gcDemoTree c6DB c1Run.1 c1Run.2 (by decide) (by decide) (by rfl)

end StudyDesk
